import Mathlib

/-!
# HashedObjectStore: a shallow embedding

Embedding of `src/modules/ripple_app/node/ripple_HashedObjectStore.cpp`.

Conventions of the embedding.

* Machine integers are natural numbers; narrowing conversions are written
  with an explicit `%`.  A byte is a natural number below 256, a `Blob` is a
  list of bytes.  The write generation, an `int` that is only ever
  incremented and compared, is an integer kept in the range of 32 bits by
  `intWrap`.
* The host is little-endian (x86): `ntohl` and `htonl` swap the four bytes of
  a 32-bit word and a `uint32` store or load through a reinterpreted pointer
  takes the least significant byte first.  `wire32_bigEndianHost` shows that
  a big-endian host puts the same bytes on disk.
* `assert` is a debug-only check; the embedding follows the release build, in
  which it is compiled out.  `PARANOID` and `NO_SQLITE3_PREPARE` are not
  defined.
* Backend I/O errors are not modelled: a database is a finite map.
* Cache ageing (target size, target age, the 120 second expiry of the
  negative cache) is not modelled: no entry is evicted.
-/

namespace Ripple

/-! ## Bytes and words -/

/-- A byte buffer (`Blob`, `std::string` used as a buffer). -/
abbrev Blob := List Nat

/-- Byte swap of a 32-bit word. -/
def bswap32 (x : Nat) : Nat :=
  (x % 256) * 16777216 + (x / 256 % 256) * 65536 + (x / 65536 % 256) * 256
    + (x / 16777216 % 256)

/-- The C library `ntohl` on a little-endian host. -/
def ntohl (x : Nat) : Nat := bswap32 x

/-- The C library `htonl` on a little-endian host. -/
def htonl (x : Nat) : Nat := bswap32 x

/-- The C library `memcpy (buf + off, src, src.size ())`. -/
def memcpy (buf : Blob) (off : Nat) (src : Blob) : Blob :=
  buf.take off ++ src ++ buf.drop (off + src.length)

/-- The store `*reinterpret_cast<uint32*> (buf + off) = v` on a little-endian host. -/
def storeU32 (buf : Blob) (off : Nat) (v : Nat) : Blob :=
  memcpy buf off [v % 256, v / 256 % 256, v / 65536 % 256, v / 16777216 % 256]

/-- The load `*reinterpret_cast<const uint32*> (buf + off)` on a little-endian host. -/
def loadU32 (buf : Blob) (off : Nat) : Nat :=
  buf.getD off 0 + buf.getD (off + 1) 0 * 256 + buf.getD (off + 2) 0 * 65536
    + buf.getD (off + 3) 0 * 16777216

/-- The store `* (buf + off) = static_cast<unsigned char> (v)`. -/
def storeU8 (buf : Blob) (off : Nat) (v : Nat) : Blob :=
  memcpy buf off [v % 256]

/-- The four bytes of a 32-bit word in network (big-endian) order. -/
def be32 (x : Nat) : Blob :=
  [x / 16777216 % 256, x / 65536 % 256, x / 256 % 256, x % 256]

/-- The value that a 32-bit `int` holds after an arithmetic result `x`: the
result wrapped into the range from -2^31 to 2^31 - 1 (two's complement, which
is what the increment of an `int` compiles to). -/
def intWrap (x : Int) : Int := (x + 2147483648) % 4294967296 - 2147483648

/-- The store `*reinterpret_cast<uint32*> (buf + off) = ntohl (x)` on a
big-endian host, where `ntohl` is the identity and the most significant byte
comes first. -/
def storeNetU32BigEndianHost (buf : Blob) (off : Nat) (x : Nat) : Blob :=
  memcpy buf off [x / 16777216 % 256, x / 65536 % 256, x / 256 % 256, x % 256]

/-! ## Records -/

/-- Modelled from the spec: the `uint256` class is not among the sources.  A
256-bit hash is held as its 32 raw bytes, the range `begin ()` to
`begin () + size ()` that the key slices are made from. -/
structure uint256 where
  pn : List Nat
  deriving DecidableEq, Repr

/-- The test `isZero ()`. -/
def uint256.isZero (h : uint256) : Bool := h.pn.all (fun b => b == 0)

/-- Modelled from the spec: the enumeration `NodeObjectType` is declared in a
header that is not among the sources; a value of it is its numeric value
(§4.4: 0 Unknown, 1 Ledger, 2 Transaction, 3 AccountNode, 4 TransactionNode). -/
abbrev NodeObjectType := Nat

/-- Modelled from the spec: enumerator 0 of `NodeObjectType` (§4.4). -/
def hotUNKNOWN : NodeObjectType := 0
/-- Modelled from the spec: enumerator 1 of `NodeObjectType` (§4.4). -/
def hotLEDGER : NodeObjectType := 1
/-- Modelled from the spec: enumerator 2 of `NodeObjectType` (§4.4). -/
def hotTRANSACTION : NodeObjectType := 2
/-- Modelled from the spec: enumerator 3 of `NodeObjectType` (§4.4). -/
def hotACCOUNT_NODE : NodeObjectType := 3
/-- Modelled from the spec: enumerator 4 of `NodeObjectType` (§4.4). -/
def hotTRANSACTION_NODE : NodeObjectType := 4

/-- Modelled from the spec: the class `NodeObject` (§3 ObjectRecord) is not
among the sources; it is the immutable record of type, hash, ledger index and
payload that the constructor `NodeObject (type, index, data, hash)` builds. -/
structure NodeObject where
  mType : NodeObjectType
  mHash : uint256
  mLedgerIndex : Nat
  mData : Blob
  deriving DecidableEq, Repr

/-- The constructor call `boost::make_shared<NodeObject> (type, index, data, hash)`. -/
def NodeObject.make (type : NodeObjectType) (index : Nat) (data : Blob) (hash : uint256) :
    NodeObject :=
  { mType := type, mHash := hash, mLedgerIndex := index, mData := data }

/-! ## The unordered key-value backend -/

/-- A `leveldb::Slice`. -/
abbrev Slice := List Nat

/-- The key slice `Slice (hash.begin (), hash.size ())`. -/
def uint256.slice (h : uint256) : Slice := h.pn

/-- Contents of a `leveldb::DB`: the bindings, the most recent first. -/
structure LevelDB where
  entries : List (Slice × Slice)
  deriving DecidableEq, Repr

/-- The call `db->Get (key, &value)`: `none` is the status NotFound. -/
def LevelDB.Get (db : LevelDB) (key : Slice) : Option Slice :=
  db.entries.lookup key

/-- The call `db->Put (key, value)`. -/
def LevelDB.Put (db : LevelDB) (key value : Slice) : LevelDB :=
  { entries := (key, value) :: db.entries }

/-- A `leveldb::WriteBatch`: the recorded `Put` calls, in call order. -/
structure WriteBatch where
  puts : List (Slice × Slice)
  deriving DecidableEq, Repr

/-- The call `batch.Put (key, value)`. -/
def WriteBatch.Put (b : WriteBatch) (key value : Slice) : WriteBatch :=
  { puts := b.puts ++ [(key, value)] }

/-- The call `db->Write (&batch)`: the recorded calls are applied in order. -/
def LevelDB.Write (db : LevelDB) (b : WriteBatch) : LevelDB :=
  b.puts.foldl (fun d kv => d.Put kv.1 kv.2) db

/-- Low-level retrieve, `LLRetrieve (hash, db)` (source lines 49-68).  Every
writer stores at least the nine bytes of the header.  On a stored value
shorter than that the source reads past the buffer and hands the constructor
a wrapped size; here such a value reads as if padded with zero bytes, and
nothing is claimed about it. -/
def LLRetrieve (hash : uint256) (db : LevelDB) : Option NodeObject :=
  match db.Get hash.slice with
  | none => none
  | some sData =>
    let index := htonl (loadU32 sData 0)
    let htype := sData.getD 8 0
    some { mType := htype, mHash := hash, mLedgerIndex := index, mData := sData.drop 9 }

/-- Low-level write of one record, `LLWrite (ptr, db)` (source lines 71-91). -/
def LLWrite (obj : NodeObject) (db : LevelDB) : LevelDB :=
  let rawData : Blob := List.replicate (9 + obj.mData.length) 0
  let rawData := storeU32 rawData 0 (ntohl obj.mLedgerIndex)
  let rawData := storeU32 rawData 4 (ntohl obj.mLedgerIndex)
  let rawData := storeU8 rawData 8 obj.mType
  let rawData := memcpy rawData 9 obj.mData
  db.Put obj.mHash.slice rawData

/-- The batch that the loop of `LLWrite (set, db)` builds (source lines 96-111). -/
def LLWriteBatch (set : List NodeObject) : WriteBatch :=
  set.foldl
    (fun batch obj =>
      let rawData : Blob := List.replicate (9 + obj.mData.length) 0
      let rawData := storeU32 rawData 0 (ntohl obj.mLedgerIndex)
      let rawData := storeU32 rawData 4 (ntohl obj.mLedgerIndex)
      let rawData := storeU8 rawData 8 obj.mType
      let rawData := memcpy rawData 9 obj.mData
      batch.Put obj.mHash.slice rawData)
    { puts := [] }

/-- Low-level write of a set, `LLWrite (set, db)` (source lines 94-120). -/
def LLWriteSet (set : List NodeObject) (db : LevelDB) : LevelDB :=
  db.Write (LLWriteBatch set)

/-- The value layout of §4.4, in the spec's words: the index twice in network
order, the type byte, the payload. -/
def specValue (obj : NodeObject) : Blob :=
  be32 obj.mLedgerIndex ++ be32 obj.mLedgerIndex ++ [obj.mType % 256] ++ obj.mData

/-! ## Caches -/

/-- Modelled from the spec: the class `TaggedCache` (§4.1 PositiveCache) is not
among the sources.  The cache is the list of its entries in order of
admission, at most one per hash; sweeping by size and age is not modelled. -/
structure TaggedCache where
  entries : List (uint256 × NodeObject)
  deriving DecidableEq, Repr

/-- Modelled from the spec: `fetch (hash)` of §4.1, the cached instance if
the hash is present. -/
def TaggedCache.fetch (c : TaggedCache) (key : uint256) : Option NodeObject :=
  c.entries.lookup key

/-- Modelled from the spec: `touch (hash)` of §4.1, whether the hash is
present (the access time it refreshes is not modelled). -/
def TaggedCache.touch (c : TaggedCache) (key : uint256) : Bool :=
  (c.entries.lookup key).isSome

/-- Modelled from the spec: `canonicalize (hash, candidate)` of §4.1.  If the
hash is present the candidate is dropped and the caller's reference becomes
the existing instance; if it is absent the candidate is inserted.  The result
is the flag, the cache, and the caller's reference afterwards.  The flag is
`true` when the hash was already present: that is the reading the call sites
of the source fix (lines 138-149 and 249-264 queue the write when the flag is
`false`, and the disabled trace line in the other branch reads `already had`);
§4.1 words the flag the other way round, see `TaggedCache.canonicalizeSpecFlag`. -/
def TaggedCache.canonicalize (c : TaggedCache) (key : uint256) (data : NodeObject) :
    Bool × TaggedCache × NodeObject :=
  match c.entries.lookup key with
  | some existing => (true, c, existing)
  | none => (false, { entries := c.entries ++ [(key, data)] }, data)

/-- The flag of `canonicalize` in the words of §4.1: `true` iff the hash was
absent and the candidate was inserted. -/
def TaggedCache.canonicalizeSpecFlag (c : TaggedCache) (key : uint256) : Bool :=
  (c.entries.lookup key).isNone

/-- Number of entries the cache holds for a hash. -/
def TaggedCache.count (c : TaggedCache) (key : uint256) : Nat :=
  c.entries.countP (fun e => e.1 == key)

/-- Modelled from the spec: the class `KeyCache` (§4.2 NegativeCache) is not
among the sources.  The cache is the list of hashes it holds; expiry is not
modelled. -/
structure KeyCache where
  keys : List uint256
  deriving DecidableEq, Repr

/-- Modelled from the spec: `is_present (hash)` of §4.2. -/
def KeyCache.isPresent (c : KeyCache) (key : uint256) : Bool :=
  c.keys.contains key

/-- Modelled from the spec: `add (hash)` of §4.2. -/
def KeyCache.add (c : KeyCache) (key : uint256) : KeyCache :=
  if c.keys.contains key then c else { keys := key :: c.keys }

/-- Modelled from the spec: `del (hash)` of §4.2. -/
def KeyCache.del (c : KeyCache) (key : uint256) : KeyCache :=
  { keys := c.keys.filter (fun k => k != key) }

/-! ## The SQL backend -/

/-- A row of the table `CommittedObjects (Hash, ObjType, LedgerIndex, Object)`.
The `Hash` column holds `GetHex ()` of the hash, a one-to-one rendering; the
row keeps the hash itself. -/
structure SqlRow where
  Hash : uint256
  ObjType : String
  LedgerIndex : Nat
  Object : Blob
  deriving DecidableEq, Repr

/-- Modelled from the spec: the SQL database behind `getHashNodeDB ()` (§4.3),
reduced to its table `CommittedObjects`, whose `Hash` column is the primary
key. -/
structure Database where
  CommittedObjects : List SqlRow
  deriving DecidableEq, Repr

/-- The statement `SELECT ObjType,LedgerIndex,Object FROM CommittedObjects WHERE Hash = ?`. -/
def Database.select (db : Database) (hash : uint256) : Option SqlRow :=
  db.CommittedObjects.find? (fun r => r.Hash == hash)

/-- The statement `INSERT OR IGNORE INTO CommittedObjects ... VALUES (?, ?, ?, ?)`:
a row whose key is already in the table is skipped. -/
def Database.insertOrIgnore (db : Database) (row : SqlRow) : Database :=
  if (db.select row.Hash).isSome then db
  else { CommittedObjects := db.CommittedObjects ++ [row] }

/-- The character `type[0]` of a `std::string`; it is the terminating zero
when the string is empty. -/
def firstChar (type : String) : Char := type.data.headD (Char.ofNat 0)

/-! ## The store -/

/-- The jobs `addJob` is called with. -/
inductive Job where
  | bulkWriteLevelDB
  | bulkWriteSQLite
  deriving DecidableEq, Repr

/-- A read of a backend: observation only, no code depends on it. -/
inductive DbRead where
  | primary (hash : uint256)
  | ephemeral (hash : uint256)
  deriving DecidableEq, Repr

/-- What `getApp ()` gives access to: the primary key-value database (absent
when the pointer is null), the ephemeral key-value database, the primary SQL
database (absent when the pointer is null), the jobs added to the job queue
and not yet started, and the log of backend reads (most recent first). -/
structure Application where
  hashNodeLDB : Option LevelDB
  ephemeralLDB : LevelDB
  hashNodeDB : Option Database
  jobQueue : List Job
  dbReads : List DbRead
  deriving DecidableEq, Repr

/-- The configuration fields the constructor reads. -/
structure Config where
  NODE_DB : String
  LDB_EPHEMERAL : String
  deriving DecidableEq, Repr

/-- The members of `HashedObjectStore`, together with the application state
that `getApp ()` reaches. -/
structure HashedObjectStore where
  mCache : TaggedCache
  mNegativeCache : KeyCache
  mWriteSet : List NodeObject
  mWriteGeneration : Int
  mWriteLoad : Nat
  mWritePending : Bool
  mLevelDB : Bool
  mEphemeralDB : Bool
  app : Application
  deriving DecidableEq, Repr

namespace HashedObjectStore

/-- The constructor (source lines 7-25), over a given application state. -/
def ctor (theConfig : Config) (app : Application) : HashedObjectStore :=
  { mCache := { entries := [] }
    mNegativeCache := { keys := [] }
    mWriteSet := []
    mWriteGeneration := 0
    mWriteLoad := 0
    mWritePending := false
    mLevelDB :=
      if theConfig.NODE_DB == "leveldb" || theConfig.NODE_DB == "LevelDB" then true
      else if theConfig.NODE_DB == "SQLite" || theConfig.NODE_DB == "sqlite" then false
      else false
    mEphemeralDB := !theConfig.LDB_EPHEMERAL.isEmpty
    app := app }

/-- The function `getWriteLoad` (source lines 42-46). -/
def getWriteLoad (self : HashedObjectStore) : Nat :=
  max self.mWriteLoad self.mWriteSet.length

/-- Records a backend read in the observation log. -/
def noteRead (self : HashedObjectStore) (r : DbRead) : HashedObjectStore :=
  { self with app := { self.app with dbReads := r :: self.app.dbReads } }

/-- The locked block of `storeLevelDB` and `storeSQLite` (source lines 140-148,
252-260): the record is appended to the write set and, if no write is
pending, the flag is set and the drain job is added to the queue. -/
def enqueue (self : HashedObjectStore) (object : NodeObject) (job : Job) : HashedObjectStore :=
  let self := { self with mWriteSet := self.mWriteSet ++ [object] }
  if !self.mWritePending then
    { self with
      mWritePending := true
      app := { self.app with jobQueue := self.app.jobQueue ++ [job] } }
  else self

/-- The part of `storeLevelDB` after `touch` has missed (source lines 136-152). -/
def storeLevelDBAdmit (self : HashedObjectStore) (type : NodeObjectType) (index : Nat)
    (data : Blob) (hash : uint256) : Bool × HashedObjectStore :=
  let object := NodeObject.make type index data hash
  let r := self.mCache.canonicalize hash object
  let self := { self with mCache := r.2.1 }
  let self := if !r.1 then self.enqueue object Job.bulkWriteLevelDB else self
  (true, { self with mNegativeCache := self.mNegativeCache.del hash })

/-- The function `storeLevelDB` (source lines 122-153). -/
def storeLevelDB (self : HashedObjectStore) (type : NodeObjectType) (index : Nat)
    (data : Blob) (hash : uint256) : Bool × HashedObjectStore :=
  if self.app.hashNodeLDB.isNone then (true, self)
  else if self.mCache.touch hash then (false, self)
  else self.storeLevelDBAdmit type index data hash

/-- The part of `storeSQLite` after `touch` has missed (source lines 247-267). -/
def storeSQLiteAdmit (self : HashedObjectStore) (type : NodeObjectType) (index : Nat)
    (data : Blob) (hash : uint256) : Bool × HashedObjectStore :=
  let object := NodeObject.make type index data hash
  let r := self.mCache.canonicalize hash object
  let self := { self with mCache := r.2.1 }
  let self := if !r.1 then self.enqueue object Job.bulkWriteSQLite else self
  (true, { self with mNegativeCache := self.mNegativeCache.del hash })

/-- The function `storeSQLite` (source lines 229-268). -/
def storeSQLite (self : HashedObjectStore) (type : NodeObjectType) (index : Nat)
    (data : Blob) (hash : uint256) : Bool × HashedObjectStore :=
  if self.app.hashNodeDB.isNone then (true, self)
  else if self.mCache.touch hash then (false, self)
  else self.storeSQLiteAdmit type index data hash

/-- Outcome of the locked block of a drain pass. -/
inductive Swap where
  | finished (self : HashedObjectStore)
  | batch (self : HashedObjectStore) (set : List NodeObject) (setSize : Nat)
  deriving DecidableEq, Repr

/-- The locked block of a drain pass (source lines 165-182 and 280-296): the
write set is swapped out and the generation advances; on an empty batch the
pending flag and the load are cleared and the job returns, otherwise the load
and the batch size are updated. -/
def drainSwap (self : HashedObjectStore) (setSize : Nat) : Swap :=
  let set := self.mWriteSet
  let self := { self with mWriteSet := [] }
  let self := { self with mWriteGeneration := intWrap (self.mWriteGeneration + 1) }
  if set.isEmpty then
    Swap.finished { self with mWritePending := false, mWriteLoad := 0 }
  else
    Swap.batch { self with mWriteLoad := max setSize self.mWriteSet.length } set set.length

/-- The unlocked tail of a pass of `bulkWriteLevelDB` (source lines 184-187);
`none` when the primary database pointer is null. -/
def writeOutLevelDB (self : HashedObjectStore) (set : List NodeObject) :
    Option HashedObjectStore :=
  match self.app.hashNodeLDB with
  | none => none
  | some db =>
    let self := { self with app := { self.app with hashNodeLDB := some (LLWriteSet set db) } }
    if self.mEphemeralDB then
      some { self with
        app := { self.app with ephemeralLDB := LLWriteSet set self.app.ephemeralLDB } }
    else some self

/-- The loop of `bulkWriteLevelDB` (source lines 160-188), bounded by `fuel`
passes; `none` when the fuel runs out or a null database is written. -/
def bulkWriteLevelDBLoop : Nat → HashedObjectStore → Nat → Option HashedObjectStore
  | 0, _, _ => none
  | fuel + 1, self, setSize =>
    match self.drainSwap setSize with
    | Swap.finished self => some self
    | Swap.batch self set setSize =>
      match self.writeOutLevelDB set with
      | none => none
      | some self => bulkWriteLevelDBLoop fuel self setSize

/-- The job `bulkWriteLevelDB` (source lines 155-189). -/
def bulkWriteLevelDB (fuel : Nat) (self : HashedObjectStore) : Option HashedObjectStore :=
  bulkWriteLevelDBLoop fuel self 0

/-- The type letter chosen by the `switch` of `bulkWriteSQLite` (source lines 323-343). -/
def typeLetter (type : NodeObjectType) : String :=
  if type = hotLEDGER then "L"
  else if type = hotTRANSACTION then "T"
  else if type = hotACCOUNT_NODE then "A"
  else if type = hotTRANSACTION_NODE then "N"
  else "U"

/-- The insert loop of `bulkWriteSQLite` (source lines 319-358). -/
def insertSet (set : List NodeObject) (db : Database) : Database :=
  set.foldl
    (fun db it =>
      db.insertOrIgnore
        { Hash := it.mHash, ObjType := typeLetter it.mType, LedgerIndex := it.mLedgerIndex,
          Object := it.mData })
    db

/-- The unlocked tail of a pass of `bulkWriteSQLite` (source lines 301-362): the
ephemeral database is written first, then the table inside one transaction;
`none` when the primary database pointer is null. -/
def writeOutSQLite (self : HashedObjectStore) (set : List NodeObject) :
    Option HashedObjectStore :=
  let self :=
    if self.mEphemeralDB then
      { self with
        app := { self.app with ephemeralLDB := LLWriteSet set self.app.ephemeralLDB } }
    else self
  match self.app.hashNodeDB with
  | none => none
  | some db => some { self with app := { self.app with hashNodeDB := some (insertSet set db) } }

/-- The loop of `bulkWriteSQLite` (source lines 275-410), bounded by `fuel`
passes; `none` when the fuel runs out or a null database is written. -/
def bulkWriteSQLiteLoop : Nat → HashedObjectStore → Nat → Option HashedObjectStore
  | 0, _, _ => none
  | fuel + 1, self, setSize =>
    match self.drainSwap setSize with
    | Swap.finished self => some self
    | Swap.batch self set setSize =>
      match self.writeOutSQLite set with
      | none => none
      | some self => bulkWriteSQLiteLoop fuel self setSize

/-- The job `bulkWriteSQLite` (source lines 270-411). -/
def bulkWriteSQLite (fuel : Nat) (self : HashedObjectStore) : Option HashedObjectStore :=
  bulkWriteSQLiteLoop fuel self 0

/-- The tail shared by both retrievals once a record has been read from the
primary backend (source lines 220-226 and 525-531): the record is
canonicalized into the cache and, with an ephemeral database, written to it. -/
def admitRetrieved (self : HashedObjectStore) (hash : uint256) (obj : NodeObject) :
    Option NodeObject × HashedObjectStore :=
  let r := self.mCache.canonicalize hash obj
  let self := { self with mCache := r.2.1 }
  let self :=
    if self.mEphemeralDB then
      { self with app := { self.app with ephemeralLDB := LLWrite r.2.2 self.app.ephemeralLDB } }
    else self
  (some r.2.2, self)

/-- The ephemeral lookup of both retrievals (source lines 198-207 and 423-432):
on a hit the record is canonicalized into the cache and is the result. -/
def retrieveEphemeral (self : HashedObjectStore) (hash : uint256) :
    Option NodeObject × HashedObjectStore :=
  if self.mEphemeralDB then
    let self := self.noteRead (DbRead.ephemeral hash)
    match LLRetrieve hash self.app.ephemeralLDB with
    | some obj =>
      let r := self.mCache.canonicalize hash obj
      (some r.2.2, { self with mCache := r.2.1 })
    | none => (none, self)
  else (none, self)

/-- The function `retrieveLevelDB` (source lines 191-227). -/
def retrieveLevelDB (self : HashedObjectStore) (hash : uint256) :
    Option NodeObject × HashedObjectStore :=
  let obj := self.mCache.fetch hash
  if obj.isSome || self.mNegativeCache.isPresent hash || self.app.hashNodeLDB.isNone then
    (obj, self)
  else
    match self.retrieveEphemeral hash with
    | (some obj, self) => (some obj, self)
    | (none, self) =>
      match self.app.hashNodeLDB with
      | none => (none, self)
      | some db =>
        let self := self.noteRead (DbRead.primary hash)
        match LLRetrieve hash db with
        | none => (none, { self with mNegativeCache := self.mNegativeCache.add hash })
        | some obj => self.admitRetrieved hash obj

/-- The type decoded by the `switch` of `retrieveSQLite` (source lines 497-522);
`none` is the `default` branch. -/
def typeOfLetter (c : Char) : Option NodeObjectType :=
  if c = 'L' then some hotLEDGER
  else if c = 'T' then some hotTRANSACTION
  else if c = 'A' then some hotACCOUNT_NODE
  else if c = 'N' then some hotTRANSACTION_NODE
  else none

/-- The function `retrieveSQLite` (source lines 413-532). -/
def retrieveSQLite (self : HashedObjectStore) (hash : uint256) :
    Option NodeObject × HashedObjectStore :=
  let obj := self.mCache.fetch hash
  if obj.isSome then (obj, self)
  else if self.mNegativeCache.isPresent hash then (obj, self)
  else
    match self.retrieveEphemeral hash with
    | (some obj, self) => (some obj, self)
    | (none, self) =>
      match self.app.hashNodeDB with
      | none => (none, self)
      | some db =>
        let self := self.noteRead (DbRead.primary hash)
        match db.select hash with
        | none => (none, { self with mNegativeCache := self.mNegativeCache.add hash })
        | some row =>
          let type := row.ObjType
          let index := row.LedgerIndex % 4294967296
          let data := row.Object
          match typeOfLetter (firstChar type) with
          | none => (none, { self with mNegativeCache := self.mNegativeCache.add hash })
          | some htype => self.admitRetrieved hash (NodeObject.make htype index data hash)

/-- Modelled from the spec: the entry point `store` is defined in a header that
is not among the sources; the backend variant is fixed at construction (§4.3)
and `store` runs the variant that `mLevelDB` selects. -/
def store (self : HashedObjectStore) (type : NodeObjectType) (index : Nat)
    (data : Blob) (hash : uint256) : Bool × HashedObjectStore :=
  if self.mLevelDB then self.storeLevelDB type index data hash
  else self.storeSQLite type index data hash

/-- Modelled from the spec: the entry point `retrieve` is defined in a header
that is not among the sources; it runs the variant that `mLevelDB` selects
(§4.3). -/
def retrieve (self : HashedObjectStore) (hash : uint256) :
    Option NodeObject × HashedObjectStore :=
  if self.mLevelDB then self.retrieveLevelDB hash else self.retrieveSQLite hash

/-- Whether the primary backend of the selected variant is configured (its
database pointer is not null). -/
def primaryConfigured (self : HashedObjectStore) : Bool :=
  if self.mLevelDB then self.app.hashNodeLDB.isSome else self.app.hashNodeDB.isSome

/-- A run of `store` calls with one hash, issued one after another; a call
is given by its type, index and payload. -/
def storeAll (self : HashedObjectStore) (hash : uint256)
    (calls : List (NodeObjectType × Nat × Blob)) : HashedObjectStore :=
  calls.foldl (fun s c => (s.store c.1 c.2.1 c.2.2 hash).2) self

/-- The shapes of the state after a retrieval that returned nothing. -/
inductive MissShape (self : HashedObjectStore) (hash : uint256) :
    HashedObjectStore → Prop where
  | negativeHit (h : self.mNegativeCache.isPresent hash = true) : MissShape self hash self
  | noPrimary (h : self.primaryConfigured = false) (reads : List DbRead)
      (hr : reads = self.app.dbReads ∨ reads = DbRead.ephemeral hash :: self.app.dbReads) :
      MissShape self hash { self with app := { self.app with dbReads := reads } }
  | primaryMiss (h : self.primaryConfigured = true) (reads : List DbRead)
      (hr : reads = self.app.dbReads ∨ reads = DbRead.ephemeral hash :: self.app.dbReads) :
      MissShape self hash
        { self with
          mNegativeCache := self.mNegativeCache.add hash
          app := { self.app with dbReads := DbRead.primary hash :: reads } }

/-- No hash is in both the positive and the negative cache. -/
def CachesDisjoint (self : HashedObjectStore) : Prop :=
  ∀ e ∈ self.mCache.entries, self.mNegativeCache.isPresent e.1 = false

instance (self : HashedObjectStore) : Decidable (CachesDisjoint self) := by
  unfold CachesDisjoint
  infer_instance

/-- The type chosen by the `switch` of the migration loop (source lines
571-594); the `default` branch leaves `hotUNKNOWN`. -/
def importType (c : Char) : NodeObjectType :=
  if c = 'L' then hotLEDGER
  else if c = 'T' then hotTRANSACTION
  else if c = 'A' then hotACCOUNT_NODE
  else if c = 'N' then hotTRANSACTION_NODE
  else hotUNKNOWN

/-- The body of the migration loop for one row (source lines 547-609), on the
primary database and the running count.  The `Hash` column of the row is read
through `SetHexExact`; the row keeps the hash itself. -/
def importRow (st : LevelDB × Nat) (row : SqlRow) : LevelDB × Nat :=
  let hash := row.Hash
  if hash.isZero then st
  else
    let size := row.Object.length
    let rawData : Blob := List.replicate (9 + size) 0
    let rawData := memcpy rawData 9 row.Object
    let index := row.LedgerIndex % 4294967296
    let rawData := storeU32 rawData 0 (ntohl index)
    let rawData := storeU32 rawData 4 (ntohl index)
    let htype := importType (firstChar row.ObjType)
    let rawData := storeU8 rawData 8 htype
    (st.1.Put hash.slice rawData, st.2 + 1)

/-- The migration function of the source (lines 534-619), over the rows that
`SELECT * FROM CommittedObjects` yields from the legacy database; `none` when
the primary database pointer is null. -/
def importFile (self : HashedObjectStore) (importDB : Database) :
    Option (Nat × HashedObjectStore) :=
  match self.app.hashNodeLDB with
  | none => none
  | some db =>
    let r := importDB.CommittedObjects.foldl importRow (db, 0)
    some (r.2, { self with app := { self.app with hashNodeLDB := some r.1 } })

/-- The key-value pair that the migration writes for a row, in the words of
§4.4 and §4.8. -/
def importPair (row : SqlRow) : Slice × Slice :=
  (row.Hash.pn,
    be32 row.LedgerIndex ++ be32 row.LedgerIndex ++ [importType (firstChar row.ObjType)]
      ++ row.Object)

/-- The job that the store variant in use binds in `addJob` (source lines
146-147 and 258-259). -/
def ownJob (self : HashedObjectStore) : Job :=
  if self.mLevelDB then Job.bulkWriteLevelDB else Job.bulkWriteSQLite

/-- The function `waitWrite` up to its first test of the loop condition
(source lines 35-38): under the mutex the generation is read into `gen`; the
call returns at once unless a write is pending.  The record keeps `gen`, and
for observation the pending flag at entry and the generation at return. -/
structure Waiter where
  gen : Int
  pendingAtEntry : Bool
  returnedAt : Option Int
  deriving DecidableEq, Repr

/-- The loop condition of `waitWrite` (source line 38). -/
def waitCondition (self : HashedObjectStore) (gen : Int) : Bool :=
  self.mWritePending && (self.mWriteGeneration == gen)

/-- Entry of `waitWrite` (source lines 35-38). -/
def waitEnter (self : HashedObjectStore) : Waiter :=
  let gen := self.mWriteGeneration
  { gen := gen
    pendingAtEntry := self.mWritePending
    returnedAt := if self.waitCondition gen then none else some self.mWriteGeneration }

/-- A wake-up of a waiting `waitWrite` (source lines 38-39): the mutex is
taken again and the loop condition is tested; `none` when the call has
returned already. -/
def waitWake (self : HashedObjectStore) (w : Waiter) : Option Waiter :=
  match w.returnedAt with
  | some _ => none
  | none =>
    some (if self.waitCondition w.gen then w
          else { w with returnedAt := some self.mWriteGeneration })

/-- Where a `store` call in flight stands: before the test of the primary
pointer and `touch`; after a miss of `touch`, before `canonicalize`; after a
`false` result of `canonicalize`, before the locked block; before
`mNegativeCache.del`; returned with its result. -/
inductive StorePc where
  | entry
  | construct
  | locked
  | del
  | returned (result : Bool)
  deriving DecidableEq, Repr

/-- A `store` call in flight: its arguments, where it stands, and for
observation whether it has gone through the locked block. -/
structure StoreCall where
  type : NodeObjectType
  index : Nat
  data : Blob
  hash : uint256
  pc : StorePc
  queued : Bool
  deriving DecidableEq, Repr

/-- A `store` call that a thread has just entered. -/
def StoreCall.enter (type : NodeObjectType) (index : Nat) (data : Blob) (hash : uint256) :
    StoreCall :=
  { type := type, index := index, data := data, hash := hash, pc := StorePc.entry,
    queued := false }

/-- One atomic step of a `store` call of the variant in use (source lines
126-152 and 233-267): the test of the primary pointer with `touch`; the
construction of the record with `canonicalize`; the locked block; the delete
from the negative cache.  The cache operations and the locked block are
atomic; `none` when the call has returned. -/
def storeStep (self : HashedObjectStore) (c : StoreCall) :
    Option (HashedObjectStore × StoreCall) :=
  match c.pc with
  | StorePc.entry =>
    if !self.primaryConfigured then some (self, { c with pc := StorePc.returned true })
    else if self.mCache.touch c.hash then some (self, { c with pc := StorePc.returned false })
    else some (self, { c with pc := StorePc.construct })
  | StorePc.construct =>
    let object := NodeObject.make c.type c.index c.data c.hash
    let r := self.mCache.canonicalize c.hash object
    let self := { self with mCache := r.2.1 }
    if !r.1 then some (self, { c with pc := StorePc.locked })
    else some (self, { c with pc := StorePc.del })
  | StorePc.locked =>
    some (self.enqueue (NodeObject.make c.type c.index c.data c.hash) self.ownJob,
      { c with pc := StorePc.del, queued := true })
  | StorePc.del =>
    some ({ self with mNegativeCache := self.mNegativeCache.del c.hash },
      { c with pc := StorePc.returned true })
  | StorePc.returned _ => none

/-- A running drain job: the member function it runs, its local `setSize`,
and its local `set` between the locked block and the writes (`none` at the
top of the loop). -/
structure DrainTask where
  job : Job
  setSize : Nat
  set : Option (List NodeObject)
  deriving DecidableEq, Repr

/-- One step of a running drain job: at the top of the loop the locked block
(source lines 165-182, 280-296), after which the job has returned (`none` as
the task) or holds a batch; with a batch in hand the writes (source lines
184-187, 301-362).  The result is `none` when a null database is written. -/
def drainStep (self : HashedObjectStore) (t : DrainTask) :
    Option (HashedObjectStore × Option DrainTask) :=
  match t.set with
  | none =>
    match self.drainSwap t.setSize with
    | Swap.finished self => some (self, none)
    | Swap.batch self set setSize => some (self, some { t with setSize := setSize, set := some set })
  | some set =>
    match t.job with
    | Job.bulkWriteLevelDB =>
      (self.writeOutLevelDB set).map (fun s => (s, some { t with set := none }))
    | Job.bulkWriteSQLite =>
      (self.writeOutSQLite set).map (fun s => (s, some { t with set := none }))

/-- The store with the threads at work on it: `store` calls in flight, drain
jobs started by the job queue (the jobs not yet started are in
`self.app.jobQueue`), `waitWrite` calls, and for observation the sizes of
the batches that drain passes have swapped out, the most recent first. -/
structure System where
  self : HashedObjectStore
  calls : List StoreCall
  drains : List DrainTask
  waiters : List Waiter
  taken : List Nat
  deriving DecidableEq, Repr

/-- What can happen next: a thread enters `store`; the `store` call `i` takes
a step; a thread runs `retrieve`; the job queue starts its first job; the
drain job `j` takes a step; a thread enters `waitWrite`; the waiting call `i`
wakes up. -/
inductive Action where
  | callStore (type : NodeObjectType) (index : Nat) (data : Blob) (hash : uint256)
  | stepStore (i : Nat)
  | callRetrieve (hash : uint256)
  | startJob
  | stepDrain (j : Nat)
  | callWait
  | wakeWait (i : Nat)
  deriving DecidableEq, Repr

/-- One step of the system; `none` when the action is not possible. -/
def step (sys : System) (a : Action) : Option System :=
  match a with
  | Action.callStore type index data hash =>
    some { sys with calls := sys.calls ++ [StoreCall.enter type index data hash] }
  | Action.stepStore i =>
    match sys.calls[i]? with
    | none => none
    | some c =>
      match storeStep sys.self c with
      | none => none
      | some (s, c') => some { sys with self := s, calls := sys.calls.set i c' }
  | Action.callRetrieve hash => some { sys with self := (sys.self.retrieve hash).2 }
  | Action.startJob =>
    match sys.self.app.jobQueue with
    | [] => none
    | job :: rest =>
      some { sys with
        self := { sys.self with app := { sys.self.app with jobQueue := rest } }
        drains := sys.drains ++ [{ job := job, setSize := 0, set := none }] }
  | Action.stepDrain j =>
    match sys.drains[j]? with
    | none => none
    | some t =>
      match drainStep sys.self t with
      | none => none
      | some (s, none) =>
        some { sys with
          self := s
          drains := sys.drains.eraseIdx j
          taken := sys.self.mWriteSet.length :: sys.taken }
      | some (s, some t') =>
        some { sys with
          self := s
          drains := sys.drains.set j t'
          taken :=
            match t.set with
            | none => sys.self.mWriteSet.length :: sys.taken
            | some _ => sys.taken }
  | Action.callWait => some { sys with waiters := sys.waiters ++ [waitEnter sys.self] }
  | Action.wakeWait i =>
    match sys.waiters[i]? with
    | none => none
    | some w =>
      match waitWake sys.self w with
      | none => none
      | some w' => some { sys with waiters := sys.waiters.set i w' }

/-- A run of the system: the actions one after another. -/
def run (sys : System) : List Action → Option System
  | [] => some sys
  | a :: rest =>
    match step sys a with
    | none => none
    | some next => run next rest

/-- The system right after construction: no call in flight, no job queued or
started. -/
def boot (theConfig : Config) (app : Application) : System :=
  { self := ctor theConfig { app with jobQueue := [] }
    calls := []
    drains := []
    waiters := []
    taken := [] }

/-- The states that runs of the system reach from construction. -/
def Reachable (sys : System) : Prop :=
  ∃ (theConfig : Config) (app : Application) (acts : List Action),
    run (boot theConfig app) acts = some sys

/-- Whether an action is a pass of a drain job through its locked block. -/
def isSwap (sys : System) (a : Action) : Bool :=
  match a with
  | Action.stepDrain j =>
    match sys.drains[j]? with
    | some t => t.set.isNone
    | none => false
  | _ => false

/-- What `mWriteLoad` holds, from the sizes of the batches swapped out so far
(most recent first): zero when the last batch was empty or none was taken,
otherwise the size of the batch before the last. -/
def loadBasis (taken : List Nat) : Nat :=
  match taken with
  | [] => 0
  | n :: earlier => if n = 0 then 0 else earlier.headD 0

/-- Single flight: the drain jobs queued or started number one if a write is
pending and none otherwise, and without a pending write the write set is
empty. -/
def SingleFlight (sys : System) : Prop :=
  sys.self.app.jobQueue.length + sys.drains.length = (if sys.self.mWritePending then 1 else 0)
  ∧ (sys.self.mWritePending = false → sys.self.mWriteSet = [])

/-- What is known of a `waitWrite` call when `swaps` passes of a drain job
through its locked block have happened since construction, at a given
pending flag.  A call that has returned read the generation after `k` swaps
and returned after `j` swaps, with `k ≤ j`, and it either saw no pending
write at entry or `k < j`.  A call that waits saw a pending write at entry
and read the generation after `k` swaps, and a swap has happened since if no
write is pending now. -/
def Waiter.Sound (w : Waiter) (swaps : Nat) (pending : Bool) : Prop :=
  match w.returnedAt with
  | some g =>
    ∃ k j : Nat, k ≤ j ∧ j ≤ swaps ∧ w.gen = intWrap k ∧ g = intWrap j
      ∧ (w.pendingAtEntry = false ∨ k < j)
  | none =>
    w.pendingAtEntry = true
    ∧ ∃ k : Nat, k ≤ swaps ∧ w.gen = intWrap k ∧ (pending = false → k < swaps)

/-- The generation is the number of swaps so far, wrapped into an `int`, and
every `waitWrite` call of the system is sound at that number and the current
pending flag. -/
def WaitersSound (sys : System) : Prop :=
  sys.self.mWriteGeneration = intWrap sys.taken.length
  ∧ ∀ w ∈ sys.waiters, w.Sound sys.taken.length sys.self.mWritePending

/-- What is known of the load gauge: a started drain job carries the size of
the last batch swapped out, which is zero when no drain job is started, and
`mWriteLoad` is `loadBasis` of the batch sizes. -/
def LoadSound (sys : System) : Prop :=
  (∀ t ∈ sys.drains, t.setSize = sys.taken.headD 0)
  ∧ (sys.drains = [] → sys.taken.headD 0 = 0)
  ∧ sys.self.mWriteLoad = loadBasis sys.taken

/-- Two states of the store agree on what the write mutex protects and on the
job queue. -/
def SameCoordinator (s self : HashedObjectStore) : Prop :=
  s.mWriteSet = self.mWriteSet ∧ s.mWritePending = self.mWritePending
  ∧ s.mWriteGeneration = self.mWriteGeneration ∧ s.mWriteLoad = self.mWriteLoad
  ∧ s.app.jobQueue = self.app.jobQueue

/-- What a step of the system does to the coordinator, the drain jobs, the
observed batch sizes and the `waitWrite` calls, by kind of step: a step that
leaves them all as they are (a thread entering `store`, a step of `store`
outside the locked block, a `retrieve`); the locked block of `store`; the
start of a job; the pass of a drain job that swaps out an empty batch and
returns; the pass that swaps out a batch; the writes of a batch; the entry
of `waitWrite`; a wake-up of `waitWrite`. -/
inductive Effect (s : System) (a : Action) (s' : System) : Prop where
  | quiet (hsame : SameCoordinator s'.self s.self) (hd : s'.drains = s.drains)
      (ht : s'.taken = s.taken) (hw : s'.waiters = s.waiters)
      (ha : ∀ j, a ≠ Action.stepDrain j)
  | queue (i : Nat) (obj : NodeObject) (ha : a = Action.stepStore i)
      (hs : s'.self = s.self.enqueue obj s.self.ownJob) (hd : s'.drains = s.drains)
      (ht : s'.taken = s.taken) (hw : s'.waiters = s.waiters)
  | start (job : Job) (rest : List Job) (ha : a = Action.startJob)
      (hq : s.self.app.jobQueue = job :: rest)
      (hs : s'.self = { s.self with app := { s.self.app with jobQueue := rest } })
      (hd : s'.drains = s.drains ++ [{ job := job, setSize := 0, set := none }])
      (ht : s'.taken = s.taken) (hw : s'.waiters = s.waiters)
  | exit (j : Nat) (t : DrainTask) (ha : a = Action.stepDrain j)
      (hj : s.drains[j]? = some t) (hset : t.set = none) (hws : s.self.mWriteSet = [])
      (hs : s'.self
        = { s.self with
            mWriteSet := []
            mWriteGeneration := intWrap (s.self.mWriteGeneration + 1)
            mWritePending := false
            mWriteLoad := 0 })
      (hd : s'.drains = s.drains.eraseIdx j)
      (ht : s'.taken = s.self.mWriteSet.length :: s.taken) (hw : s'.waiters = s.waiters)
  | take (j : Nat) (t : DrainTask) (ha : a = Action.stepDrain j)
      (hj : s.drains[j]? = some t) (hset : t.set = none) (hws : s.self.mWriteSet ≠ [])
      (hs : s'.self
        = { s.self with
            mWriteSet := []
            mWriteGeneration := intWrap (s.self.mWriteGeneration + 1)
            mWriteLoad := t.setSize })
      (hd : s'.drains
        = s.drains.set j
            { t with setSize := s.self.mWriteSet.length, set := some s.self.mWriteSet })
      (ht : s'.taken = s.self.mWriteSet.length :: s.taken) (hw : s'.waiters = s.waiters)
  | write (j : Nat) (t : DrainTask) (b : List NodeObject) (ha : a = Action.stepDrain j)
      (hj : s.drains[j]? = some t) (hset : t.set = some b)
      (hsame : SameCoordinator s'.self s.self)
      (hd : s'.drains = s.drains.set j { t with set := none })
      (ht : s'.taken = s.taken) (hw : s'.waiters = s.waiters)
  | waitCall (ha : a = Action.callWait) (hs : s'.self = s.self) (hd : s'.drains = s.drains)
      (ht : s'.taken = s.taken) (hw : s'.waiters = s.waiters ++ [waitEnter s.self])
  | waitWoken (i : Nat) (w w' : Waiter) (ha : a = Action.wakeWait i) (hs : s'.self = s.self)
      (hd : s'.drains = s.drains) (ht : s'.taken = s.taken)
      (hi : s.waiters[i]? = some w) (hk : waitWake s.self w = some w')
      (hw : s'.waiters = s.waiters.set i w')

/-- Whether a `store` call has inserted its record: `canonicalize` returned
`false` to it, so it stands before the locked block or has gone through it. -/
def StoreCall.won (c : StoreCall) : Bool :=
  decide (c.pc = StorePc.locked) || c.queued

/-- Whether a `store` call is past `touch` and `canonicalize`: it stands
before the delete from the negative cache or has returned. -/
def StoreCall.pastCanonicalize (c : StoreCall) : Bool :=
  match c.pc with
  | StorePc.del => true
  | StorePc.returned _ => true
  | _ => false

/-- Whether a `store` call has returned. -/
def StoreCall.isReturned (c : StoreCall) : Bool :=
  match c.pc with
  | StorePc.returned _ => true
  | _ => false

/-- The state of a race of `store` calls that all carry the same arguments,
with record `obj` and hash `hash`: the primary is configured; the calls carry
the arguments; the calls that have inserted number one if the cache holds the
hash and none otherwise; a cache that holds the hash holds `obj`, once; a
call that has gone through the locked block is past `canonicalize`; a call
past `canonicalize` finds the hash in the cache. -/
def StoreRace (hash : uint256) (obj : NodeObject) (sys : System) : Prop :=
  sys.self.primaryConfigured = true
  ∧ (∀ c ∈ sys.calls, c.hash = hash ∧ NodeObject.make c.type c.index c.data c.hash = obj)
  ∧ sys.calls.countP StoreCall.won = (if sys.self.mCache.touch hash then 1 else 0)
  ∧ (sys.self.mCache.touch hash = true →
      sys.self.mCache.fetch hash = some obj ∧ sys.self.mCache.count hash = 1)
  ∧ (∀ c ∈ sys.calls, c.queued = true → c.pastCanonicalize = true)
  ∧ (∀ c ∈ sys.calls, c.pastCanonicalize = true → sys.self.mCache.touch hash = true)

/-- Whether an action is a step of a `store` call. -/
def Action.isStoreStep : Action → Bool
  | Action.stepStore _ => true
  | _ => false

/-- Whether an action belongs to the drain job: its start from the job queue
or one of its steps. -/
def Action.isDrainStep : Action → Bool
  | Action.startJob => true
  | Action.stepDrain _ => true
  | _ => false

/-- Hash number `n`: 28 zero bytes followed by the four bytes of `n`. -/
def hashOf (n : Nat) : uint256 := { pn := List.replicate 28 0 ++ be32 n }

/-- The write activity for record number `n` up to the last pass of its drain
job, when `k` calls of `store` have been made before: a thread calls `store`
with hash number `n` and runs it to its return; the drain job starts, swaps
the write set out and writes the batch. -/
def cycleHead (n k : Nat) : List Action :=
  [Action.callStore hotLEDGER 0 [] (hashOf n), Action.stepStore k, Action.stepStore k,
   Action.stepStore k, Action.stepStore k, Action.startJob, Action.stepDrain 0,
   Action.stepDrain 0]

/-- A key-value store at rest after `n` records: the primary is configured,
no write is pending, no job is queued or started, no `waitWrite` call has
been made, the drain jobs have been through their locked block `2 * n`
times, and the hashes from number `n` on are not in the positive cache. -/
def AtRest (n : Nat) (sys : System) : Prop :=
  sys.self.mLevelDB = true ∧ sys.self.app.hashNodeLDB.isSome = true
  ∧ sys.self.mWritePending = false ∧ sys.self.mWriteSet = [] ∧ sys.drains = []
  ∧ sys.self.app.jobQueue = [] ∧ sys.waiters = []
  ∧ sys.taken.length = 2 * n
  ∧ sys.calls.length = n
  ∧ ∀ m, n ≤ m → m < 4294967296 → sys.self.mCache.touch (hashOf m) = false

/-- The write activity for the records of numbers below `n`, one record after
the other, each with the last pass of its drain job. -/
def spinActions : Nat → List Action
  | 0 => []
  | n + 1 => spinActions n ++ (cycleHead n n ++ [Action.stepDrain 0])

/-- A `waitWrite` call, a pass of the drain job through its locked block, and
the wake-up of the call. -/
def lateWaitActions : List Action :=
  [Action.callWait, Action.stepDrain 0, Action.wakeWait 0]

/-- How far a retrieval has got when it has passed its read of the primary:
it has returned already, with its result (cache hit, negative hit, no
primary, ephemeral hit), or it holds what it read from the primary and has
not yet touched a cache with it. -/
inductive ReadOutcome where
  | returned (obj : Option NodeObject)
  | read (obj : Option NodeObject)
  deriving DecidableEq, Repr

/-- The function `retrieveLevelDB` up to and including the read of the
primary (source lines 193-211). -/
def retrieveLevelDBRead (self : HashedObjectStore) (hash : uint256) :
    ReadOutcome × HashedObjectStore :=
  let obj := self.mCache.fetch hash
  if obj.isSome || self.mNegativeCache.isPresent hash || self.app.hashNodeLDB.isNone then
    (ReadOutcome.returned obj, self)
  else
    match self.retrieveEphemeral hash with
    | (some obj, self) => (ReadOutcome.returned (some obj), self)
    | (none, self) =>
      match self.app.hashNodeLDB with
      | none => (ReadOutcome.returned none, self)
      | some db =>
        let self := self.noteRead (DbRead.primary hash)
        (ReadOutcome.read (LLRetrieve hash db), self)

/-- The function `retrieveLevelDB` after the read of the primary (source lines
213-226): on a miss the hash is added to the negative cache, otherwise the
record is canonicalized and mirrored. -/
def retrieveLevelDBFinish (self : HashedObjectStore) (hash : uint256) (o : ReadOutcome) :
    Option NodeObject × HashedObjectStore :=
  match o with
  | ReadOutcome.returned obj => (obj, self)
  | ReadOutcome.read none =>
    (none, { self with mNegativeCache := self.mNegativeCache.add hash })
  | ReadOutcome.read (some obj) => self.admitRetrieved hash obj

/-- The function `retrieveSQLite` up to and including the `SELECT` on the
primary and the decoding of the row (source lines 415-522 without the
`mNegativeCache.add` calls). -/
def retrieveSQLiteRead (self : HashedObjectStore) (hash : uint256) :
    ReadOutcome × HashedObjectStore :=
  let obj := self.mCache.fetch hash
  if obj.isSome then (ReadOutcome.returned obj, self)
  else if self.mNegativeCache.isPresent hash then (ReadOutcome.returned obj, self)
  else
    match self.retrieveEphemeral hash with
    | (some obj, self) => (ReadOutcome.returned (some obj), self)
    | (none, self) =>
      match self.app.hashNodeDB with
      | none => (ReadOutcome.returned none, self)
      | some db =>
        let self := self.noteRead (DbRead.primary hash)
        match db.select hash with
        | none => (ReadOutcome.read none, self)
        | some row =>
          let type := row.ObjType
          let index := row.LedgerIndex % 4294967296
          let data := row.Object
          match typeOfLetter (firstChar type) with
          | none => (ReadOutcome.read none, self)
          | some htype => (ReadOutcome.read (some (NodeObject.make htype index data hash)), self)

/-- The function `retrieveSQLite` after the read of the primary: the
`mNegativeCache.add` of source lines 454 and 520, or the tail of lines
524-531. -/
def retrieveSQLiteFinish (self : HashedObjectStore) (hash : uint256) (o : ReadOutcome) :
    Option NodeObject × HashedObjectStore :=
  match o with
  | ReadOutcome.returned obj => (obj, self)
  | ReadOutcome.read none =>
    (none, { self with mNegativeCache := self.mNegativeCache.add hash })
  | ReadOutcome.read (some obj) => self.admitRetrieved hash obj

/-- A retrieval, a complete `store` of the same hash by another thread after
the retrieval has read the primary, and the rest of the retrieval. -/
def retrieveAroundStore (self : HashedObjectStore) (type : NodeObjectType) (index : Nat)
    (data : Blob) (hash : uint256) : Option NodeObject × HashedObjectStore :=
  if self.mLevelDB then
    let r := self.retrieveLevelDBRead hash
    let s := (r.2.store type index data hash).2
    s.retrieveLevelDBFinish hash r.1
  else
    let r := self.retrieveSQLiteRead hash
    let s := (r.2.store type index data hash).2
    s.retrieveSQLiteFinish hash r.1

end HashedObjectStore

/-! ## Concrete inputs -/

/-- A 32-byte hash. -/
def hashA : uint256 := { pn := List.replicate 31 0 ++ [7] }

/-- An application with both primary databases configured and empty. -/
def appEmpty : Application :=
  { hashNodeLDB := some { entries := [] }
    ephemeralLDB := { entries := [] }
    hashNodeDB := some { CommittedObjects := [] }
    jobQueue := []
    dbReads := [] }

/-- The key-value configuration without an ephemeral database. -/
def kvConfig : Config := { NODE_DB := "leveldb", LDB_EPHEMERAL := "" }

/-- The SQL configuration without an ephemeral database. -/
def sqlConfig : Config := { NODE_DB := "sqlite", LDB_EPHEMERAL := "" }

/-- The key-value configuration with an ephemeral database. -/
def kvEphemeralConfig : Config := { NODE_DB := "leveldb", LDB_EPHEMERAL := "/tmp/eph" }

/-- A freshly constructed key-value store. -/
def kvStore : HashedObjectStore := HashedObjectStore.ctor kvConfig appEmpty

/-- A freshly constructed SQL store. -/
def sqlStore : HashedObjectStore := HashedObjectStore.ctor sqlConfig appEmpty

/-- A key-value store whose positive cache already holds a record for `hashA`. -/
def kvStoreHolding : HashedObjectStore :=
  { kvStore with
    mCache := { entries := [(hashA, NodeObject.make hotTRANSACTION 7 [1, 2, 3] hashA)] } }

/-- A freshly constructed SQL store over a table that already has a row for
`hashA`, recorded with ledger index 1. -/
def sqlStoreWithRow : HashedObjectStore :=
  HashedObjectStore.ctor sqlConfig
    { appEmpty with
      hashNodeDB :=
        some { CommittedObjects :=
          [{ Hash := hashA, ObjType := "L", LedgerIndex := 1, Object := [170, 187] }] } }

/-- A key-value store with an ephemeral database that holds a record for
`hashA`, and with no primary database (the pointer is null). -/
def kvStoreNoPrimary : HashedObjectStore :=
  HashedObjectStore.ctor kvEphemeralConfig
    { appEmpty with
      hashNodeLDB := none
      ephemeralLDB := LLWrite (NodeObject.make hotLEDGER 42 [170, 187] hashA) { entries := [] } }

/-- A SQL store with an ephemeral database that holds a record for `hashA`,
and with no primary database (the pointer is null). -/
def sqlStoreNoPrimary : HashedObjectStore :=
  { kvStoreNoPrimary with
    mLevelDB := false
    app := { kvStoreNoPrimary.app with hashNodeDB := none } }

/-- A key-value store with an ephemeral database, whose primary holds a record
for `hashA` and whose ephemeral database is empty. -/
def kvStorePrimaryHolds : HashedObjectStore :=
  HashedObjectStore.ctor kvEphemeralConfig
    { appEmpty with
      hashNodeLDB :=
        some (LLWrite (NodeObject.make hotLEDGER 42 [170, 187] hashA) { entries := [] }) }

/-- A legacy table of three rows, the second with a zero hash. -/
def legacyTable : Database :=
  { CommittedObjects :=
      [{ Hash := hashA, ObjType := "A", LedgerIndex := 42, Object := [170, 187] },
       { Hash := { pn := List.replicate 32 0 }, ObjType := "L", LedgerIndex := 1, Object := [] },
       { Hash := { pn := List.replicate 31 0 ++ [9] }, ObjType := "U", LedgerIndex := 7,
         Object := [1] }] }

namespace HashedObjectStore

/-- One `store` call run up to its locked block, which queues the drain job. -/
def queueActions : List Action :=
  [Action.callStore hotLEDGER 42 [170, 187] hashA, Action.stepStore 0, Action.stepStore 0,
   Action.stepStore 0]

/-- The system after `queueActions` on a fresh key-value store. -/
def afterQueue : System :=
  (run (boot kvConfig appEmpty) queueActions).getD (boot kvConfig appEmpty)

/-- One `store` call run to its end, the start of the drain job and its first
pass through the locked block. -/
def firstTakeActions : List Action :=
  [Action.callStore hotLEDGER 42 [170, 187] hashA, Action.stepStore 0, Action.stepStore 0,
   Action.stepStore 0, Action.stepStore 0, Action.startJob, Action.stepDrain 0]

/-- The system after `firstTakeActions` on a fresh key-value store: the drain
job holds a batch of one record. -/
def afterFirstTake : System :=
  (run (boot kvConfig appEmpty) firstTakeActions).getD (boot kvConfig appEmpty)

/-- A `store` call, a `waitWrite` call that finds the write pending, the
drain job run to its end, and the wake-up of the waiting call. -/
def waitActions : List Action :=
  [Action.callStore hotLEDGER 42 [170, 187] hashA, Action.stepStore 0, Action.stepStore 0,
   Action.stepStore 0, Action.callWait, Action.stepStore 0, Action.startJob,
   Action.stepDrain 0, Action.wakeWait 0, Action.stepDrain 0, Action.stepDrain 0]

/-- The system after `waitActions` on a fresh key-value store. -/
def afterWait : System :=
  (run (boot kvConfig appEmpty) waitActions).getD (boot kvConfig appEmpty)

end HashedObjectStore

namespace HashedObjectStore

/-- Two threads that have entered `store` with the same arguments on a fresh
key-value store. -/
def twoCallers : System :=
  { boot kvConfig appEmpty with
    calls :=
      [StoreCall.enter hotTRANSACTION 7 [1, 2] hashA,
       StoreCall.enter hotTRANSACTION 7 [1, 2] hashA] }

/-- An interleaving in which both threads pass `touch` before either calls
`canonicalize`. -/
def raceSchedule : List Action :=
  [Action.stepStore 0, Action.stepStore 1, Action.stepStore 1, Action.stepStore 0,
   Action.stepStore 1, Action.stepStore 0, Action.stepStore 1]

/-- The system after `raceSchedule`. -/
def afterRace : System :=
  (run twoCallers raceSchedule).getD twoCallers

/-- The same interleaving with the drain job started, and the write set
swapped out by it, before either call returns. -/
def raceDrainSchedule : List Action :=
  [Action.stepStore 0, Action.stepStore 1, Action.stepStore 1, Action.stepStore 0,
   Action.stepStore 1, Action.startJob, Action.stepDrain 0, Action.stepStore 0,
   Action.stepStore 1]

/-- The system after `raceDrainSchedule`. -/
def afterRaceDrain : System :=
  (run twoCallers raceDrainSchedule).getD twoCallers

end HashedObjectStore

/-- A record of type AccountNode with a three-byte payload and an index whose
four bytes differ. -/
def accountRecord : NodeObject :=
  NodeObject.make hotACCOUNT_NODE 16909060 [222, 173, 190] hashA

/-- The legacy row of `accountRecord`: the same hash, index and payload, and
the type letter `A`. -/
def accountRow : SqlRow :=
  { Hash := hashA, ObjType := "A", LedgerIndex := 16909060, Object := [222, 173, 190] }

namespace HashedObjectStore

/-- A retrieval that misses, then a `store` call of the same hash run up to
its locked block: `canonicalize` has inserted the record and
`mNegativeCache.del` is still to come. -/
def missThenStoreActions : List Action :=
  [Action.callRetrieve hashA, Action.callStore hotLEDGER 42 [170, 187] hashA,
   Action.stepStore 0, Action.stepStore 0]

/-- The system after `missThenStoreActions` on a fresh key-value store. -/
def afterMissThenStore : System :=
  (run (boot kvConfig appEmpty) missThenStoreActions).getD (boot kvConfig appEmpty)

end HashedObjectStore

/-! ## Lemmas on the byte layout -/

theorem bswap32_bytes (x : Nat) :
    [bswap32 x % 256, bswap32 x / 256 % 256, bswap32 x / 65536 % 256,
      bswap32 x / 16777216 % 256] = be32 x := by
  have ha : x % 256 < 256 := Nat.mod_lt _ (by decide)
  have hb : x / 256 % 256 < 256 := Nat.mod_lt _ (by decide)
  have hc : x / 65536 % 256 < 256 := Nat.mod_lt _ (by decide)
  have hd : x / 16777216 % 256 < 256 := Nat.mod_lt _ (by decide)
  simp only [bswap32, be32]
  generalize x % 256 = a at *
  generalize x / 256 % 256 = b at *
  generalize x / 65536 % 256 = c at *
  generalize x / 16777216 % 256 = d at *
  simp only [List.cons.injEq, and_true]
  refine ⟨?_, ?_, ?_, ?_⟩ <;> omega

theorem rawData_eq (index type : Nat) (data : Blob) :
    memcpy (storeU8 (storeU32 (storeU32 (List.replicate (9 + data.length) 0) 0 (ntohl index))
      4 (ntohl index)) 8 type) 9 data
    = be32 index ++ be32 index ++ [type % 256] ++ data := by
  simp only [storeU32, storeU8, ntohl, bswap32_bytes]
  simp [memcpy, be32, List.take_replicate, List.drop_replicate]
  omega

theorem be32_length (x : Nat) : (be32 x).length = 4 := rfl

theorem specValue_length (obj : NodeObject) :
    (specValue obj).length = 9 + obj.mData.length := by
  simp [specValue, be32]
  omega

theorem bswap32_of_bytes (a b c d : Nat) (ha : a < 256) (hb : b < 256) (hc : c < 256)
    (hd : d < 256) :
    bswap32 (a + b * 256 + c * 65536 + d * 16777216)
      = a * 16777216 + b * 65536 + c * 256 + d := by
  simp only [bswap32]
  omega

theorem decode_index (x : Nat) (data : Blob) (t : Nat) (hx : x < 4294967296) :
    htonl (loadU32 (be32 x ++ be32 x ++ [t] ++ data) 0) = x := by
  simp only [htonl, loadU32, be32]
  simp
  rw [bswap32_of_bytes _ _ _ _ (Nat.mod_lt _ (by decide)) (Nat.mod_lt _ (by decide))
    (Nat.mod_lt _ (by decide)) (Nat.mod_lt _ (by decide))]
  omega

theorem LLWrite_eq (obj : NodeObject) (db : LevelDB) :
    LLWrite obj db = db.Put obj.mHash.slice (specValue obj) := by
  simp only [LLWrite, rawData_eq, specValue]

theorem LLWriteBatch_puts (set : List NodeObject) :
    (LLWriteBatch set).puts = set.map (fun o => (o.mHash.slice, specValue o)) := by
  have key : ∀ (l : List NodeObject) (b : WriteBatch),
      (l.foldl
        (fun batch obj =>
          let rawData : Blob := List.replicate (9 + obj.mData.length) 0
          let rawData := storeU32 rawData 0 (ntohl obj.mLedgerIndex)
          let rawData := storeU32 rawData 4 (ntohl obj.mLedgerIndex)
          let rawData := storeU8 rawData 8 obj.mType
          let rawData := memcpy rawData 9 obj.mData
          batch.Put obj.mHash.slice rawData) b).puts
        = b.puts ++ l.map (fun o => (o.mHash.slice, specValue o)) := by
    intro l
    induction l with
    | nil => intro b; simp
    | cons o l ih =>
      intro b
      simp only [List.foldl_cons, List.map_cons]
      rw [ih]
      simp only [WriteBatch.Put, rawData_eq, specValue, List.append_assoc, List.singleton_append]
  simpa [LLWriteBatch] using key set { puts := [] }

theorem Write_entries (db : LevelDB) (b : WriteBatch) :
    (db.Write b).entries = b.puts.reverse ++ db.entries := by
  obtain ⟨puts⟩ := b
  simp only [LevelDB.Write]
  induction puts generalizing db with
  | nil => simp
  | cons kv l ih =>
    simp only [List.foldl_cons, List.reverse_cons, List.append_assoc, List.singleton_append]
    rw [ih]
    simp [LevelDB.Put]

theorem Get_Put_same (db : LevelDB) (key value : Slice) :
    (db.Put key value).Get key = some value := by
  simp [LevelDB.Get, LevelDB.Put, List.lookup]

theorem Get_LLWriteSet_last (pre : List NodeObject) (obj : NodeObject) (db : LevelDB) :
    (LLWriteSet (pre ++ [obj]) db).Get obj.mHash.slice = some (specValue obj) := by
  simp [LLWriteSet, LevelDB.Get, Write_entries, LLWriteBatch_puts, List.lookup]

theorem LLRetrieve_of_Get (hash : uint256) (db : LevelDB) (type index : Nat) (data : Blob)
    (htype : type < 256) (hindex : index < 4294967296)
    (hget : db.Get hash.slice = some (specValue (NodeObject.make type index data hash))) :
    LLRetrieve hash db = some (NodeObject.make type index data hash) := by
  simp only [LLRetrieve, hget, specValue, NodeObject.make]
  rw [decode_index index data _ hindex]
  simp [be32, Nat.mod_eq_of_lt htype]

/-! ## C2, C3: the key-value encoder -/

/-- C2: decoding with `LLRetrieve` the value that `LLWrite` stores under the
hash gives back the record (type, ledger index, payload and hash), for every
record whose type fits one byte and whose index is a 32-bit value, the empty
payload included. -/
theorem C2_decode_encode (obj : NodeObject) (db : LevelDB)
    (htype : obj.mType < 256) (hindex : obj.mLedgerIndex < 4294967296) :
    LLRetrieve obj.mHash (LLWrite obj db) = some obj := by
  have h := LLRetrieve_of_Get obj.mHash (LLWrite obj db) obj.mType obj.mLedgerIndex obj.mData
    htype hindex (by rw [LLWrite_eq]; exact Get_Put_same _ _ _)
  simpa [NodeObject.make] using h

/-- Witness for C2: the largest type byte and index, with the empty payload. -/
theorem C2_decode_encode_witness :
    LLRetrieve { pn := List.replicate 32 171 }
      (LLWrite { mType := 255, mHash := { pn := List.replicate 32 171 },
                 mLedgerIndex := 4294967295, mData := [] } { entries := [] })
      = some { mType := 255, mHash := { pn := List.replicate 32 171 },
               mLedgerIndex := 4294967295, mData := [] } :=
  C2_decode_encode
    { mType := 255, mHash := { pn := List.replicate 32 171 }, mLedgerIndex := 4294967295,
      mData := [] }
    { entries := [] } (by decide) (by decide)

/-- C3: the value that `LLWrite` (single record) stores under the raw hash, and
the value of the pair that the batch `LLWrite` adds for the record, is the same
byte string `v` of length `9 + |payload|`: bytes 0..3 are the ledger index in
big-endian order, bytes 4..7 the same four bytes again, byte 8 the type as one
unsigned byte, bytes 9.. the payload unchanged. -/
theorem C3_value_layout (obj : NodeObject) (db : LevelDB) (before after : List NodeObject) :
    ∃ v : Blob,
      (LLWrite obj db).Get obj.mHash.slice = some v
      ∧ (LLWriteBatch (before ++ obj :: after)).puts.get? before.length
          = some (obj.mHash.slice, v)
      ∧ obj.mHash.slice = obj.mHash.pn
      ∧ v.length = 9 + obj.mData.length
      ∧ 9 ≤ v.length
      ∧ v.take 4 = [obj.mLedgerIndex / 16777216 % 256, obj.mLedgerIndex / 65536 % 256,
            obj.mLedgerIndex / 256 % 256, obj.mLedgerIndex % 256]
      ∧ (v.drop 4).take 4 = v.take 4
      ∧ v.get? 8 = some (obj.mType % 256)
      ∧ v.drop 9 = obj.mData := by
  refine ⟨specValue obj, ?_, ?_, rfl, specValue_length obj, ?_, ?_, ?_, ?_, ?_⟩
  · rw [LLWrite_eq]; exact Get_Put_same _ _ _
  · rw [LLWriteBatch_puts, List.get?_eq_getElem?, List.map_append, List.map_cons]
    rw [List.getElem?_eq_some]
    exact ⟨by simp, List.getElem_of_append rfl (by simp)⟩
  · rw [specValue_length]; omega
  · simp [specValue, be32]
  · simp [specValue, be32]
  · simp [specValue, be32]
  · simp [specValue, be32]

theorem wire32_bigEndianHost (buf : Blob) (off x : Nat) :
    storeU32 buf off (ntohl x) = storeNetU32BigEndianHost buf off x := by
  have h := bswap32_bytes x
  simp only [be32] at h
  simp only [storeU32, storeNetU32BigEndianHost, ntohl, h]

/-! ## Lemmas on the store -/

namespace HashedObjectStore

theorem touch_eq_fetch_isSome (c : TaggedCache) (key : uint256) :
    c.touch key = (c.fetch key).isSome := rfl

theorem canonicalize_of_touch_false (c : TaggedCache) (key : uint256) (data : NodeObject)
    (h : c.touch key = false) :
    c.canonicalize key data = (false, { entries := c.entries ++ [(key, data)] }, data) := by
  unfold TaggedCache.touch at h
  unfold TaggedCache.canonicalize
  cases hl : c.entries.lookup key with
  | none => rfl
  | some e => rw [hl] at h; cases h

theorem storeLevelDB_miss (self : HashedObjectStore) (type : NodeObjectType) (index : Nat)
    (data : Blob) (hash : uint256) (hprimary : self.app.hashNodeLDB.isSome = true)
    (hpos : self.mCache.touch hash = false) :
    self.storeLevelDB type index data hash
      = (true,
         { (enqueue
              { self with
                mCache :=
                  { entries := self.mCache.entries
                      ++ [(hash, NodeObject.make type index data hash)] } }
              (NodeObject.make type index data hash) Job.bulkWriteLevelDB) with
           mNegativeCache :=
             (enqueue
              { self with
                mCache :=
                  { entries := self.mCache.entries
                      ++ [(hash, NodeObject.make type index data hash)] } }
              (NodeObject.make type index data hash)
              Job.bulkWriteLevelDB).mNegativeCache.del hash }) := by
  have hn : self.app.hashNodeLDB.isNone = false := by
    cases h : self.app.hashNodeLDB <;> simp_all
  simp [storeLevelDB, storeLevelDBAdmit, hn, hpos, canonicalize_of_touch_false _ _ _ hpos]

theorem enqueue_mWriteSet (self : HashedObjectStore) (object : NodeObject) (job : Job) :
    (self.enqueue object job).mWriteSet = self.mWriteSet ++ [object] := by
  cases h : self.mWritePending <;> simp [enqueue, h]

theorem enqueue_mEphemeralDB (self : HashedObjectStore) (object : NodeObject) (job : Job) :
    (self.enqueue object job).mEphemeralDB = self.mEphemeralDB := by
  cases h : self.mWritePending <;> simp [enqueue, h]

theorem enqueue_mCache (self : HashedObjectStore) (object : NodeObject) (job : Job) :
    (self.enqueue object job).mCache = self.mCache := by
  cases h : self.mWritePending <;> simp [enqueue, h]

theorem enqueue_mNegativeCache (self : HashedObjectStore) (object : NodeObject) (job : Job) :
    (self.enqueue object job).mNegativeCache = self.mNegativeCache := by
  cases h : self.mWritePending <;> simp [enqueue, h]

theorem enqueue_hashNodeLDB (self : HashedObjectStore) (object : NodeObject) (job : Job) :
    (self.enqueue object job).app.hashNodeLDB = self.app.hashNodeLDB := by
  cases h : self.mWritePending <;> simp [enqueue, h]

theorem enqueue_hashNodeDB (self : HashedObjectStore) (object : NodeObject) (job : Job) :
    (self.enqueue object job).app.hashNodeDB = self.app.hashNodeDB := by
  cases h : self.mWritePending <;> simp [enqueue, h]

theorem enqueue_ephemeralLDB (self : HashedObjectStore) (object : NodeObject) (job : Job) :
    (self.enqueue object job).app.ephemeralLDB = self.app.ephemeralLDB := by
  cases h : self.mWritePending <;> simp [enqueue, h]

/-- A drain of a non-empty write set over a configured key-value primary ends
after two passes. -/
theorem bulkWriteLevelDBLoop_nonempty (self : HashedObjectStore) (setSize fuel : Nat)
    (db : LevelDB) (hdb : self.app.hashNodeLDB = some db) (hne : self.mWriteSet ≠ []) :
    bulkWriteLevelDBLoop (fuel + 2) self setSize
      = some
          { self with
            mWriteSet := []
            mWriteGeneration := intWrap (intWrap (self.mWriteGeneration + 1) + 1)
            mWritePending := false
            mWriteLoad := 0
            app :=
              { self.app with
                hashNodeLDB := some (LLWriteSet self.mWriteSet db)
                ephemeralLDB :=
                  if self.mEphemeralDB then LLWriteSet self.mWriteSet self.app.ephemeralLDB
                  else self.app.ephemeralLDB } } := by
  have hemp : self.mWriteSet.isEmpty = false := by
    cases h : self.mWriteSet <;> simp_all
  cases heph : self.mEphemeralDB <;>
    simp [bulkWriteLevelDBLoop, drainSwap, writeOutLevelDB, hdb, hemp, heph]

/-- A freshly constructed store over a key-value primary returns the record
that the backends decode to. -/
theorem retrieveLevelDB_ctor (theConfig : Config) (app : Application) (hash : uint256)
    (db : LevelDB) (obj : NodeObject) (hdb : app.hashNodeLDB = some db)
    (hprim : LLRetrieve hash db = some obj)
    (heph : theConfig.LDB_EPHEMERAL.isEmpty = false →
      LLRetrieve hash app.ephemeralLDB = some obj) :
    ((ctor theConfig app).retrieveLevelDB hash).1 = some obj := by
  cases he : theConfig.LDB_EPHEMERAL.isEmpty with
  | true =>
    simp [retrieveLevelDB, retrieveEphemeral, ctor, TaggedCache.fetch, KeyCache.isPresent,
      hdb, he, noteRead, hprim, admitRetrieved, TaggedCache.canonicalize]
  | false =>
    simp [retrieveLevelDB, retrieveEphemeral, ctor, TaggedCache.fetch, KeyCache.isPresent,
      hdb, he, noteRead, heph he, TaggedCache.canonicalize]

/-! ## C1: round trip through the key-value backend -/

/-- C1: with a key-value primary configured and the hash absent from the
positive cache, `storeLevelDB` returns `true`, the drain job `bulkWriteLevelDB`
then runs to completion (two passes are enough), and `retrieveLevelDB` on a
store freshly constructed from the same configuration over the resulting
backends returns a record with the stored type, ledger index, payload and
hash.  The type fits one byte and the index is a 32-bit value. -/
theorem C1_leveldb_round_trip (self : HashedObjectStore) (theConfig : Config)
    (type : NodeObjectType) (index : Nat) (data : Blob) (hash : uint256) (fuel : Nat)
    (hprimary : self.app.hashNodeLDB.isSome = true)
    (hpos : self.mCache.touch hash = false)
    (htype : type < 256) (hindex : index < 4294967296)
    (hcfg : self.mEphemeralDB = !theConfig.LDB_EPHEMERAL.isEmpty)
    (hfuel : 2 ≤ fuel) :
    (self.storeLevelDB type index data hash).1 = true
    ∧ ∃ drained : HashedObjectStore,
        (self.storeLevelDB type index data hash).2.bulkWriteLevelDB fuel = some drained
        ∧ ((ctor theConfig drained.app).retrieveLevelDB hash).1
            = some (NodeObject.make type index data hash) := by
  obtain ⟨n, rfl⟩ : ∃ n, fuel = n + 2 := ⟨fuel - 2, by omega⟩
  obtain ⟨db, hdb⟩ := Option.isSome_iff_exists.mp hprimary
  rw [storeLevelDB_miss self type index data hash hprimary hpos]
  refine ⟨rfl, ?_⟩
  simp only [bulkWriteLevelDB]
  rw [bulkWriteLevelDBLoop_nonempty _ 0 n db
    (by simp [enqueue_hashNodeLDB, hdb]) (by simp [enqueue_mWriteSet])]
  refine ⟨_, rfl, ?_⟩
  have hkey : (NodeObject.make type index data hash).mHash.slice = hash.slice := rfl
  apply retrieveLevelDB_ctor theConfig _ hash
    (LLWriteSet (self.mWriteSet ++ [NodeObject.make type index data hash]) db)
  · simp [enqueue_mWriteSet]
  · apply LLRetrieve_of_Get hash _ type index data htype hindex
    rw [← hkey]
    exact Get_LLWriteSet_last _ _ _
  · intro he
    apply LLRetrieve_of_Get hash _ type index data htype hindex
    simp only [enqueue_mEphemeralDB, enqueue_mWriteSet, enqueue_ephemeralLDB, hcfg, he,
      Bool.not_false, if_true]
    rw [← hkey]
    exact Get_LLWriteSet_last _ _ _

/-- Witness for C1: scenario S1, a Ledger record with index 42 and payload
`[0xAA, 0xBB]` on a fresh key-value store. -/
theorem C1_leveldb_round_trip_witness :
    (kvStore.storeLevelDB hotLEDGER 42 [170, 187] hashA).1 = true
    ∧ ∃ drained : HashedObjectStore,
        (kvStore.storeLevelDB hotLEDGER 42 [170, 187] hashA).2.bulkWriteLevelDB 2 = some drained
        ∧ ((ctor kvConfig drained.app).retrieveLevelDB hashA).1
            = some (NodeObject.make hotLEDGER 42 [170, 187] hashA) :=
  C1_leveldb_round_trip kvStore kvConfig hotLEDGER 42 [170, 187] hashA 2
    (by decide) (by decide) (by decide) (by decide) (by decide) (by decide)

/-! ## C4: the result of `store` -/

/-- C4: in every state and for every input, `storeLevelDB`, `storeSQLite` and
the entry point `store` return `false` exactly when the primary backend is
configured and `touch` finds the hash in the positive cache at the time of
the call; otherwise they return `true`, and without a primary backend they
return `true` and change nothing. -/
theorem C4_store_result (self : HashedObjectStore) (type : NodeObjectType) (index : Nat)
    (data : Blob) (hash : uint256) :
    ((self.storeLevelDB type index data hash).1 = false
        ↔ (self.app.hashNodeLDB.isSome = true ∧ self.mCache.touch hash = true))
    ∧ ((self.storeSQLite type index data hash).1 = false
        ↔ (self.app.hashNodeDB.isSome = true ∧ self.mCache.touch hash = true))
    ∧ ((self.store type index data hash).1 = false
        ↔ (self.primaryConfigured = true ∧ self.mCache.touch hash = true))
    ∧ ((self.storeLevelDB type index data hash).1 = true
        ↔ ¬ (self.app.hashNodeLDB.isSome = true ∧ self.mCache.touch hash = true))
    ∧ ((self.storeSQLite type index data hash).1 = true
        ↔ ¬ (self.app.hashNodeDB.isSome = true ∧ self.mCache.touch hash = true))
    ∧ storeLevelDB { self with app := { self.app with hashNodeLDB := none } } type index data hash
        = (true, { self with app := { self.app with hashNodeLDB := none } })
    ∧ storeSQLite { self with app := { self.app with hashNodeDB := none } } type index data hash
        = (true, { self with app := { self.app with hashNodeDB := none } }) := by
  have hL : (self.storeLevelDB type index data hash).1 = false
      ↔ (self.app.hashNodeLDB.isSome = true ∧ self.mCache.touch hash = true) := by
    cases h1 : self.app.hashNodeLDB <;> cases h2 : self.mCache.touch hash <;>
      simp [storeLevelDB, storeLevelDBAdmit, h1, h2]
  have hS : (self.storeSQLite type index data hash).1 = false
      ↔ (self.app.hashNodeDB.isSome = true ∧ self.mCache.touch hash = true) := by
    cases h1 : self.app.hashNodeDB <;> cases h2 : self.mCache.touch hash <;>
      simp [storeSQLite, storeSQLiteAdmit, h1, h2]
  refine ⟨hL, hS, ?_, ?_, ?_, ?_, ?_⟩
  · cases hk : self.mLevelDB
    · simpa [store, primaryConfigured, hk] using hS
    · simpa [store, primaryConfigured, hk] using hL
  · rw [← hL]; simp
  · rw [← hS]; simp
  · simp [storeLevelDB]
  · simp [storeSQLite]

/-! ## C5: when `store` queues the write -/

/-- C5 (as amended): after `touch` has missed, `store` appends the newly
built record to the write set, sets the pending flag and (if no write was
pending) adds the drain job exactly when `canonicalize` returns `false`;
`canonicalize` returns `false` iff the hash was absent, in which case the
candidate is inserted; when it returns `true` (hash already present) the write
set, the pending flag and the job queue are unchanged.  This holds for
`storeLevelDB` and `storeSQLite`, whose code after the `touch` test is
`storeLevelDBAdmit` and `storeSQLiteAdmit`. -/
theorem C5_enqueue_iff_canonicalize_false (self : HashedObjectStore) (type : NodeObjectType)
    (index : Nat) (data : Blob) (hash : uint256) :
    self.storeLevelDB type index data hash
      = (if self.app.hashNodeLDB.isNone then (true, self)
         else if self.mCache.touch hash then (false, self)
         else self.storeLevelDBAdmit type index data hash)
    ∧ self.storeSQLite type index data hash
      = (if self.app.hashNodeDB.isNone then (true, self)
         else if self.mCache.touch hash then (false, self)
         else self.storeSQLiteAdmit type index data hash)
    ∧ (self.storeLevelDBAdmit type index data hash).2.mWriteSet
      = (if (self.mCache.canonicalize hash (NodeObject.make type index data hash)).1
         then self.mWriteSet
         else self.mWriteSet ++ [NodeObject.make type index data hash])
    ∧ (self.storeLevelDBAdmit type index data hash).2.mWritePending
      = (if (self.mCache.canonicalize hash (NodeObject.make type index data hash)).1
         then self.mWritePending else true)
    ∧ (self.storeLevelDBAdmit type index data hash).2.app.jobQueue
      = (if (self.mCache.canonicalize hash (NodeObject.make type index data hash)).1
            || self.mWritePending
         then self.app.jobQueue
         else self.app.jobQueue ++ [Job.bulkWriteLevelDB])
    ∧ (self.storeSQLiteAdmit type index data hash).2.mWriteSet
      = (if (self.mCache.canonicalize hash (NodeObject.make type index data hash)).1
         then self.mWriteSet
         else self.mWriteSet ++ [NodeObject.make type index data hash])
    ∧ (self.storeSQLiteAdmit type index data hash).2.mWritePending
      = (if (self.mCache.canonicalize hash (NodeObject.make type index data hash)).1
         then self.mWritePending else true)
    ∧ (self.storeSQLiteAdmit type index data hash).2.app.jobQueue
      = (if (self.mCache.canonicalize hash (NodeObject.make type index data hash)).1
            || self.mWritePending
         then self.app.jobQueue
         else self.app.jobQueue ++ [Job.bulkWriteSQLite])
    ∧ ((self.mCache.canonicalize hash (NodeObject.make type index data hash)).1 = false
        ↔ self.mCache.fetch hash = none)
    ∧ (self.mCache.canonicalize hash (NodeObject.make type index data hash)).2.1.entries
      = (if (self.mCache.canonicalize hash (NodeObject.make type index data hash)).1
         then self.mCache.entries
         else self.mCache.entries ++ [(hash, NodeObject.make type index data hash)]) := by
  refine ⟨rfl, rfl, ?_, ?_, ?_, ?_, ?_, ?_, ?_, ?_⟩ <;>
    cases hl : self.mCache.entries.lookup hash <;>
    cases hp : self.mWritePending <;>
    simp [storeLevelDBAdmit, storeSQLiteAdmit, TaggedCache.canonicalize, TaggedCache.fetch,
      enqueue, hl, hp]

/-- C5, the claim as stated fails.  On a fresh key-value store `touch` misses,
`canonicalize` returns `false`, and the record is appended to the write set,
the pending flag is set and the drain job is added: the append does not go
with a `true` result.  On a store whose cache holds the hash `canonicalize`
returns `true` and the code after the `touch` test leaves the write set
unchanged.  In the words of §4.1 the flag would be `true` in the first case
and `false` in the second. -/
theorem C5_counterexample :
    kvStore.mCache.touch hashA = false
    ∧ (kvStore.mCache.canonicalize hashA (NodeObject.make hotLEDGER 42 [170, 187] hashA)).1
        = false
    ∧ kvStore.mCache.canonicalizeSpecFlag hashA = true
    ∧ (kvStore.storeLevelDB hotLEDGER 42 [170, 187] hashA).2.mWriteSet
        = kvStore.mWriteSet ++ [NodeObject.make hotLEDGER 42 [170, 187] hashA]
    ∧ (kvStore.storeLevelDB hotLEDGER 42 [170, 187] hashA).2.mWritePending = true
    ∧ (kvStore.storeLevelDB hotLEDGER 42 [170, 187] hashA).2.app.jobQueue
        = [Job.bulkWriteLevelDB]
    ∧ ¬ ((kvStore.storeLevelDB hotLEDGER 42 [170, 187] hashA).2.mWriteSet
          = kvStore.mWriteSet ++ [NodeObject.make hotLEDGER 42 [170, 187] hashA]
        ↔ (kvStore.mCache.canonicalize hashA
            (NodeObject.make hotLEDGER 42 [170, 187] hashA)).1 = true)
    ∧ (kvStoreHolding.mCache.canonicalize hashA
        (NodeObject.make hotLEDGER 42 [170, 187] hashA)).1 = true
    ∧ kvStoreHolding.mCache.canonicalizeSpecFlag hashA = false
    ∧ (kvStoreHolding.storeLevelDBAdmit hotLEDGER 42 [170, 187] hashA).2.mWriteSet
        = kvStoreHolding.mWriteSet := by
  decide

/-! ## Lemmas on the caches -/

theorem lookup_eq_none_iff_forall (l : List (uint256 × NodeObject)) (key : uint256) :
    l.lookup key = none ↔ ∀ e ∈ l, e.1 ≠ key := by
  induction l with
  | nil => simp
  | cons e l ih =>
    obtain ⟨k, v⟩ := e
    by_cases hk : key = k
    · subst hk
      simp [List.lookup]
    · have hne : (key == k) = false := by simpa using hk
      simp only [List.lookup, hne, ih, List.mem_cons, forall_eq_or_imp, ne_eq]
      constructor
      · intro h
        exact ⟨fun hc => hk hc.symm, h⟩
      · intro h
        exact h.2

theorem lookup_append_of_none (l l' : List (uint256 × NodeObject)) (key : uint256)
    (h : l.lookup key = none) : (l ++ l').lookup key = l'.lookup key := by
  induction l with
  | nil => rfl
  | cons e l ih =>
    obtain ⟨k, v⟩ := e
    by_cases hk : key = k
    · subst hk
      simp [List.lookup] at h
    · have hne : (key == k) = false := by simpa using hk
      simp only [List.lookup, hne, List.cons_append] at h ⊢
      exact ih h

theorem fetch_after_insert (c : TaggedCache) (key : uint256) (data : NodeObject)
    (h : c.touch key = false) :
    TaggedCache.fetch { entries := c.entries ++ [(key, data)] } key = some data := by
  have hl : c.entries.lookup key = none := by
    unfold TaggedCache.touch at h
    cases hl : c.entries.lookup key with
    | none => rfl
    | some e => rw [hl] at h; cases h
  simp [TaggedCache.fetch, lookup_append_of_none _ _ _ hl, List.lookup]

theorem count_after_insert (c : TaggedCache) (key : uint256) (data : NodeObject)
    (h : c.touch key = false) :
    TaggedCache.count { entries := c.entries ++ [(key, data)] } key = 1 := by
  have hl : c.entries.lookup key = none := by
    unfold TaggedCache.touch at h
    cases hl : c.entries.lookup key with
    | none => rfl
    | some e => rw [hl] at h; cases h
  have h0 : c.entries.countP (fun e => e.1 == key) = 0 := by
    rw [List.countP_eq_zero]
    intro e he
    simpa using (lookup_eq_none_iff_forall _ _).mp hl e he
  simp [TaggedCache.count, List.countP_append, h0]

theorem isPresent_add (c : KeyCache) (key x : uint256) :
    (c.add key).isPresent x = (c.isPresent x || x == key) := by
  unfold KeyCache.add KeyCache.isPresent
  split
  · rename_i h
    by_cases hx : x = key
    · subst hx
      have hm : x ∈ c.keys := by simpa using h
      simp [hm]
    · simp [hx]
  · by_cases hx : x = key
    · subst hx; simp
    · simp [hx]

theorem isPresent_add_self (c : KeyCache) (key : uint256) :
    (c.add key).isPresent key = true := by
  simp [isPresent_add]

theorem isPresent_del (c : KeyCache) (key x : uint256) :
    (c.del key).isPresent x = (c.isPresent x && x != key) := by
  unfold KeyCache.del KeyCache.isPresent
  by_cases hx : x = key
  · subst hx; simp
  · by_cases hm : x ∈ c.keys <;> simp [hx, hm]

/-- With the primary configured, `store` either hits the cache and changes
nothing, or admits the record and queues it. -/
theorem store_eq (self : HashedObjectStore) (type : NodeObjectType) (index : Nat)
    (data : Blob) (hash : uint256) (hprimary : self.primaryConfigured = true) :
    self.store type index data hash
      = (if self.mCache.touch hash then (false, self)
         else
          (true,
            { self with
              mCache :=
                { entries := self.mCache.entries
                    ++ [(hash, NodeObject.make type index data hash)] }
              mNegativeCache := self.mNegativeCache.del hash
              mWriteSet := self.mWriteSet ++ [NodeObject.make type index data hash]
              mWritePending := true
              app :=
                { self.app with
                  jobQueue :=
                    if self.mWritePending then self.app.jobQueue
                    else self.app.jobQueue
                      ++ [if self.mLevelDB then Job.bulkWriteLevelDB
                          else Job.bulkWriteSQLite] } })) := by
  rcases self with ⟨c, n, ws, g, l, p, k, e, ⟨ldb, eph, sdb, q, r⟩⟩
  cases ht : c.touch hash with
  | true =>
    cases k
    · cases sdb <;> simp_all [store, storeSQLite, primaryConfigured]
    · cases ldb <;> simp_all [store, storeLevelDB, primaryConfigured]
  | false =>
    have hc := canonicalize_of_touch_false c hash (NodeObject.make type index data hash) ht
    cases k
    · cases sdb <;> cases p <;>
        simp_all [store, storeSQLite, storeSQLiteAdmit, primaryConfigured, enqueue]
    · cases ldb <;> cases p <;>
        simp_all [store, storeLevelDB, storeLevelDBAdmit, primaryConfigured, enqueue]

theorem storeAll_of_touch (self : HashedObjectStore) (hash : uint256)
    (calls : List (NodeObjectType × Nat × Blob)) (hprimary : self.primaryConfigured = true)
    (ht : self.mCache.touch hash = true) : self.storeAll hash calls = self := by
  induction calls with
  | nil => rfl
  | cons c calls ih =>
    simp only [storeAll, List.foldl_cons] at ih ⊢
    rw [store_eq self _ _ _ _ hprimary]
    simpa [ht] using ih

/-! ## C6: repeated stores of one hash -/

/-- C6: on a store with the primary configured and the hash absent from the
positive cache, after `n ≥ 1` consecutive `store` calls with that hash the
cache holds exactly one record for it, the record built by the first call;
`fetch` and `retrieve` return that record; and exactly one entry, that record,
has been appended to the write set. -/
theorem C6_store_dedup (self : HashedObjectStore) (hash : uint256)
    (first : NodeObjectType × Nat × Blob) (others : List (NodeObjectType × Nat × Blob))
    (hprimary : self.primaryConfigured = true) (hpos : self.mCache.touch hash = false) :
    (self.storeAll hash (first :: others)).mCache.count hash = 1
    ∧ (self.storeAll hash (first :: others)).mCache.fetch hash
        = some (NodeObject.make first.1 first.2.1 first.2.2 hash)
    ∧ ((self.storeAll hash (first :: others)).retrieve hash).1
        = some (NodeObject.make first.1 first.2.1 first.2.2 hash)
    ∧ (self.storeAll hash (first :: others)).mWriteSet
        = self.mWriteSet ++ [NodeObject.make first.1 first.2.1 first.2.2 hash] := by
  have hstep : self.storeAll hash (first :: others)
      = (self.store first.1 first.2.1 first.2.2 hash).2 := by
    show storeAll (self.store first.1 first.2.1 first.2.2 hash).2 hash others = _
    apply storeAll_of_touch
    · rw [store_eq self _ _ _ _ hprimary]
      simpa [hpos, primaryConfigured] using hprimary
    · rw [store_eq self _ _ _ _ hprimary]
      simp only [hpos, Bool.false_eq_true, if_false, touch_eq_fetch_isSome]
      rw [fetch_after_insert _ _ _ hpos]
      rfl
  rw [hstep, store_eq self _ _ _ _ hprimary]
  simp only [hpos, Bool.false_eq_true, if_false]
  have hf := fetch_after_insert self.mCache hash
    (NodeObject.make first.1 first.2.1 first.2.2 hash) hpos
  refine ⟨count_after_insert _ _ _ hpos, hf, ?_, trivial⟩
  cases hk : self.mLevelDB
  · simp [retrieve, retrieveSQLite, hk, hf]
  · simp [retrieve, retrieveLevelDB, hk, hf]

/-- Witness for C6: three stores under one hash, the second with other fields. -/
theorem C6_store_dedup_witness :
    (kvStore.storeAll hashA [(hotLEDGER, 42, [170, 187]), (hotTRANSACTION, 7, [1]),
        (hotLEDGER, 42, [170, 187])]).mCache.count hashA = 1
    ∧ (kvStore.storeAll hashA [(hotLEDGER, 42, [170, 187]), (hotTRANSACTION, 7, [1]),
        (hotLEDGER, 42, [170, 187])]).mCache.fetch hashA
        = some (NodeObject.make hotLEDGER 42 [170, 187] hashA)
    ∧ ((kvStore.storeAll hashA [(hotLEDGER, 42, [170, 187]), (hotTRANSACTION, 7, [1]),
        (hotLEDGER, 42, [170, 187])]).retrieve hashA).1
        = some (NodeObject.make hotLEDGER 42 [170, 187] hashA)
    ∧ (kvStore.storeAll hashA [(hotLEDGER, 42, [170, 187]), (hotTRANSACTION, 7, [1]),
        (hotLEDGER, 42, [170, 187])]).mWriteSet
        = kvStore.mWriteSet ++ [NodeObject.make hotLEDGER 42 [170, 187] hashA] :=
  C6_store_dedup kvStore hashA (hotLEDGER, 42, [170, 187])
    [(hotTRANSACTION, 7, [1]), (hotLEDGER, 42, [170, 187])] (by decide) (by decide)

/-! ## Lemmas on retrieval -/

theorem retrieveEphemeral_eq (self : HashedObjectStore) (hash : uint256) :
    self.retrieveEphemeral hash
      = (if self.mEphemeralDB then
          match LLRetrieve hash self.app.ephemeralLDB with
          | some obj =>
            (some (self.mCache.canonicalize hash obj).2.2,
              { self with
                mCache := (self.mCache.canonicalize hash obj).2.1
                app := { self.app with dbReads := DbRead.ephemeral hash :: self.app.dbReads } })
          | none =>
            (none,
              { self with
                app := { self.app with dbReads := DbRead.ephemeral hash :: self.app.dbReads } })
         else (none, self)) := by
  unfold retrieveEphemeral noteRead
  cases self.mEphemeralDB
  · rfl
  · simp only [if_true]

theorem retrieveLevelDB_none (self : HashedObjectStore) (hash : uint256)
    (hk : self.mLevelDB = true) (hnone : (self.retrieveLevelDB hash).1 = none) :
    self.mCache.fetch hash = none ∧ MissShape self hash (self.retrieveLevelDB hash).2 := by
  rcases self with ⟨c, n, ws, g, l, p, k, e, ⟨ldb, eph, sdb, q, r⟩⟩
  simp only at hk
  subst hk
  unfold retrieveLevelDB at hnone ⊢
  rw [retrieveEphemeral_eq] at hnone ⊢
  cases hf : c.fetch hash with
  | some o => simp [hf] at hnone
  | none =>
    refine ⟨rfl, ?_⟩
    cases hn : n.isPresent hash with
    | true => simpa [hn] using @MissShape.negativeHit _ hash hn
    | false =>
      cases ldb with
      | none =>
        simpa [hn] using (@MissShape.noPrimary
            ⟨c, n, ws, g, l, p, true, e, ⟨none, eph, sdb, q, r⟩⟩
            hash rfl r (Or.inl rfl))
      | some db =>
        cases e with
        | false =>
          cases hl : LLRetrieve hash db with
          | none =>
            simpa [hf, hn, hl, noteRead] using (@MissShape.primaryMiss
                ⟨c, n, ws, g, l, p, true, false, ⟨some db, eph, sdb, q, r⟩⟩
                hash rfl r (Or.inl rfl))
          | some o => simp [hf, hn, hl, admitRetrieved] at hnone
        | true =>
          cases hle : LLRetrieve hash eph with
          | some o => simp [hf, hn, hle] at hnone
          | none =>
            cases hl : LLRetrieve hash db with
            | none =>
              simpa [hf, hn, hl, hle, noteRead] using (@MissShape.primaryMiss
                  ⟨c, n, ws, g, l, p, true, true, ⟨some db, eph, sdb, q, r⟩⟩
                  hash rfl (DbRead.ephemeral hash :: r) (Or.inr rfl))
            | some o => simp [hf, hn, hl, hle, admitRetrieved] at hnone

theorem retrieveSQLite_none (self : HashedObjectStore) (hash : uint256)
    (hk : self.mLevelDB = false) (hnone : (self.retrieveSQLite hash).1 = none) :
    self.mCache.fetch hash = none ∧ MissShape self hash (self.retrieveSQLite hash).2 := by
  rcases self with ⟨c, n, ws, g, l, p, k, e, ⟨ldb, eph, sdb, q, r⟩⟩
  simp only at hk
  subst hk
  unfold retrieveSQLite at hnone ⊢
  rw [retrieveEphemeral_eq] at hnone ⊢
  cases hf : c.fetch hash with
  | some o => simp [hf] at hnone
  | none =>
    refine ⟨rfl, ?_⟩
    cases hn : n.isPresent hash with
    | true => simpa [hn] using @MissShape.negativeHit _ hash hn
    | false =>
      cases e with
      | false =>
        cases sdb with
        | none =>
          simpa [hn] using (@MissShape.noPrimary
              ⟨c, n, ws, g, l, p, false, false, ⟨ldb, eph, none, q, r⟩⟩
              hash rfl r (Or.inl rfl))
        | some db =>
          have hm := (@MissShape.primaryMiss
              ⟨c, n, ws, g, l, p, false, false, ⟨ldb, eph, some db, q, r⟩⟩
              hash rfl r (Or.inl rfl))
          cases hs : db.select hash with
          | none => simpa [hf, hn, hs, noteRead] using hm
          | some row =>
            cases ht : typeOfLetter (firstChar row.ObjType) with
            | none => simpa [hf, hn, hs, ht, noteRead] using hm
            | some t => simp [hf, hn, hs, ht, admitRetrieved] at hnone
      | true =>
        cases hle : LLRetrieve hash eph with
        | some o => simp [hf, hn, hle] at hnone
        | none =>
          cases sdb with
          | none =>
            simpa [hn, hle] using (@MissShape.noPrimary
                ⟨c, n, ws, g, l, p, false, true, ⟨ldb, eph, none, q, r⟩⟩
                hash rfl (DbRead.ephemeral hash :: r) (Or.inr rfl))
          | some db =>
            have hm := (@MissShape.primaryMiss
                ⟨c, n, ws, g, l, p, false, true, ⟨ldb, eph, some db, q, r⟩⟩
                hash rfl (DbRead.ephemeral hash :: r) (Or.inr rfl))
            cases hs : db.select hash with
            | none => simpa [hf, hn, hs, hle, noteRead] using hm
            | some row =>
              cases ht : typeOfLetter (firstChar row.ObjType) with
              | none => simpa [hf, hn, hs, ht, hle, noteRead] using hm
              | some t => simp [hf, hn, hs, ht, hle, admitRetrieved] at hnone

theorem retrieve_none (self : HashedObjectStore) (hash : uint256)
    (hnone : (self.retrieve hash).1 = none) :
    self.mCache.fetch hash = none ∧ MissShape self hash (self.retrieve hash).2 := by
  cases hk : self.mLevelDB with
  | false =>
    have h : self.retrieve hash = self.retrieveSQLite hash := by simp [retrieve, hk]
    rw [h] at hnone ⊢
    exact retrieveSQLite_none self hash hk hnone
  | true =>
    have h : self.retrieve hash = self.retrieveLevelDB hash := by simp [retrieve, hk]
    rw [h] at hnone ⊢
    exact retrieveLevelDB_none self hash hk hnone

/-- A retrieval of a hash that is in the negative cache and not in the
positive cache returns nothing and changes nothing. -/
theorem retrieve_of_negative (self : HashedObjectStore) (hash : uint256)
    (hf : self.mCache.fetch hash = none) (hn : self.mNegativeCache.isPresent hash = true) :
    self.retrieve hash = (none, self) := by
  cases hk : self.mLevelDB <;> simp [retrieve, retrieveLevelDB, retrieveSQLite, hk, hf, hn]

/-! ## C8: a negative-cache hit reads no backend -/

/-- C8: if `retrieve` (either variant) returns nothing and its last backend
read was a read of the primary for this hash, then a second `retrieve` of the
hash, with nothing in between, returns nothing and leaves the whole state
unchanged; in particular the log of backend reads is unchanged, so neither
the primary nor the ephemeral backend is read. -/
theorem C8_negative_hit_reads_nothing (self : HashedObjectStore) (hash : uint256)
    (hnone : (self.retrieve hash).1 = none)
    (hgrow : self.app.dbReads.length < (self.retrieve hash).2.app.dbReads.length)
    (hlast : (self.retrieve hash).2.app.dbReads.head? = some (DbRead.primary hash)) :
    (self.retrieve hash).2.retrieve hash = (none, (self.retrieve hash).2)
    ∧ ((self.retrieve hash).2.retrieve hash).2.app.dbReads
        = (self.retrieve hash).2.app.dbReads
    ∧ (self.retrieve hash).2.mNegativeCache.isPresent hash = true := by
  obtain ⟨hf, hshape⟩ := retrieve_none self hash hnone
  have key : ((self.retrieve hash).2.mCache.fetch hash = none
      ∧ (self.retrieve hash).2.mNegativeCache.isPresent hash = true) := by
    generalize (self.retrieve hash).2 = s1 at hshape hgrow hlast ⊢
    cases hshape with
    | negativeHit h => exact absurd hgrow (lt_irrefl _)
    | noPrimary h reads hr =>
      rcases hr with rfl | rfl
      · exact absurd hgrow (lt_irrefl _)
      · simp at hlast
    | primaryMiss h reads hr => exact ⟨hf, isPresent_add_self _ _⟩
  have h2 := retrieve_of_negative _ hash key.1 key.2
  exact ⟨h2, by rw [h2], key.2⟩

/-- Witness for C8: scenario S2, two retrievals of an absent hash. -/
theorem C8_negative_hit_reads_nothing_witness :
    (kvStore.retrieve hashA).2.retrieve hashA = (none, (kvStore.retrieve hashA).2)
    ∧ ((kvStore.retrieve hashA).2.retrieve hashA).2.app.dbReads
        = (kvStore.retrieve hashA).2.app.dbReads
    ∧ (kvStore.retrieve hashA).2.mNegativeCache.isPresent hashA = true :=
  C8_negative_hit_reads_nothing kvStore hashA (by decide) (by decide) (by decide)

/-! ## C9: `store` clears the negative cache -/

theorem retrieve_of_fetch (self : HashedObjectStore) (hash : uint256) (obj : NodeObject)
    (hf : self.mCache.fetch hash = some obj) : self.retrieve hash = (some obj, self) := by
  cases hk : self.mLevelDB <;> simp [retrieve, retrieveLevelDB, retrieveSQLite, hk, hf]

/-- C9: on a store with the primary configured, after a `retrieve` of the hash
that returned nothing the hash is in the negative cache; a following `store`
of a record under that hash returns `true` and leaves the hash absent from
the negative cache; and the next `retrieve` returns the stored record (type,
index, payload and hash). -/
theorem C9_store_clears_negative (self : HashedObjectStore) (type : NodeObjectType)
    (index : Nat) (data : Blob) (hash : uint256)
    (hprimary : self.primaryConfigured = true)
    (hmiss : (self.retrieve hash).1 = none) :
    (self.retrieve hash).2.mNegativeCache.isPresent hash = true
    ∧ ((self.retrieve hash).2.store type index data hash).1 = true
    ∧ ((self.retrieve hash).2.store type index data hash).2.mNegativeCache.isPresent hash
        = false
    ∧ (((self.retrieve hash).2.store type index data hash).2.retrieve hash).1
        = some (NodeObject.make type index data hash) := by
  obtain ⟨hf, hshape⟩ := retrieve_none self hash hmiss
  have key : (self.retrieve hash).2.mCache.touch hash = false
      ∧ (self.retrieve hash).2.mNegativeCache.isPresent hash = true
      ∧ (self.retrieve hash).2.primaryConfigured = true := by
    have ht : self.mCache.touch hash = false := by
      rw [touch_eq_fetch_isSome, hf]; rfl
    generalize (self.retrieve hash).2 = s1 at hshape ⊢
    cases hshape with
    | negativeHit h => exact ⟨ht, h, hprimary⟩
    | noPrimary h reads hr => rw [hprimary] at h; cases h
    | primaryMiss h reads hr => exact ⟨ht, isPresent_add_self _ _, hprimary⟩
  obtain ⟨ht1, hn1, hp1⟩ := key
  refine ⟨hn1, ?_⟩
  rw [store_eq _ type index data hash hp1]
  simp only [ht1, Bool.false_eq_true, if_false]
  refine ⟨trivial, ?_, ?_⟩
  · simp [isPresent_del]
  · rw [retrieve_of_fetch _ hash (NodeObject.make type index data hash)
      (fetch_after_insert _ _ _ ht1)]

/-- Witness for C9: a miss, a store and a retrieval on a fresh SQL store. -/
theorem C9_store_clears_negative_witness :
    (sqlStore.retrieve hashA).2.mNegativeCache.isPresent hashA = true
    ∧ ((sqlStore.retrieve hashA).2.store hotACCOUNT_NODE 9 [1, 2] hashA).1 = true
    ∧ ((sqlStore.retrieve hashA).2.store hotACCOUNT_NODE 9 [1, 2] hashA).2.mNegativeCache.isPresent
        hashA = false
    ∧ (((sqlStore.retrieve hashA).2.store hotACCOUNT_NODE 9 [1, 2] hashA).2.retrieve hashA).1
        = some (NodeObject.make hotACCOUNT_NODE 9 [1, 2] hashA) :=
  C9_store_clears_negative sqlStore hotACCOUNT_NODE 9 [1, 2] hashA (by decide) (by decide)

/-! ## C10: the caches are disjoint -/

theorem disjoint_add (c : TaggedCache) (n : KeyCache) (hash : uint256)
    (h : ∀ e ∈ c.entries, n.isPresent e.1 = false) (hf : c.fetch hash = none) :
    ∀ e ∈ c.entries, (n.add hash).isPresent e.1 = false := by
  intro e he
  have hne : e.1 ≠ hash := (lookup_eq_none_iff_forall _ _).mp hf e he
  simp [isPresent_add, h e he, hne]

theorem disjoint_canonicalize (c : TaggedCache) (n : KeyCache) (hash : uint256)
    (obj : NodeObject) (h : ∀ e ∈ c.entries, n.isPresent e.1 = false)
    (hn : n.isPresent hash = false) :
    ∀ e ∈ (c.canonicalize hash obj).2.1.entries, n.isPresent e.1 = false := by
  unfold TaggedCache.canonicalize
  cases c.entries.lookup hash with
  | some o => exact h
  | none =>
    intro e he
    simp only [List.mem_append, List.mem_singleton] at he
    rcases he with he | rfl
    · exact h e he
    · exact hn

theorem disjoint_canonicalize_del (c : TaggedCache) (n : KeyCache) (hash : uint256)
    (obj : NodeObject) (h : ∀ e ∈ c.entries, n.isPresent e.1 = false) :
    ∀ e ∈ (c.canonicalize hash obj).2.1.entries, (n.del hash).isPresent e.1 = false := by
  have hdel : ∀ e ∈ c.entries, (n.del hash).isPresent e.1 = false := by
    intro e he
    simp [isPresent_del, h e he]
  exact disjoint_canonicalize c (n.del hash) hash obj hdel (by simp [isPresent_del])

/-- The list form of `CachesDisjoint` says that no hash is found by `touch` in
the positive cache and by `isPresent` in the negative cache. -/
theorem cachesDisjoint_iff (self : HashedObjectStore) :
    CachesDisjoint self
      ↔ ∀ hash, ¬ (self.mCache.touch hash = true ∧ self.mNegativeCache.isPresent hash = true) := by
  unfold CachesDisjoint
  constructor
  · intro h hash ⟨ht, hn⟩
    have hex : ∃ e ∈ self.mCache.entries, e.1 = hash := by
      by_contra hc
      have hnone : self.mCache.entries.lookup hash = none :=
        (lookup_eq_none_iff_forall _ _).mpr (fun e he heq => hc ⟨e, he, heq⟩)
      simp [TaggedCache.touch, hnone] at ht
    obtain ⟨e, he, rfl⟩ := hex
    rw [h e he] at hn
    cases hn
  · intro h e he
    cases hn : self.mNegativeCache.isPresent e.1 with
    | false => rfl
    | true =>
      exfalso
      apply h e.1
      refine ⟨?_, hn⟩
      cases hl : self.mCache.entries.lookup e.1 with
      | some o => simp [TaggedCache.touch, hl]
      | none => exact absurd rfl ((lookup_eq_none_iff_forall _ _).mp hl e he)

theorem storeLevelDB_disjoint (self : HashedObjectStore) (type : NodeObjectType) (index : Nat)
    (data : Blob) (hash : uint256) (h : CachesDisjoint self) :
    CachesDisjoint (self.storeLevelDB type index data hash).2 := by
  unfold CachesDisjoint at h ⊢
  unfold storeLevelDB
  cases self.app.hashNodeLDB.isNone
  · cases self.mCache.touch hash
    · simp only [Bool.false_eq_true, if_false, storeLevelDBAdmit]
      cases (self.mCache.canonicalize hash (NodeObject.make type index data hash)).1 <;>
        simpa [enqueue_mCache, enqueue_mNegativeCache] using
          disjoint_canonicalize_del self.mCache self.mNegativeCache hash _ h
    · simpa using h
  · simpa using h

theorem storeSQLite_disjoint (self : HashedObjectStore) (type : NodeObjectType) (index : Nat)
    (data : Blob) (hash : uint256) (h : CachesDisjoint self) :
    CachesDisjoint (self.storeSQLite type index data hash).2 := by
  unfold CachesDisjoint at h ⊢
  unfold storeSQLite
  cases self.app.hashNodeDB.isNone
  · cases self.mCache.touch hash
    · simp only [Bool.false_eq_true, if_false, storeSQLiteAdmit]
      cases (self.mCache.canonicalize hash (NodeObject.make type index data hash)).1 <;>
        simpa [enqueue_mCache, enqueue_mNegativeCache] using
          disjoint_canonicalize_del self.mCache self.mNegativeCache hash _ h
    · simpa using h
  · simpa using h

theorem retrieveLevelDB_disjoint (self : HashedObjectStore) (hash : uint256)
    (h : CachesDisjoint self) : CachesDisjoint (self.retrieveLevelDB hash).2 := by
  rcases self with ⟨c, n, ws, g, l, p, k, e, ⟨ldb, eph, sdb, q, r⟩⟩
  unfold CachesDisjoint at h ⊢
  simp only at h
  unfold retrieveLevelDB
  rw [retrieveEphemeral_eq]
  cases hf : c.fetch hash with
  | some o => simpa [hf] using h
  | none =>
    cases hn : n.isPresent hash with
    | true => simpa [hf, hn] using h
    | false =>
      cases ldb with
      | none => simpa using h
      | some db =>
        cases e with
        | false =>
          cases hl : LLRetrieve hash db with
          | none => simpa [hf, hn, hl, noteRead] using disjoint_add c n hash h hf
          | some o =>
            simpa [hf, hn, hl, noteRead, admitRetrieved] using
              disjoint_canonicalize c n hash o h hn
        | true =>
          cases hle : LLRetrieve hash eph with
          | some o => simpa [hf, hn, hle] using disjoint_canonicalize c n hash o h hn
          | none =>
            cases hl : LLRetrieve hash db with
            | none => simpa [hf, hn, hl, hle, noteRead] using disjoint_add c n hash h hf
            | some o =>
              simpa [hf, hn, hl, hle, noteRead, admitRetrieved] using
                disjoint_canonicalize c n hash o h hn

theorem retrieveSQLite_disjoint (self : HashedObjectStore) (hash : uint256)
    (h : CachesDisjoint self) : CachesDisjoint (self.retrieveSQLite hash).2 := by
  rcases self with ⟨c, n, ws, g, l, p, k, e, ⟨ldb, eph, sdb, q, r⟩⟩
  unfold CachesDisjoint at h ⊢
  simp only at h
  unfold retrieveSQLite
  rw [retrieveEphemeral_eq]
  cases hf : c.fetch hash with
  | some o => simpa [hf] using h
  | none =>
    cases hn : n.isPresent hash with
    | true => simpa [hf, hn] using h
    | false =>
      cases e with
      | false =>
        cases sdb with
        | none => simpa using h
        | some db =>
          cases hs : db.select hash with
          | none => simpa [hf, hn, hs, noteRead] using disjoint_add c n hash h hf
          | some row =>
            cases ht : typeOfLetter (firstChar row.ObjType) with
            | none => simpa [hf, hn, hs, ht, noteRead] using disjoint_add c n hash h hf
            | some t =>
              simpa [hf, hn, hs, ht, noteRead, admitRetrieved] using
                disjoint_canonicalize c n hash _ h hn
      | true =>
        cases hle : LLRetrieve hash eph with
        | some o => simpa [hf, hn, hle] using disjoint_canonicalize c n hash o h hn
        | none =>
          cases sdb with
          | none => simpa [hf, hn, hle] using h
          | some db =>
            cases hs : db.select hash with
            | none => simpa [hf, hn, hs, hle, noteRead] using disjoint_add c n hash h hf
            | some row =>
              cases ht : typeOfLetter (firstChar row.ObjType) with
              | none => simpa [hf, hn, hs, ht, hle, noteRead] using disjoint_add c n hash h hf
              | some t =>
                simpa [hf, hn, hs, ht, hle, noteRead, admitRetrieved] using
                  disjoint_canonicalize c n hash _ h hn

/-- A retrieval of the key-value variant that runs without interruption is its
part up to the read of the primary followed by its part after the read. -/
theorem retrieveLevelDB_split (self : HashedObjectStore) (hash : uint256) :
    (self.retrieveLevelDBRead hash).2.retrieveLevelDBFinish hash
        (self.retrieveLevelDBRead hash).1
      = self.retrieveLevelDB hash := by
  unfold retrieveLevelDBRead retrieveLevelDB
  dsimp only
  by_cases hc : ((self.mCache.fetch hash).isSome || self.mNegativeCache.isPresent hash
      || self.app.hashNodeLDB.isNone) = true
  · rw [if_pos hc, if_pos hc]
    rfl
  · rw [if_neg hc, if_neg hc]
    cases he : self.retrieveEphemeral hash with
    | mk o s =>
      cases o with
      | some obj => rfl
      | none =>
        dsimp only
        cases hd : s.app.hashNodeLDB with
        | none => rfl
        | some db =>
          dsimp only
          cases hl : LLRetrieve hash db <;> rfl

/-- A retrieval of the SQL variant that runs without interruption is its part
up to the read of the primary followed by its part after the read. -/
theorem retrieveSQLite_split (self : HashedObjectStore) (hash : uint256) :
    (self.retrieveSQLiteRead hash).2.retrieveSQLiteFinish hash
        (self.retrieveSQLiteRead hash).1
      = self.retrieveSQLite hash := by
  unfold retrieveSQLiteRead retrieveSQLite
  dsimp only
  by_cases hc : (self.mCache.fetch hash).isSome = true
  · rw [if_pos hc, if_pos hc]
    rfl
  · rw [if_neg hc, if_neg hc]
    by_cases hn : self.mNegativeCache.isPresent hash = true
    · rw [if_pos hn, if_pos hn]
      rfl
    · rw [if_neg hn, if_neg hn]
      cases he : self.retrieveEphemeral hash with
      | mk o s =>
        cases o with
        | some obj => rfl
        | none =>
          dsimp only
          cases hd : s.app.hashNodeDB with
          | none => rfl
          | some db =>
            dsimp only
            cases hs : db.select hash with
            | none => rfl
            | some row =>
              dsimp only
              cases ht : typeOfLetter (firstChar row.ObjType) <;> rfl

/-- C10 (as amended): no hash is in both the positive and the negative cache.
This holds in the freshly constructed store and, if it holds before a call
that runs without a step of another call in between, it holds after
`storeLevelDB`, `storeSQLite`, `retrieveLevelDB`, `retrieveSQLite` and the
entry points `store` and `retrieve`, whatever the call does (cache hit,
admission, backend hit or miss) and with or without an ephemeral database or
a primary.  Such a retrieval is its part up to the read of the primary
followed at once by its part after the read. -/
theorem C10_caches_disjoint (theConfig : Config) (app : Application)
    (self : HashedObjectStore) (type : NodeObjectType) (index : Nat) (data : Blob)
    (hash : uint256) (h : CachesDisjoint self) :
    CachesDisjoint (ctor theConfig app)
    ∧ CachesDisjoint (self.storeLevelDB type index data hash).2
    ∧ CachesDisjoint (self.storeSQLite type index data hash).2
    ∧ CachesDisjoint (self.retrieveLevelDB hash).2
    ∧ CachesDisjoint (self.retrieveSQLite hash).2
    ∧ CachesDisjoint (self.store type index data hash).2
    ∧ CachesDisjoint (self.retrieve hash).2
    ∧ (self.retrieveLevelDBRead hash).2.retrieveLevelDBFinish hash
          (self.retrieveLevelDBRead hash).1
        = self.retrieveLevelDB hash
    ∧ (self.retrieveSQLiteRead hash).2.retrieveSQLiteFinish hash
          (self.retrieveSQLiteRead hash).1
        = self.retrieveSQLite hash := by
  refine ⟨?_, storeLevelDB_disjoint self type index data hash h,
    storeSQLite_disjoint self type index data hash h, retrieveLevelDB_disjoint self hash h,
    retrieveSQLite_disjoint self hash h, ?_, ?_, retrieveLevelDB_split self hash,
    retrieveSQLite_split self hash⟩
  · intro e he
    simp [ctor] at he
  · unfold store
    cases self.mLevelDB
    · exact storeSQLite_disjoint self type index data hash h
    · exact storeLevelDB_disjoint self type index data hash h
  · unfold retrieve
    cases self.mLevelDB
    · exact retrieveSQLite_disjoint self hash h
    · exact retrieveLevelDB_disjoint self hash h

/-- Witness for C10: the calls on a store whose positive cache holds the hash. -/
theorem C10_caches_disjoint_witness :
    CachesDisjoint (ctor kvEphemeralConfig appEmpty)
    ∧ CachesDisjoint (kvStoreHolding.storeLevelDB hotLEDGER 42 [170, 187] hashA).2
    ∧ CachesDisjoint (kvStoreHolding.storeSQLite hotLEDGER 42 [170, 187] hashA).2
    ∧ CachesDisjoint (kvStoreHolding.retrieveLevelDB hashA).2
    ∧ CachesDisjoint (kvStoreHolding.retrieveSQLite hashA).2
    ∧ CachesDisjoint (kvStoreHolding.store hotLEDGER 42 [170, 187] hashA).2
    ∧ CachesDisjoint (kvStoreHolding.retrieve hashA).2
    ∧ (kvStoreHolding.retrieveLevelDBRead hashA).2.retrieveLevelDBFinish hashA
          (kvStoreHolding.retrieveLevelDBRead hashA).1
        = kvStoreHolding.retrieveLevelDB hashA
    ∧ (kvStoreHolding.retrieveSQLiteRead hashA).2.retrieveSQLiteFinish hashA
          (kvStoreHolding.retrieveSQLiteRead hashA).1
        = kvStoreHolding.retrieveSQLite hashA :=
  C10_caches_disjoint kvEphemeralConfig appEmpty kvStoreHolding hotLEDGER 42 [170, 187] hashA
    (by decide)

/-! ## C7: round trip through the SQL backend -/

theorem storeSQLite_miss (self : HashedObjectStore) (type : NodeObjectType) (index : Nat)
    (data : Blob) (hash : uint256) (hprimary : self.app.hashNodeDB.isSome = true)
    (hpos : self.mCache.touch hash = false) :
    (self.storeSQLite type index data hash).1 = true
    ∧ (self.storeSQLite type index data hash).2.mWriteSet
        = self.mWriteSet ++ [NodeObject.make type index data hash]
    ∧ (self.storeSQLite type index data hash).2.mEphemeralDB = self.mEphemeralDB
    ∧ (self.storeSQLite type index data hash).2.app.hashNodeDB = self.app.hashNodeDB
    ∧ (self.storeSQLite type index data hash).2.app.ephemeralLDB = self.app.ephemeralLDB := by
  have hn : self.app.hashNodeDB.isNone = false := by
    cases h : self.app.hashNodeDB <;> simp_all
  simp [storeSQLite, storeSQLiteAdmit, hn, hpos, canonicalize_of_touch_false _ _ _ hpos,
    enqueue_mWriteSet, enqueue_mEphemeralDB, enqueue_hashNodeDB, enqueue_ephemeralLDB]

/-- A drain of a non-empty write set over a configured SQL primary ends after
two passes. -/
theorem bulkWriteSQLiteLoop_nonempty (self : HashedObjectStore) (setSize fuel : Nat)
    (db : Database) (hdb : self.app.hashNodeDB = some db) (hne : self.mWriteSet ≠ []) :
    bulkWriteSQLiteLoop (fuel + 2) self setSize
      = some
          { self with
            mWriteSet := []
            mWriteGeneration := intWrap (intWrap (self.mWriteGeneration + 1) + 1)
            mWritePending := false
            mWriteLoad := 0
            app :=
              { self.app with
                hashNodeDB := some (insertSet self.mWriteSet db)
                ephemeralLDB :=
                  if self.mEphemeralDB then LLWriteSet self.mWriteSet self.app.ephemeralLDB
                  else self.app.ephemeralLDB } } := by
  have hemp : self.mWriteSet.isEmpty = false := by
    cases h : self.mWriteSet <;> simp_all
  cases heph : self.mEphemeralDB <;>
    simp [bulkWriteSQLiteLoop, drainSwap, writeOutSQLite, hdb, hemp, heph]

theorem select_insertOrIgnore_other (db : Database) (row : SqlRow) (hash : uint256)
    (hne : row.Hash ≠ hash) : (db.insertOrIgnore row).select hash = db.select hash := by
  unfold Database.insertOrIgnore
  split
  · rfl
  · simp [Database.select, List.find?_append, hne]

theorem select_insertOrIgnore_new (db : Database) (row : SqlRow)
    (h : db.select row.Hash = none) : (db.insertOrIgnore row).select row.Hash = some row := by
  unfold Database.insertOrIgnore
  simp only [h, Option.isSome_none, Bool.false_eq_true, if_false]
  unfold Database.select at h ⊢
  simp [List.find?_append, h]

theorem select_insertSet_other (set : List NodeObject) (db : Database) (hash : uint256)
    (h : ∀ o ∈ set, o.mHash ≠ hash) : (insertSet set db).select hash = db.select hash := by
  induction set generalizing db with
  | nil => rfl
  | cons o set ih =>
    simp only [insertSet, List.foldl_cons] at ih ⊢
    rw [ih _ (fun o' ho' => h o' (List.mem_cons_of_mem _ ho'))]
    exact select_insertOrIgnore_other db _ hash (h o (List.mem_cons_self _ _))

theorem select_insertSet_last (pre : List NodeObject) (obj : NodeObject) (db : Database)
    (hrow : db.select obj.mHash = none) (hpre : ∀ o ∈ pre, o.mHash ≠ obj.mHash) :
    (insertSet (pre ++ [obj]) db).select obj.mHash
      = some { Hash := obj.mHash, ObjType := typeLetter obj.mType,
               LedgerIndex := obj.mLedgerIndex, Object := obj.mData } := by
  have h1 : insertSet (pre ++ [obj]) db
      = (insertSet pre db).insertOrIgnore
          { Hash := obj.mHash, ObjType := typeLetter obj.mType,
            LedgerIndex := obj.mLedgerIndex, Object := obj.mData } := by
    simp [insertSet, List.foldl_append]
  rw [h1]
  exact select_insertOrIgnore_new _ _ (by rw [select_insertSet_other pre db _ hpre]; exact hrow)

theorem typeOfLetter_typeLetter (type : NodeObjectType) :
    typeOfLetter (firstChar (typeLetter type))
      = (if type = hotLEDGER ∨ type = hotTRANSACTION ∨ type = hotACCOUNT_NODE
            ∨ type = hotTRANSACTION_NODE then some type else none) := by
  unfold typeLetter
  by_cases h1 : type = hotLEDGER
  · subst h1; decide
  · by_cases h2 : type = hotTRANSACTION
    · subst h2; decide
    · by_cases h3 : type = hotACCOUNT_NODE
      · subst h3; decide
      · by_cases h4 : type = hotTRANSACTION_NODE
        · subst h4; decide
        · simp only [h1, h2, h3, h4, if_false, or_self]
          decide

/-- A freshly constructed store over a SQL primary: the ephemeral database, if
configured, serves the read; otherwise the row is decoded. -/
theorem retrieveSQLite_ctor (theConfig : Config) (app : Application) (hash : uint256)
    (db : Database) (type : NodeObjectType) (index : Nat) (data : Blob)
    (hindex : index < 4294967296)
    (hdb : app.hashNodeDB = some db)
    (hrow : db.select hash
      = some { Hash := hash, ObjType := typeLetter type, LedgerIndex := index, Object := data })
    (heph : theConfig.LDB_EPHEMERAL.isEmpty = false →
      LLRetrieve hash app.ephemeralLDB = some (NodeObject.make type index data hash)) :
    ((ctor theConfig app).retrieveSQLite hash).1
      = (if (type = hotLEDGER ∨ type = hotTRANSACTION ∨ type = hotACCOUNT_NODE
              ∨ type = hotTRANSACTION_NODE) ∨ theConfig.LDB_EPHEMERAL.isEmpty = false
         then some (NodeObject.make type index data hash) else none) := by
  cases he : theConfig.LDB_EPHEMERAL.isEmpty with
  | true =>
    have hmod : index % 4294967296 = index := Nat.mod_eq_of_lt hindex
    by_cases ht : type = hotLEDGER ∨ type = hotTRANSACTION ∨ type = hotACCOUNT_NODE
        ∨ type = hotTRANSACTION_NODE
    · simp [retrieveSQLite, retrieveEphemeral, ctor, TaggedCache.fetch, KeyCache.isPresent,
        hdb, he, noteRead, hrow, admitRetrieved, TaggedCache.canonicalize,
        typeOfLetter_typeLetter, ht, hmod]
    · simp [retrieveSQLite, retrieveEphemeral, ctor, TaggedCache.fetch, KeyCache.isPresent,
        hdb, he, noteRead, hrow, typeOfLetter_typeLetter, ht]
  | false =>
    simp [retrieveSQLite, retrieveEphemeral, ctor, TaggedCache.fetch, KeyCache.isPresent,
      he, noteRead, heph he, TaggedCache.canonicalize]

/-- C7 (as amended): with a SQL primary configured, for a hash that is not in
the positive cache, has no row in the table yet and no record pending in the
write set (`INSERT OR IGNORE` keeps the first row of a key), after
`storeSQLite` and a completed run of the drain job `bulkWriteSQLite` the table
row for the hash carries the stored index and payload and the type letter,
`L`, `T`, `A`, `N`, `U` for Ledger, Transaction, AccountNode, TransactionNode,
Unknown.  `retrieveSQLite` on a store freshly constructed from the same
configuration returns the stored record when the type is one of Ledger,
Transaction, AccountNode, TransactionNode, or when an ephemeral database is
configured (it then serves the read); for any other type, Unknown included,
and no ephemeral database it returns nothing, because the letter `U` is not
decoded. -/
theorem C7_sqlite_round_trip (self : HashedObjectStore) (theConfig : Config) (db : Database)
    (type : NodeObjectType) (index : Nat) (data : Blob) (hash : uint256) (fuel : Nat)
    (hdb : self.app.hashNodeDB = some db)
    (hpos : self.mCache.touch hash = false)
    (hrow : db.select hash = none)
    (hpending : ∀ o ∈ self.mWriteSet, o.mHash ≠ hash)
    (htype : type < 256) (hindex : index < 4294967296)
    (hcfg : self.mEphemeralDB = !theConfig.LDB_EPHEMERAL.isEmpty)
    (hfuel : 2 ≤ fuel) :
    typeLetter hotLEDGER = "L" ∧ typeLetter hotTRANSACTION = "T"
    ∧ typeLetter hotACCOUNT_NODE = "A" ∧ typeLetter hotTRANSACTION_NODE = "N"
    ∧ typeLetter hotUNKNOWN = "U"
    ∧ ∃ (drained : HashedObjectStore) (table : Database),
        (self.storeSQLite type index data hash).2.bulkWriteSQLite fuel = some drained
        ∧ drained.app.hashNodeDB = some table
        ∧ table.select hash
            = some { Hash := hash, ObjType := typeLetter type, LedgerIndex := index,
                     Object := data }
        ∧ ((ctor theConfig drained.app).retrieveSQLite hash).1
            = (if (type = hotLEDGER ∨ type = hotTRANSACTION ∨ type = hotACCOUNT_NODE
                    ∨ type = hotTRANSACTION_NODE) ∨ self.mEphemeralDB = true
               then some (NodeObject.make type index data hash) else none) := by
  refine ⟨by decide, by decide, by decide, by decide, by decide, ?_⟩
  obtain ⟨n, rfl⟩ : ∃ n, fuel = n + 2 := ⟨fuel - 2, by omega⟩
  obtain ⟨-, hws, hme, hsd, hel⟩ := storeSQLite_miss self type index data hash
    (by simp [hdb]) hpos
  have hsel := select_insertSet_last self.mWriteSet (NodeObject.make type index data hash) db
    hrow hpending
  simp only [NodeObject.make] at hsel
  have hdrain := bulkWriteSQLiteLoop_nonempty (self.storeSQLite type index data hash).2 0 n db
    (by rw [hsd, hdb]) (by simp [hws])
  refine ⟨_, insertSet (self.mWriteSet ++ [NodeObject.make type index data hash]) db, hdrain,
    ?_, hsel, ?_⟩
  · simp [hws]
  · have hkey : (NodeObject.make type index data hash).mHash.slice = hash.slice := rfl
    refine (retrieveSQLite_ctor theConfig _ hash
      (insertSet (self.mWriteSet ++ [NodeObject.make type index data hash]) db)
      type index data hindex ?_ hsel ?_).trans ?_
    · simp [hws]
    · intro he
      apply LLRetrieve_of_Get hash _ type index data htype hindex
      simp only [hws, hme, hel, hcfg, he, Bool.not_false, if_true]
      rw [← hkey]
      exact Get_LLWriteSet_last _ _ _
    · rw [hcfg]
      cases theConfig.LDB_EPHEMERAL.isEmpty <;> simp

/-- Witness for C7: scenario S5, an AccountNode record on a fresh SQL store. -/
theorem C7_sqlite_round_trip_witness :
    typeLetter hotLEDGER = "L" ∧ typeLetter hotTRANSACTION = "T"
    ∧ typeLetter hotACCOUNT_NODE = "A" ∧ typeLetter hotTRANSACTION_NODE = "N"
    ∧ typeLetter hotUNKNOWN = "U"
    ∧ ∃ (drained : HashedObjectStore) (table : Database),
        (sqlStore.storeSQLite hotACCOUNT_NODE 42 [170, 187] hashA).2.bulkWriteSQLite 2
          = some drained
        ∧ drained.app.hashNodeDB = some table
        ∧ table.select hashA
            = some { Hash := hashA, ObjType := typeLetter hotACCOUNT_NODE, LedgerIndex := 42,
                     Object := [170, 187] }
        ∧ ((ctor sqlConfig drained.app).retrieveSQLite hashA).1
            = (if (hotACCOUNT_NODE = hotLEDGER ∨ hotACCOUNT_NODE = hotTRANSACTION
                    ∨ hotACCOUNT_NODE = hotACCOUNT_NODE
                    ∨ hotACCOUNT_NODE = hotTRANSACTION_NODE) ∨ sqlStore.mEphemeralDB = true
               then some (NodeObject.make hotACCOUNT_NODE 42 [170, 187] hashA) else none) :=
  C7_sqlite_round_trip sqlStore sqlConfig { CommittedObjects := [] } hotACCOUNT_NODE 42
    [170, 187] hashA 2 (by decide) (by decide) (by decide) (by decide) (by decide) (by decide)
    (by decide) (by decide)

/-- C7, the claim as stated fails.  On a fresh SQL store without an ephemeral
database, a record of type Unknown is stored and drained: the row carries the
letter `U`, and `retrieveSQLite` on a fresh store over the same table returns
nothing.  On a store whose table already has a row for the hash with ledger
index 1, a record with ledger index 2 is stored and drained: the row keeps
index 1 and `retrieveSQLite` on a fresh store returns index 1. -/
theorem C7_counterexample :
    ((sqlStore.storeSQLite hotUNKNOWN 42 [170, 187] hashA).2.bulkWriteSQLite 2).map
        (fun drained =>
          (drained.app.hashNodeDB.map (fun table => table.select hashA),
            ((ctor sqlConfig drained.app).retrieveSQLite hashA).1))
      = some
          (some (some { Hash := hashA, ObjType := "U", LedgerIndex := 42, Object := [170, 187] }),
            none)
    ∧ ((sqlStoreWithRow.storeSQLite hotLEDGER 2 [170, 187] hashA).2.bulkWriteSQLite 2).map
        (fun drained =>
          (drained.app.hashNodeDB.map (fun table => table.select hashA),
            ((ctor sqlConfig drained.app).retrieveSQLite hashA).1))
      = some
          (some (some { Hash := hashA, ObjType := "L", LedgerIndex := 1, Object := [170, 187] }),
            some (NodeObject.make hotLEDGER 1 [170, 187] hashA)) := by
  decide

/-! ## C14: a hit in the ephemeral database -/

/-- With the hash in neither cache and an ephemeral database that decodes a
record for it, `retrieveSQLite` returns the record, admits it to the positive
cache and reads only the ephemeral database, whether or not a primary is
configured; `retrieveLevelDB` does the same when its primary is configured. -/
theorem ephemeral_hit_serves (self : HashedObjectStore) (hash : uint256) (obj : NodeObject)
    (hf : self.mCache.fetch hash = none) (hn : self.mNegativeCache.isPresent hash = false)
    (he : self.mEphemeralDB = true)
    (hl : LLRetrieve hash self.app.ephemeralLDB = some obj) :
    self.retrieveSQLite hash
      = (some obj,
          { self with
            mCache := { entries := self.mCache.entries ++ [(hash, obj)] }
            app := { self.app with dbReads := DbRead.ephemeral hash :: self.app.dbReads } })
    ∧ self.retrieveLevelDB hash
      = (if self.app.hashNodeLDB.isNone then (none, self)
         else
          (some obj,
            { self with
              mCache := { entries := self.mCache.entries ++ [(hash, obj)] }
              app :=
                { self.app with dbReads := DbRead.ephemeral hash :: self.app.dbReads } })) := by
  rcases self with ⟨c, n, ws, g, l, p, k, e, ⟨ldb, eph, sdb, q, r⟩⟩
  simp only at hf hn he hl
  subst he
  have hlk : c.entries.lookup hash = none := hf
  constructor
  · unfold retrieveSQLite
    rw [retrieveEphemeral_eq]
    simp [hf, hn, hl, TaggedCache.canonicalize, hlk]
  · unfold retrieveLevelDB
    rw [retrieveEphemeral_eq]
    cases ldb <;> simp [hf, hn, hl, TaggedCache.canonicalize, hlk]

/-- C14: the code departs from the claim in `retrieveLevelDB`.  The store
`kvStoreNoPrimary` has the hash in neither cache, an ephemeral database that
decodes a record under the hash, and no primary.  `retrieveLevelDB` returns
nothing, changes nothing and reads no database, because it tests the primary
pointer before the ephemeral lookup (source line 195); `retrieveSQLite` in the
same situation returns the record from the ephemeral database and admits it
to the positive cache (source lines 423-435). -/
theorem C14_retrieveLevelDB_skips_ephemeral :
    kvStoreNoPrimary.mCache.fetch hashA = none
    ∧ kvStoreNoPrimary.mNegativeCache.isPresent hashA = false
    ∧ kvStoreNoPrimary.mEphemeralDB = true
    ∧ kvStoreNoPrimary.app.hashNodeLDB = none
    ∧ LLRetrieve hashA kvStoreNoPrimary.app.ephemeralLDB
        = some (NodeObject.make hotLEDGER 42 [170, 187] hashA)
    ∧ kvStoreNoPrimary.retrieveLevelDB hashA = (none, kvStoreNoPrimary)
    ∧ kvStoreNoPrimary.retrieve hashA = (none, kvStoreNoPrimary)
    ∧ sqlStoreNoPrimary.app.hashNodeDB = none
    ∧ (sqlStoreNoPrimary.retrieveSQLite hashA).1
        = some (NodeObject.make hotLEDGER 42 [170, 187] hashA)
    ∧ (sqlStoreNoPrimary.retrieveSQLite hashA).2.mCache.fetch hashA
        = some (NodeObject.make hotLEDGER 42 [170, 187] hashA)
    ∧ (sqlStoreNoPrimary.retrieveSQLite hashA).2.app.dbReads = [DbRead.ephemeral hashA] := by
  decide

/-! ## C16: a row with an unknown type letter -/

/-- C16: with the hash in neither cache and absent from the ephemeral
database, when `retrieveSQLite` reads a row whose type character is none of
`L`, `T`, `A`, `N`, it returns nothing, the hash is added to the negative
cache, and the positive cache, the ephemeral database and the table are
unchanged. -/
theorem C16_unknown_type_letter (self : HashedObjectStore) (hash : uint256) (db : Database)
    (row : SqlRow)
    (hf : self.mCache.fetch hash = none) (hn : self.mNegativeCache.isPresent hash = false)
    (heph : self.app.ephemeralLDB.Get hash.slice = none)
    (hdb : self.app.hashNodeDB = some db) (hrow : db.select hash = some row)
    (hL : firstChar row.ObjType ≠ 'L') (hT : firstChar row.ObjType ≠ 'T')
    (hA : firstChar row.ObjType ≠ 'A') (hN : firstChar row.ObjType ≠ 'N') :
    (self.retrieveSQLite hash).1 = none
    ∧ (self.retrieveSQLite hash).2.mNegativeCache = self.mNegativeCache.add hash
    ∧ (self.retrieveSQLite hash).2.mNegativeCache.isPresent hash = true
    ∧ (self.retrieveSQLite hash).2.mCache = self.mCache
    ∧ (self.retrieveSQLite hash).2.app.ephemeralLDB = self.app.ephemeralLDB
    ∧ (self.retrieveSQLite hash).2.app.hashNodeDB = self.app.hashNodeDB := by
  rcases self with ⟨c, n, ws, g, l, p, k, e, ⟨ldb, eph, sdb, q, r⟩⟩
  simp only at hf hn heph hdb
  subst hdb
  have hl : LLRetrieve hash eph = none := by simp [LLRetrieve, heph]
  have ht : typeOfLetter (firstChar row.ObjType) = none := by
    simp [typeOfLetter, hL, hT, hA, hN]
  unfold retrieveSQLite
  rw [retrieveEphemeral_eq]
  cases e <;> simp [hf, hn, hl, hrow, ht, noteRead, isPresent_add_self]

/-- Witness for C16: a row that carries the letter `U`. -/
theorem C16_unknown_type_letter_witness :
    ((ctor sqlConfig
        { appEmpty with
          hashNodeDB :=
            some { CommittedObjects :=
              [{ Hash := hashA, ObjType := "U", LedgerIndex := 42,
                 Object := [170, 187] }] } }).retrieveSQLite hashA).1 = none
    ∧ ((ctor sqlConfig
        { appEmpty with
          hashNodeDB :=
            some { CommittedObjects :=
              [{ Hash := hashA, ObjType := "U", LedgerIndex := 42,
                 Object := [170, 187] }] } }).retrieveSQLite hashA).2.mNegativeCache
        = (ctor sqlConfig appEmpty).mNegativeCache.add hashA :=
  have h := C16_unknown_type_letter
    (ctor sqlConfig
      { appEmpty with
        hashNodeDB :=
          some { CommittedObjects :=
            [{ Hash := hashA, ObjType := "U", LedgerIndex := 42, Object := [170, 187] }] } })
    hashA
    { CommittedObjects :=
        [{ Hash := hashA, ObjType := "U", LedgerIndex := 42, Object := [170, 187] }] }
    { Hash := hashA, ObjType := "U", LedgerIndex := 42, Object := [170, 187] }
    (by decide) (by decide) (by decide) rfl (by decide) (by decide) (by decide) (by decide)
    (by decide)
  ⟨h.1, h.2.1⟩

/-! ## C18: a retrieval from the primary is mirrored -/

theorem LLRetrieve_LLWrite (obj : NodeObject) (db : LevelDB)
    (htype : obj.mType < 256) (hindex : obj.mLedgerIndex < 4294967296) :
    LLRetrieve obj.mHash (LLWrite obj db) = some obj := by
  have h := LLRetrieve_of_Get obj.mHash (LLWrite obj db) obj.mType obj.mLedgerIndex obj.mData
    htype hindex (by rw [LLWrite_eq]; exact Get_Put_same _ _ _)
  simpa [NodeObject.make] using h

theorem bswap32_lt (x : Nat) : bswap32 x < 4294967296 := by
  have ha : x % 256 < 256 := Nat.mod_lt _ (by decide)
  have hb : x / 256 % 256 < 256 := Nat.mod_lt _ (by decide)
  have hc : x / 65536 % 256 < 256 := Nat.mod_lt _ (by decide)
  have hd : x / 16777216 % 256 < 256 := Nat.mod_lt _ (by decide)
  simp only [bswap32]
  omega

theorem LLRetrieve_index_lt (hash : uint256) (db : LevelDB) (obj : NodeObject)
    (h : LLRetrieve hash db = some obj) : obj.mLedgerIndex < 4294967296 ∧ obj.mHash = hash := by
  unfold LLRetrieve at h
  cases hg : db.Get hash.slice with
  | none => simp [hg] at h
  | some v =>
    simp only [hg, Option.some.injEq] at h
    subst h
    exact ⟨bswap32_lt _, rfl⟩

/-- The state after the tail shared by both retrievals, with an ephemeral
database and the hash absent from the positive cache. -/
theorem admitRetrieved_mirror (self : HashedObjectStore) (hash : uint256) (obj : NodeObject)
    (hf : self.mCache.fetch hash = none) (he : self.mEphemeralDB = true) :
    self.admitRetrieved hash obj
      = (some obj,
          { self with
            mCache := { entries := self.mCache.entries ++ [(hash, obj)] }
            app := { self.app with ephemeralLDB := LLWrite obj self.app.ephemeralLDB } }) := by
  have hlk : self.mCache.entries.lookup hash = none := hf
  simp [admitRetrieved, TaggedCache.canonicalize, hlk, he]

/-- C18: with the hash in neither cache and absent from the configured
ephemeral database, when `retrieve` (either variant) returns a record, which
it then found in the primary, the positive cache holds the record on return,
the ephemeral database holds under the hash the key-value encoding of the
record (index twice, type byte, payload), and a read of the ephemeral
database decodes to the same record.  The type fits one byte. -/
theorem C18_primary_hit_mirrored (self : HashedObjectStore) (hash : uint256)
    (obj : NodeObject)
    (hf : self.mCache.fetch hash = none) (hn : self.mNegativeCache.isPresent hash = false)
    (he : self.mEphemeralDB = true)
    (heph : self.app.ephemeralLDB.Get hash.slice = none)
    (hsome : (self.retrieve hash).1 = some obj)
    (htype : obj.mType < 256) :
    (self.retrieve hash).2.app.dbReads
        = DbRead.primary hash :: DbRead.ephemeral hash :: self.app.dbReads
    ∧ (self.retrieve hash).2.mCache.fetch hash = some obj
    ∧ (self.retrieve hash).2.app.ephemeralLDB.Get hash.slice
        = some (be32 obj.mLedgerIndex ++ be32 obj.mLedgerIndex ++ [obj.mType] ++ obj.mData)
    ∧ LLRetrieve hash (self.retrieve hash).2.app.ephemeralLDB = some obj := by
  have hl : LLRetrieve hash self.app.ephemeralLDB = none := by simp [LLRetrieve, heph]
  have hlk : self.mCache.entries.lookup hash = none := hf
  have key : ∃ s1 : HashedObjectStore,
      s1.mCache = self.mCache ∧ s1.mEphemeralDB = true
      ∧ s1.app.ephemeralLDB = self.app.ephemeralLDB
      ∧ s1.app.dbReads = DbRead.primary hash :: DbRead.ephemeral hash :: self.app.dbReads
      ∧ self.retrieve hash = s1.admitRetrieved hash obj
      ∧ obj.mLedgerIndex < 4294967296 ∧ obj.mHash = hash := by
    rcases self with ⟨c, n, ws, g, l, p, k, e, ⟨ldb, eph, sdb, q, r⟩⟩
    simp only at hf hn he heph hl hlk
    subst he
    cases k
    · have hr : retrieve ⟨c, n, ws, g, l, p, false, true, ⟨ldb, eph, sdb, q, r⟩⟩ hash
          = retrieveSQLite ⟨c, n, ws, g, l, p, false, true, ⟨ldb, eph, sdb, q, r⟩⟩ hash := by
        simp [retrieve]
      rw [hr] at hsome ⊢
      unfold retrieveSQLite at hsome ⊢
      rw [retrieveEphemeral_eq] at hsome ⊢
      cases sdb with
      | none => simp [hf, hn, hl] at hsome
      | some db =>
        cases hs : db.select hash with
        | none => simp [hf, hn, hl, hs, noteRead] at hsome
        | some row =>
          cases ht : typeOfLetter (firstChar row.ObjType) with
          | none => simp [hf, hn, hl, hs, ht, noteRead] at hsome
          | some t =>
            simp only [hf, hn, hl, hs, ht, noteRead, admitRetrieved, TaggedCache.canonicalize,
              hlk, Option.isSome_none, Bool.false_eq_true, if_false, if_true,
              Option.some.injEq] at hsome
            subst hsome
            refine ⟨⟨c, n, ws, g, l, p, false, true,
              ⟨ldb, eph, some db, q, DbRead.primary hash :: DbRead.ephemeral hash :: r⟩⟩,
              rfl, rfl, rfl, rfl, ?_, Nat.mod_lt _ (by decide), rfl⟩
            simp [hf, hn, hl, hs, ht, noteRead]
    · have hr : retrieve ⟨c, n, ws, g, l, p, true, true, ⟨ldb, eph, sdb, q, r⟩⟩ hash
          = retrieveLevelDB ⟨c, n, ws, g, l, p, true, true, ⟨ldb, eph, sdb, q, r⟩⟩ hash := by
        simp [retrieve]
      rw [hr] at hsome ⊢
      unfold retrieveLevelDB at hsome ⊢
      rw [retrieveEphemeral_eq] at hsome ⊢
      cases ldb with
      | none => simp [hf, hn] at hsome
      | some db =>
        cases hs : LLRetrieve hash db with
        | none => simp [hf, hn, hl, hs, noteRead] at hsome
        | some o =>
          simp only [hf, hn, hl, hs, noteRead, admitRetrieved, TaggedCache.canonicalize,
            hlk, Option.isSome_none, Option.isNone_some, Bool.or_self, Bool.false_eq_true,
            if_false, if_true, Option.some.injEq] at hsome
          subst hsome
          obtain ⟨hidx, hh⟩ := LLRetrieve_index_lt hash db o hs
          refine ⟨⟨c, n, ws, g, l, p, true, true,
            ⟨some db, eph, sdb, q, DbRead.primary hash :: DbRead.ephemeral hash :: r⟩⟩,
            rfl, rfl, rfl, rfl, ?_, hidx, hh⟩
          simp [hf, hn, hl, hs, noteRead]
  obtain ⟨s1, hc, he1, hel, hreads, hret, hidx, hh⟩ := key
  rw [hret, admitRetrieved_mirror s1 hash obj (by rw [hc]; exact hf) he1]
  have hput : (LLWrite obj s1.app.ephemeralLDB).Get hash.slice = some (specValue obj) := by
    rw [LLWrite_eq, hh]
    exact Get_Put_same _ _ _
  have hspec : specValue obj
      = be32 obj.mLedgerIndex ++ be32 obj.mLedgerIndex ++ [obj.mType] ++ obj.mData := by
    simp [specValue, Nat.mod_eq_of_lt htype]
  refine ⟨hreads, ?_, ?_, ?_⟩
  · have ht : s1.mCache.touch hash = false := by
      rw [touch_eq_fetch_isSome, hc, hf]; rfl
    exact fetch_after_insert s1.mCache hash obj ht
  · show (LLWrite obj s1.app.ephemeralLDB).Get hash.slice = _
    rw [hput, hspec]
  · show LLRetrieve hash (LLWrite obj s1.app.ephemeralLDB) = some obj
    have h := LLRetrieve_LLWrite obj s1.app.ephemeralLDB htype hidx
    rw [hh] at h
    exact h

/-- Witness for C18: a record found in the key-value primary. -/
theorem C18_primary_hit_mirrored_witness :
    (kvStorePrimaryHolds.retrieve hashA).2.app.dbReads
        = DbRead.primary hashA :: DbRead.ephemeral hashA :: kvStorePrimaryHolds.app.dbReads
    ∧ (kvStorePrimaryHolds.retrieve hashA).2.mCache.fetch hashA
        = some (NodeObject.make hotLEDGER 42 [170, 187] hashA)
    ∧ (kvStorePrimaryHolds.retrieve hashA).2.app.ephemeralLDB.Get hashA.slice
        = some (be32 (NodeObject.make hotLEDGER 42 [170, 187] hashA).mLedgerIndex
            ++ be32 (NodeObject.make hotLEDGER 42 [170, 187] hashA).mLedgerIndex
            ++ [(NodeObject.make hotLEDGER 42 [170, 187] hashA).mType]
            ++ (NodeObject.make hotLEDGER 42 [170, 187] hashA).mData)
    ∧ LLRetrieve hashA (kvStorePrimaryHolds.retrieve hashA).2.app.ephemeralLDB
        = some (NodeObject.make hotLEDGER 42 [170, 187] hashA) :=
  C18_primary_hit_mirrored kvStorePrimaryHolds hashA
    (NodeObject.make hotLEDGER 42 [170, 187] hashA)
    (by decide) (by decide) (by decide) (by decide) (by decide) (by decide)

/-! ## C17: migration of a legacy table -/

theorem lookup_append_of_forall_ne {κ ν : Type} [BEq κ] [LawfulBEq κ] (l l' : List (κ × ν))
    (key : κ) (h : ∀ e ∈ l, e.1 ≠ key) : (l ++ l').lookup key = l'.lookup key := by
  induction l with
  | nil => rfl
  | cons e l ih =>
    obtain ⟨k, v⟩ := e
    have hk : (key == k) = false := by
      have := h (k, v) (List.mem_cons_self _ _)
      simpa using fun hc : key = k => this hc.symm
    simp only [List.cons_append, List.lookup, hk]
    exact ih (fun e he => h e (List.mem_cons_of_mem _ he))

/-- In a list of bindings applied in order, the binding of an element that no
later element shares its key with is the one found. -/
theorem lookup_reverse_map_split {α κ ν : Type} [BEq κ] [LawfulBEq κ] (f : α → κ × ν)
    (l1 l2 : List α) (a : α) (rest : List (κ × ν))
    (h : ∀ x ∈ l2, (f x).1 ≠ (f a).1) :
    List.lookup (f a).1 ((List.map f (l1 ++ a :: l2)).reverse ++ rest) = some (f a).2 := by
  simp only [List.map_append, List.map_cons, List.reverse_append, List.reverse_cons,
    List.append_assoc]
  rw [lookup_append_of_forall_ne]
  · simp [List.lookup]
  · intro e he
    simp only [List.mem_reverse, List.mem_map] at he
    obtain ⟨x, hx, rfl⟩ := he
    exact h x hx

theorem importType_lt (c : Char) : importType c < 256 := by
  unfold importType
  split
  · decide
  · split
    · decide
    · split
      · decide
      · split <;> decide

theorem importRow_rawData (index type : Nat) (data : Blob) :
    storeU8 (storeU32 (storeU32 (memcpy (List.replicate (9 + data.length) 0) 9 data)
      0 (ntohl index)) 4 (ntohl index)) 8 type
    = be32 index ++ be32 index ++ [type % 256] ++ data := by
  simp only [storeU32, storeU8, ntohl, bswap32_bytes]
  simp [memcpy, be32, List.take_replicate, List.drop_replicate]

theorem importRow_eq (st : LevelDB × Nat) (row : SqlRow) (hidx : row.LedgerIndex < 4294967296) :
    importRow st row
      = (if row.Hash.isZero then st
         else (st.1.Put (importPair row).1 (importPair row).2, st.2 + 1)) := by
  unfold importRow
  simp only [importRow_rawData, Nat.mod_eq_of_lt hidx, Nat.mod_eq_of_lt (importType_lt _),
    importPair, uint256.slice]

theorem import_fold (rows : List SqlRow) (st : LevelDB × Nat)
    (hidx : ∀ r ∈ rows, r.LedgerIndex < 4294967296) :
    rows.foldl importRow st
      = ({ entries :=
            ((rows.filter (fun r => !r.Hash.isZero)).map importPair).reverse ++ st.1.entries },
          st.2 + (rows.filter (fun r => !r.Hash.isZero)).length) := by
  induction rows generalizing st with
  | nil => simp
  | cons r rows ih =>
    simp only [List.foldl_cons]
    rw [ih _ (fun x hx => hidx x (List.mem_cons_of_mem _ hx)),
      importRow_eq st r (hidx r (List.mem_cons_self _ _))]
    cases hz : r.Hash.isZero
    · simp [hz, LevelDB.Put]
      omega
    · simp [hz]

theorem filter_length_sub (rows : List SqlRow) :
    (rows.filter (fun r => !r.Hash.isZero)).length
      = rows.length - (rows.filter (fun r => r.Hash.isZero)).length := by
  induction rows with
  | nil => rfl
  | cons r rows ih =>
    have hle : (rows.filter (fun r => r.Hash.isZero)).length ≤ rows.length :=
      List.length_filter_le _ _
    cases hz : r.Hash.isZero
    · simp [List.filter_cons, hz, ih]
      omega
    · simp [List.filter_cons, hz, ih]

/-- C17: for every legacy table of `N` rows, `Z` of them with a zero hash,
whose other rows have pairwise distinct hashes (the column is the primary
key) and 32-bit ledger indexes, the migration over a configured key-value
primary returns `N - Z` and makes exactly `N - Z` puts; a zero-hash row
writes nothing, so the binding of its key is what it was; and for every other
row the primary holds, under the raw hash, the index big-endian twice, the
type decoded from the type character (`L`, `T`, `A`, `N`; any other
character gives Unknown) and the payload, so that `LLRetrieve` of the hash
returns the record with the row's type, index and payload.  Nothing else in
the store changes. -/
theorem C17_import_legacy_table (self : HashedObjectStore) (db : LevelDB) (rows : List SqlRow)
    (hdb : self.app.hashNodeLDB = some db)
    (hkey : ((rows.filter (fun r => !r.Hash.isZero)).map (fun r => r.Hash)).Nodup)
    (hidx : ∀ r ∈ rows, r.LedgerIndex < 4294967296) :
    ∃ db' : LevelDB,
      self.importFile { CommittedObjects := rows }
        = some (rows.length - (rows.filter (fun r => r.Hash.isZero)).length,
            { self with app := { self.app with hashNodeLDB := some db' } })
      ∧ db'.entries.length
          = db.entries.length + (rows.length - (rows.filter (fun r => r.Hash.isZero)).length)
      ∧ (∀ r ∈ rows, r.Hash.isZero = true → db'.Get r.Hash.slice = db.Get r.Hash.slice)
      ∧ (∀ r ∈ rows, r.Hash.isZero = false →
          db'.Get r.Hash.slice
            = some (be32 r.LedgerIndex ++ be32 r.LedgerIndex
                ++ [importType (firstChar r.ObjType)] ++ r.Object)
          ∧ LLRetrieve r.Hash db'
            = some (NodeObject.make (importType (firstChar r.ObjType)) r.LedgerIndex
                r.Object r.Hash))
      ∧ importType 'L' = hotLEDGER ∧ importType 'T' = hotTRANSACTION
      ∧ importType 'A' = hotACCOUNT_NODE ∧ importType 'N' = hotTRANSACTION_NODE := by
  have hfold := import_fold rows (db, 0) hidx
  simp only [Nat.zero_add] at hfold
  refine ⟨{ entries :=
      ((rows.filter (fun r => !r.Hash.isZero)).map importPair).reverse ++ db.entries },
    ?_, ?_, ?_, ?_, by decide, by decide, by decide, by decide⟩
  · simp only [importFile, hdb, hfold, filter_length_sub]
  · simp [filter_length_sub]
    omega
  · intro r _ hz
    simp only [LevelDB.Get]
    apply lookup_append_of_forall_ne
    intro e he
    simp only [List.mem_reverse, List.mem_map, List.mem_filter] at he
    obtain ⟨x, ⟨_, hx⟩, rfl⟩ := he
    intro hc
    have hpn : x.Hash.pn = r.Hash.pn := hc
    have : x.Hash.isZero = r.Hash.isZero := by simp [uint256.isZero, hpn]
    rw [hz] at this
    simp [this] at hx
  · intro r hr hz
    have hmem : r ∈ rows.filter (fun r => !r.Hash.isZero) := by
      simp [List.mem_filter, hr, hz]
    obtain ⟨l1, l2, hsplit⟩ := List.append_of_mem hmem
    have hlater : ∀ x ∈ l2, (importPair x).1 ≠ (importPair r).1 := by
      intro x hx hc
      rw [hsplit, List.map_append, List.map_cons] at hkey
      have hnd := (List.nodup_append.mp hkey).2.1
      have hnot := (List.nodup_cons.mp hnd).1
      apply hnot
      have hpn : x.Hash.pn = r.Hash.pn := hc
      have hxr : x.Hash = r.Hash := by
        cases hx' : x.Hash; cases hr' : r.Hash
        simp_all
      rw [← hxr]
      exact List.mem_map_of_mem _ hx
    have hget : (LevelDB.mk (((rows.filter (fun r => !r.Hash.isZero)).map importPair).reverse
        ++ db.entries)).Get r.Hash.slice = some (importPair r).2 := by
      simp only [LevelDB.Get]
      rw [hsplit]
      exact lookup_reverse_map_split importPair l1 l2 r db.entries hlater
    refine ⟨hget, ?_⟩
    apply LLRetrieve_of_Get r.Hash _ _ _ _ (importType_lt _) (hidx r hr)
    rw [hget]
    simp [importPair, specValue, NodeObject.make, Nat.mod_eq_of_lt (importType_lt _)]

/-- Witness for C17: scenario S6, three rows of which one has a zero hash. -/
theorem C17_import_legacy_table_witness :
    ∃ db' : LevelDB,
      kvStore.importFile { CommittedObjects := legacyTable.CommittedObjects }
        = some (legacyTable.CommittedObjects.length
              - (legacyTable.CommittedObjects.filter (fun r => r.Hash.isZero)).length,
            { kvStore with app := { kvStore.app with hashNodeLDB := some db' } })
      ∧ db'.entries.length
          = (LevelDB.mk []).entries.length
            + (legacyTable.CommittedObjects.length
              - (legacyTable.CommittedObjects.filter (fun r => r.Hash.isZero)).length)
      ∧ (∀ r ∈ legacyTable.CommittedObjects, r.Hash.isZero = true →
          db'.Get r.Hash.slice = (LevelDB.mk []).Get r.Hash.slice)
      ∧ (∀ r ∈ legacyTable.CommittedObjects, r.Hash.isZero = false →
          db'.Get r.Hash.slice
            = some (be32 r.LedgerIndex ++ be32 r.LedgerIndex
                ++ [importType (firstChar r.ObjType)] ++ r.Object)
          ∧ LLRetrieve r.Hash db'
            = some (NodeObject.make (importType (firstChar r.ObjType)) r.LedgerIndex
                r.Object r.Hash))
      ∧ importType 'L' = hotLEDGER ∧ importType 'T' = hotTRANSACTION
      ∧ importType 'A' = hotACCOUNT_NODE ∧ importType 'N' = hotTRANSACTION_NODE :=
  C17_import_legacy_table kvStore { entries := [] } legacyTable.CommittedObjects rfl
    (by decide) (by decide)

/-! ## C13: the drain writes both backends -/

theorem lookup_append_of_some (l l' : List (uint256 × NodeObject)) (key : uint256)
    (v : NodeObject) (h : l.lookup key = some v) : (l ++ l').lookup key = some v := by
  induction l with
  | nil => simp [List.lookup] at h
  | cons e l ih =>
    obtain ⟨k, w⟩ := e
    by_cases hk : key = k
    · subst hk
      simpa [List.lookup] using h
    · have hb : (key == k) = false := by simpa using hk
      simp only [List.cons_append, List.lookup, hb] at h ⊢
      exact ih h

theorem touch_after_insert_other (c : TaggedCache) (key other : uint256) (data : NodeObject)
    (hne : other ≠ key) :
    TaggedCache.touch { entries := c.entries ++ [(key, data)] } other = c.touch other := by
  unfold TaggedCache.touch
  cases hl : c.entries.lookup other with
  | none =>
    have hk : (other == key) = false := by simpa using hne
    rw [lookup_append_of_none _ _ _ hl]
    simp [List.lookup, hk]
  | some v => rw [lookup_append_of_some _ _ _ v hl]

theorem run_invariant (P : System → Prop)
    (hstep : ∀ s a s', P s → step s a = some s' → P s') :
    ∀ (acts : List Action) (s s' : System), P s → run s acts = some s' → P s' := by
  intro acts
  induction acts with
  | nil =>
    intro s s' hs h
    simp only [run, Option.some.injEq] at h
    exact h ▸ hs
  | cons a rest ih =>
    intro s s' hs h
    simp only [run] at h
    cases hst : step s a with
    | none => simp [hst] at h
    | some next =>
      simp only [hst] at h
      exact ih next s' (hstep s a next hs hst) h

theorem sameCoordinator_refl (self : HashedObjectStore) : SameCoordinator self self :=
  ⟨rfl, rfl, rfl, rfl, rfl⟩

theorem enqueue_coordinator (self : HashedObjectStore) (object : NodeObject) (job : Job) :
    (self.enqueue object job).mWriteSet = self.mWriteSet ++ [object]
    ∧ (self.enqueue object job).mWritePending = true
    ∧ (self.enqueue object job).mWriteGeneration = self.mWriteGeneration
    ∧ (self.enqueue object job).mWriteLoad = self.mWriteLoad
    ∧ (self.enqueue object job).app.jobQueue
        = (if self.mWritePending then self.app.jobQueue else self.app.jobQueue ++ [job]) := by
  cases h : self.mWritePending <;> simp [enqueue, h]

/-- What a step of a `store` call does to the coordinator: the locked block
queues the record, every other step leaves the coordinator as it is. -/
theorem storeStep_coordinator (self s : HashedObjectStore) (c c' : StoreCall)
    (h : storeStep self c = some (s, c')) :
    (c.pc = StorePc.locked
      ∧ s = self.enqueue (NodeObject.make c.type c.index c.data c.hash) self.ownJob)
    ∨ (c.pc ≠ StorePc.locked ∧ SameCoordinator s self) := by
  unfold storeStep at h
  cases hpc : c.pc with
  | entry =>
    right
    refine ⟨by simp, ?_⟩
    simp only [hpc] at h
    split at h
    · simp only [Option.some.injEq, Prod.mk.injEq] at h
      exact h.1 ▸ sameCoordinator_refl self
    · split at h <;>
        (simp only [Option.some.injEq, Prod.mk.injEq] at h
         exact h.1 ▸ sameCoordinator_refl self)
  | construct =>
    right
    refine ⟨by simp, ?_⟩
    simp only [hpc] at h
    split at h <;>
      (simp only [Option.some.injEq, Prod.mk.injEq] at h
       exact h.1 ▸ ⟨rfl, rfl, rfl, rfl, rfl⟩)
  | locked =>
    left
    simp only [hpc, Option.some.injEq, Prod.mk.injEq] at h
    exact ⟨rfl, h.1.symm⟩
  | del =>
    right
    refine ⟨by simp, ?_⟩
    simp only [hpc, Option.some.injEq, Prod.mk.injEq] at h
    exact h.1 ▸ ⟨rfl, rfl, rfl, rfl, rfl⟩
  | returned r => simp [hpc] at h

theorem retrieveEphemeral_coordinator (self : HashedObjectStore) (hash : uint256) :
    SameCoordinator (self.retrieveEphemeral hash).2 self := by
  rw [retrieveEphemeral_eq]
  cases self.mEphemeralDB
  · exact sameCoordinator_refl self
  · simp only [if_true]
    cases LLRetrieve hash self.app.ephemeralLDB <;> exact ⟨rfl, rfl, rfl, rfl, rfl⟩

theorem admitRetrieved_coordinator (self : HashedObjectStore) (hash : uint256)
    (obj : NodeObject) : SameCoordinator (self.admitRetrieved hash obj).2 self := by
  unfold admitRetrieved
  cases self.mEphemeralDB <;> exact ⟨rfl, rfl, rfl, rfl, rfl⟩

theorem sameCoordinator_trans (a b c : HashedObjectStore) (h1 : SameCoordinator a b)
    (h2 : SameCoordinator b c) : SameCoordinator a c :=
  ⟨h1.1.trans h2.1, h1.2.1.trans h2.2.1, h1.2.2.1.trans h2.2.2.1,
    h1.2.2.2.1.trans h2.2.2.2.1, h1.2.2.2.2.trans h2.2.2.2.2⟩

theorem retrieveLevelDB_coordinator (self : HashedObjectStore) (hash : uint256) :
    SameCoordinator (self.retrieveLevelDB hash).2 self := by
  have he := retrieveEphemeral_coordinator self hash
  unfold retrieveLevelDB
  dsimp only
  by_cases hc : ((self.mCache.fetch hash).isSome || self.mNegativeCache.isPresent hash
      || self.app.hashNodeLDB.isNone) = true
  · rw [if_pos hc]
    exact sameCoordinator_refl self
  · rw [if_neg hc]
    generalize self.retrieveEphemeral hash = r at he
    obtain ⟨o, s1⟩ := r
    cases o with
    | some obj => exact he
    | none =>
      dsimp only
      cases s1.app.hashNodeLDB with
      | none => exact he
      | some db =>
        dsimp only
        cases LLRetrieve hash db with
        | none => exact sameCoordinator_trans _ _ _ ⟨rfl, rfl, rfl, rfl, rfl⟩ he
        | some obj =>
          exact sameCoordinator_trans _ _ _
            (admitRetrieved_coordinator _ hash obj)
            (sameCoordinator_trans _ _ _ ⟨rfl, rfl, rfl, rfl, rfl⟩ he)

theorem retrieveSQLite_coordinator (self : HashedObjectStore) (hash : uint256) :
    SameCoordinator (self.retrieveSQLite hash).2 self := by
  have he := retrieveEphemeral_coordinator self hash
  unfold retrieveSQLite
  dsimp only
  by_cases hc : (self.mCache.fetch hash).isSome = true
  · rw [if_pos hc]
    exact sameCoordinator_refl self
  · rw [if_neg hc]
    by_cases hn : self.mNegativeCache.isPresent hash = true
    · rw [if_pos hn]
      exact sameCoordinator_refl self
    · rw [if_neg hn]
      generalize self.retrieveEphemeral hash = r at he
      obtain ⟨o, s1⟩ := r
      cases o with
      | some obj => exact he
      | none =>
        dsimp only
        cases s1.app.hashNodeDB with
        | none => exact he
        | some db =>
          dsimp only
          cases db.select hash with
          | none => exact sameCoordinator_trans _ _ _ ⟨rfl, rfl, rfl, rfl, rfl⟩ he
          | some row =>
            dsimp only
            cases typeOfLetter (firstChar row.ObjType) with
            | none => exact sameCoordinator_trans _ _ _ ⟨rfl, rfl, rfl, rfl, rfl⟩ he
            | some t =>
              exact sameCoordinator_trans _ _ _
                (admitRetrieved_coordinator _ hash _)
                (sameCoordinator_trans _ _ _ ⟨rfl, rfl, rfl, rfl, rfl⟩ he)

theorem retrieve_coordinator (self : HashedObjectStore) (hash : uint256) :
    SameCoordinator (self.retrieve hash).2 self := by
  unfold retrieve
  cases self.mLevelDB
  · exact retrieveSQLite_coordinator self hash
  · exact retrieveLevelDB_coordinator self hash

theorem writeOutLevelDB_coordinator (self s : HashedObjectStore) (set : List NodeObject)
    (h : self.writeOutLevelDB set = some s) : SameCoordinator s self := by
  unfold writeOutLevelDB at h
  cases hd : self.app.hashNodeLDB with
  | none => simp [hd] at h
  | some db =>
    simp only [hd] at h
    split at h <;>
      (simp only [Option.some.injEq] at h
       exact h ▸ ⟨rfl, rfl, rfl, rfl, rfl⟩)

theorem writeOutSQLite_coordinator (self s : HashedObjectStore) (set : List NodeObject)
    (h : self.writeOutSQLite set = some s) : SameCoordinator s self := by
  unfold writeOutSQLite at h
  cases he : self.mEphemeralDB <;> simp only [he, Bool.false_eq_true, if_false, if_true] at h
  · cases hd : self.app.hashNodeDB with
    | none => simp [hd] at h
    | some db =>
      simp only [hd, Option.some.injEq] at h
      exact h ▸ ⟨rfl, rfl, rfl, rfl, rfl⟩
  · cases hd : self.app.hashNodeDB with
    | none => simp [hd] at h
    | some db =>
      simp only [hd, Option.some.injEq] at h
      exact h ▸ ⟨rfl, rfl, rfl, rfl, rfl⟩

/-- What a step of a drain job does: the pass that swaps out an empty batch
returns, advances the generation and clears the pending flag and the load; the
pass that swaps out a batch advances the generation, sets the load to the old
`setSize` and keeps the batch; the writes leave the coordinator as it is. -/
theorem drainStep_cases (self s : HashedObjectStore) (t : DrainTask) (ot : Option DrainTask)
    (h : drainStep self t = some (s, ot)) :
    (t.set = none ∧ self.mWriteSet = [] ∧ ot = none
      ∧ s = { self with
              mWriteSet := []
              mWriteGeneration := intWrap (self.mWriteGeneration + 1)
              mWritePending := false
              mWriteLoad := 0 })
    ∨ (t.set = none ∧ self.mWriteSet ≠ []
      ∧ ot = some { t with setSize := self.mWriteSet.length, set := some self.mWriteSet }
      ∧ s = { self with
              mWriteSet := []
              mWriteGeneration := intWrap (self.mWriteGeneration + 1)
              mWriteLoad := t.setSize })
    ∨ (∃ b, t.set = some b ∧ ot = some { t with set := none } ∧ SameCoordinator s self) := by
  unfold drainStep at h
  cases hs : t.set with
  | none =>
    simp only [hs, drainSwap] at h
    cases hw : self.mWriteSet with
    | nil =>
      left
      simp only [hw, List.isEmpty_nil, if_true, Option.some.injEq, Prod.mk.injEq] at h
      exact ⟨rfl, rfl, h.2.symm, h.1.symm⟩
    | cons o os =>
      right; left
      simp only [hw, List.isEmpty_cons, Bool.false_eq_true, if_false, Option.some.injEq,
        Prod.mk.injEq, List.length_nil, Nat.max_zero] at h
      refine ⟨rfl, by simp, ?_, ?_⟩
      · rw [← h.2]
      · rw [← h.1]
  | some b =>
    right; right
    refine ⟨b, rfl, ?_⟩
    simp only [hs] at h
    cases hj : t.job with
    | bulkWriteLevelDB =>
      simp only [hj] at h
      cases hw : self.writeOutLevelDB b with
      | none => simp [hw] at h
      | some s1 =>
        simp only [hw, Option.map_some', Option.some.injEq, Prod.mk.injEq] at h
        exact ⟨by rw [← h.2], h.1 ▸ writeOutLevelDB_coordinator self s1 b hw⟩
    | bulkWriteSQLite =>
      simp only [hj] at h
      cases hw : self.writeOutSQLite b with
      | none => simp [hw] at h
      | some s1 =>
        simp only [hw, Option.map_some', Option.some.injEq, Prod.mk.injEq] at h
        exact ⟨by rw [← h.2], h.1 ▸ writeOutSQLite_coordinator self s1 b hw⟩

theorem step_stepStore (sys s' : System) (i : Nat)
    (h : step sys (Action.stepStore i) = some s') :
    ∃ (c c' : StoreCall) (st : HashedObjectStore),
      sys.calls[i]? = some c ∧ storeStep sys.self c = some (st, c')
      ∧ s' = { sys with self := st, calls := sys.calls.set i c' } := by
  simp only [step] at h
  cases hc : sys.calls[i]? with
  | none => simp [hc] at h
  | some c =>
    simp only [hc] at h
    cases hs : storeStep sys.self c with
    | none => simp [hs] at h
    | some r =>
      obtain ⟨st, c'⟩ := r
      simp only [hs, Option.some.injEq] at h
      exact ⟨c, c', st, rfl, hs, h.symm⟩

theorem step_stepDrain (sys s' : System) (j : Nat)
    (h : step sys (Action.stepDrain j) = some s') :
    ∃ (t : DrainTask) (st : HashedObjectStore) (ot : Option DrainTask),
      sys.drains[j]? = some t ∧ drainStep sys.self t = some (st, ot)
      ∧ s'.self = st ∧ s'.calls = sys.calls ∧ s'.waiters = sys.waiters
      ∧ s'.drains = (match ot with
          | none => sys.drains.eraseIdx j
          | some t' => sys.drains.set j t')
      ∧ s'.taken = (if t.set.isNone then sys.self.mWriteSet.length :: sys.taken
          else sys.taken) := by
  simp only [step] at h
  cases ht : sys.drains[j]? with
  | none => simp [ht] at h
  | some t =>
    simp only [ht] at h
    cases hd : drainStep sys.self t with
    | none => simp [hd] at h
    | some r =>
      obtain ⟨st, ot⟩ := r
      have hcases := drainStep_cases sys.self st t ot hd
      cases ot with
      | none =>
        simp only [hd, Option.some.injEq] at h
        subst h
        have hset : t.set = none := by
          rcases hcases with h1 | h1 | ⟨b, _, h1, _⟩
          · exact h1.1
          · exact h1.1
          · cases h1
        exact ⟨t, st, none, rfl, hd, rfl, rfl, rfl, rfl, by simp [hset]⟩
      | some t' =>
        simp only [hd, Option.some.injEq] at h
        subst h
        refine ⟨t, st, some t', rfl, hd, rfl, rfl, rfl, rfl, ?_⟩
        cases t.set <;> rfl

/-! ## C11, C20: single flight -/

theorem singleFlight_step (s : System) (a : Action) (s' : System) (h : SingleFlight s)
    (hst : step s a = some s') : SingleFlight s' := by
  obtain ⟨hcount, hempty⟩ := h
  cases a with
  | callStore type index data hash =>
    simp only [step, Option.some.injEq] at hst
    subst hst
    exact ⟨hcount, hempty⟩
  | stepStore i =>
    obtain ⟨c, c', st, _, hs, rfl⟩ := step_stepStore s s' i hst
    rcases storeStep_coordinator s.self st c c' hs with ⟨_, rfl⟩ | ⟨_, hsame⟩
    · obtain ⟨hws, hp, _, _, hq⟩ := enqueue_coordinator s.self
        (NodeObject.make c.type c.index c.data c.hash) s.self.ownJob
      refine ⟨?_, ?_⟩
      · show (s.self.enqueue _ _).app.jobQueue.length + s.drains.length
          = if (s.self.enqueue _ _).mWritePending = true then 1 else 0
        rw [hq, hp]
        cases hpend : s.self.mWritePending
        · simp only [hpend, Bool.false_eq_true, if_false] at hcount ⊢
          simp only [List.length_append, List.length_singleton, if_true]
          omega
        · simpa [hpend] using hcount
      · intro hf
        have : (s.self.enqueue (NodeObject.make c.type c.index c.data c.hash)
            s.self.ownJob).mWritePending = false := hf
        rw [hp] at this
        cases this
    · obtain ⟨hws, hp, _, _, hq⟩ := hsame
      refine ⟨?_, ?_⟩
      · show st.app.jobQueue.length + s.drains.length = if st.mWritePending = true then 1 else 0
        rw [hq, hp]
        exact hcount
      · intro hf
        show st.mWriteSet = []
        rw [hws]
        exact hempty (hp ▸ hf)
  | callRetrieve hash =>
    simp only [step, Option.some.injEq] at hst
    subst hst
    obtain ⟨hws, hp, _, _, hq⟩ := retrieve_coordinator s.self hash
    refine ⟨?_, ?_⟩
    · show (s.self.retrieve hash).2.app.jobQueue.length + s.drains.length
        = if (s.self.retrieve hash).2.mWritePending = true then 1 else 0
      rw [hq, hp]
      exact hcount
    · intro hf
      show (s.self.retrieve hash).2.mWriteSet = []
      rw [hws]
      exact hempty (hp ▸ hf)
  | startJob =>
    simp only [step] at hst
    cases hq : s.self.app.jobQueue with
    | nil => simp [hq] at hst
    | cons job rest =>
      simp only [hq, Option.some.injEq] at hst
      subst hst
      refine ⟨?_, hempty⟩
      rw [hq] at hcount
      simp only [List.length_cons] at hcount
      dsimp only
      simp only [List.length_append, List.length_singleton, List.length_nil]
      omega
  | stepDrain j =>
    obtain ⟨t, st, ot, hj, hd, hself, _, _, hdr, _⟩ := step_stepDrain s s' j hst
    have hjlt : j < s.drains.length := by
      rcases Nat.lt_or_ge j s.drains.length with h1 | h1
      · exact h1
      · rw [List.getElem?_eq_none h1] at hj
        cases hj
    rcases drainStep_cases s.self st t ot hd with ⟨_, _, rfl, rfl⟩ | ⟨_, _, rfl, rfl⟩
      | ⟨b, _, rfl, hsame⟩
    · refine ⟨?_, fun _ => by rw [hself]⟩
      rw [hself, hdr]
      simp only [List.length_eraseIdx, hjlt, if_true, Bool.false_eq_true, if_false]
      cases hpend : s.self.mWritePending
      · simp only [hpend, Bool.false_eq_true, if_false] at hcount
        omega
      · simp only [hpend, if_true] at hcount
        omega
    · refine ⟨?_, fun _ => by rw [hself]⟩
      rw [hself, hdr]
      simpa using hcount
    · obtain ⟨hws, hp, _, _, hq⟩ := hsame
      refine ⟨?_, ?_⟩
      · rw [hself, hdr, hq, hp]
        simpa using hcount
      · intro hf
        rw [hself] at hf ⊢
        rw [hws]
        exact hempty (hp ▸ hf)
  | callWait =>
    simp only [step, Option.some.injEq] at hst
    subst hst
    exact ⟨hcount, hempty⟩
  | wakeWait i =>
    simp only [step] at hst
    cases hw : s.waiters[i]? with
    | none => simp [hw] at hst
    | some w =>
      simp only [hw] at hst
      cases hk : waitWake s.self w with
      | none => simp [hk] at hst
      | some w' =>
        simp only [hk, Option.some.injEq] at hst
        subst hst
        exact ⟨hcount, hempty⟩

theorem singleFlight_boot (theConfig : Config) (app : Application) :
    SingleFlight (boot theConfig app) := by
  simp [SingleFlight, boot, ctor]

theorem singleFlight_reachable (sys : System) (h : Reachable sys) : SingleFlight sys := by
  obtain ⟨theConfig, app, acts, hrun⟩ := h
  exact run_invariant SingleFlight singleFlight_step acts _ _ (singleFlight_boot theConfig app)
    hrun

theorem step_effect (s : System) (a : Action) (s' : System) (hst : step s a = some s') :
    Effect s a s' := by
  cases a with
  | callStore type index data hash =>
    simp only [step, Option.some.injEq] at hst
    subst hst
    exact Effect.quiet (sameCoordinator_refl _) rfl rfl rfl (fun j hc => by cases hc)
  | stepStore i =>
    obtain ⟨c, c', st, _, hs, rfl⟩ := step_stepStore s s' i hst
    rcases storeStep_coordinator s.self st c c' hs with ⟨_, rfl⟩ | ⟨_, hsame⟩
    · exact Effect.queue i _ rfl rfl rfl rfl rfl
    · exact Effect.quiet hsame rfl rfl rfl (fun j hc => by cases hc)
  | callRetrieve hash =>
    simp only [step, Option.some.injEq] at hst
    subst hst
    exact Effect.quiet (retrieve_coordinator s.self hash) rfl rfl rfl
      (fun j hc => by cases hc)
  | startJob =>
    simp only [step] at hst
    cases hq : s.self.app.jobQueue with
    | nil => simp [hq] at hst
    | cons job rest =>
      simp only [hq, Option.some.injEq] at hst
      subst hst
      exact Effect.start job rest rfl hq rfl rfl rfl rfl
  | stepDrain j =>
    obtain ⟨t, st, ot, hj, hd, hself, _, hw, hdr, htk⟩ := step_stepDrain s s' j hst
    rcases drainStep_cases s.self st t ot hd with ⟨hset, hws, rfl, rfl⟩ | ⟨hset, hws, rfl, rfl⟩
      | ⟨b, hset, rfl, hsame⟩
    · exact Effect.exit j t rfl hj hset hws hself hdr (by simpa [hset] using htk) hw
    · exact Effect.take j t rfl hj hset hws hself hdr (by simpa [hset] using htk) hw
    · exact Effect.write j t b rfl hj hset (hself ▸ hsame) hdr (by simpa [hset] using htk) hw
  | callWait =>
    simp only [step, Option.some.injEq] at hst
    subst hst
    exact Effect.waitCall rfl rfl rfl rfl rfl
  | wakeWait i =>
    simp only [step] at hst
    cases hw : s.waiters[i]? with
    | none => simp [hw] at hst
    | some w =>
      simp only [hw] at hst
      cases hk : waitWake s.self w with
      | none => simp [hk] at hst
      | some w' =>
        simp only [hk, Option.some.injEq] at hst
        subst hst
        exact Effect.waitWoken i w w' rfl rfl rfl rfl hw hk rfl

/-! ## C12: the generation and `waitWrite` -/

theorem intWrap_range (x : Int) : -2147483648 ≤ intWrap x ∧ intWrap x ≤ 2147483647 := by
  unfold intWrap
  omega

theorem intWrap_of_range (x : Int) (h1 : -2147483648 ≤ x) (h2 : x ≤ 2147483647) :
    intWrap x = x := by
  unfold intWrap
  omega

theorem intWrap_succ (x : Int) : intWrap (intWrap x + 1) = intWrap (x + 1) := by
  unfold intWrap
  omega

theorem intWrap_max : intWrap (2147483647 + 1) = -2147483648 := by
  decide

theorem sound_mono (w : Waiter) (n n' : Nat) (p p' : Bool) (h : w.Sound n p) (hn : n ≤ n')
    (hp : p' = false → p = false ∨ n < n') : w.Sound n' p' := by
  unfold Waiter.Sound at h ⊢
  cases hr : w.returnedAt with
  | some r =>
    simp only [hr] at h ⊢
    obtain ⟨k, j, h1, h2, h3⟩ := h
    exact ⟨k, j, h1, Nat.le_trans h2 hn, h3⟩
  | none =>
    simp only [hr] at h ⊢
    obtain ⟨h1, k, h2, h3, h4⟩ := h
    refine ⟨h1, k, Nat.le_trans h2 hn, h3, ?_⟩
    intro hp'
    rcases hp hp' with h5 | h5
    · exact Nat.lt_of_lt_of_le (h4 h5) hn
    · exact Nat.lt_of_le_of_lt h2 h5

theorem waitEnter_sound (self : HashedObjectStore) (n : Nat)
    (hg : self.mWriteGeneration = intWrap n) :
    (waitEnter self).Sound n self.mWritePending := by
  unfold Waiter.Sound waitEnter waitCondition
  cases hp : self.mWritePending with
  | false =>
    simp only [Bool.false_and, Bool.false_eq_true, if_false]
    exact ⟨n, n, Nat.le_refl _, Nat.le_refl _, hg, hg, Or.inl trivial⟩
  | true =>
    simp only [Bool.true_and, beq_self_eq_true, if_true]
    exact ⟨trivial, n, Nat.le_refl _, hg, fun hc => by cases hc⟩

theorem waitWake_sound (self : HashedObjectStore) (w w' : Waiter) (n : Nat)
    (hg : self.mWriteGeneration = intWrap n)
    (h : w.Sound n self.mWritePending) (hk : waitWake self w = some w') :
    w'.Sound n self.mWritePending := by
  unfold waitWake at hk
  cases hr : w.returnedAt with
  | some r => simp [hr] at hk
  | none =>
    simp only [hr, Option.some.injEq] at hk
    by_cases hc : self.waitCondition w.gen = true
    · rw [if_pos hc] at hk
      exact hk ▸ h
    · rw [if_neg hc] at hk
      subst hk
      unfold Waiter.Sound at h ⊢
      simp only [hr] at h
      obtain ⟨h1, k, h2, h3, h4⟩ := h
      simp only
      refine ⟨k, n, h2, Nat.le_refl _, h3, hg, Or.inr ?_⟩
      simp only [waitCondition, Bool.and_eq_true, beq_iff_eq, not_and] at hc
      cases hp : self.mWritePending with
      | false => exact h4 hp
      | true =>
        have hne := hc hp
        rw [hg, h3] at hne
        have hkn : k ≠ n := fun he => hne (by rw [he])
        omega

theorem waitersSound_step (s : System) (a : Action) (s' : System) (h : WaitersSound s)
    (hst : step s a = some s') : WaitersSound s' := by
  unfold WaitersSound at h ⊢
  obtain ⟨hgen, h⟩ := h
  have hswap : intWrap (s.self.mWriteGeneration + 1)
      = intWrap ((s.self.mWriteSet.length :: s.taken).length : Nat) := by
    rw [hgen, intWrap_succ, List.length_cons]
    push_cast
    rfl
  cases step_effect s a s' hst with
  | quiet hsame hd ht hw ha =>
    rw [hsame.2.2.1, hsame.2.1, ht, hw]
    exact ⟨hgen, h⟩
  | queue i obj ha hs hd ht hw =>
    obtain ⟨_, hp, hg, _, _⟩ := enqueue_coordinator s.self obj s.self.ownJob
    rw [hs, hg, hp, ht, hw]
    refine ⟨hgen, ?_⟩
    intro w hm
    exact sound_mono w _ _ _ _ (h w hm) (Nat.le_refl _) (fun hc => by cases hc)
  | start job rest ha hq hs hd ht hw =>
    rw [hs, ht, hw]
    exact ⟨hgen, h⟩
  | exit j t ha hj hset hws hs hd ht hw =>
    rw [hs, ht, hw]
    refine ⟨hswap, ?_⟩
    intro w hm
    exact sound_mono w _ _ _ _ (h w hm) (by simp) (fun _ => Or.inr (by simp))
  | take j t ha hj hset hws hs hd ht hw =>
    rw [hs, ht, hw]
    refine ⟨hswap, ?_⟩
    intro w hm
    exact sound_mono w _ _ _ _ (h w hm) (by simp) (fun hp => Or.inl hp)
  | write j t b ha hj hset hsame hd ht hw =>
    rw [hsame.2.2.1, hsame.2.1, ht, hw]
    exact ⟨hgen, h⟩
  | waitCall ha hs hd ht hw =>
    rw [hs, ht, hw]
    refine ⟨hgen, ?_⟩
    intro w hm
    rcases List.mem_append.mp hm with h1 | h1
    · exact h w h1
    · rw [List.mem_singleton.mp h1]
      exact waitEnter_sound s.self _ hgen
  | waitWoken i w0 w1 ha hs hd ht hi hk hw =>
    rw [hs, ht, hw]
    refine ⟨hgen, ?_⟩
    intro w hm
    rcases List.mem_or_eq_of_mem_set hm with h1 | h1
    · exact h w h1
    · rw [h1]
      have hmem : w0 ∈ s.waiters := List.getElem?_mem hi
      exact waitWake_sound s.self w0 w1 _ hgen (h w0 hmem) hk

theorem waitersSound_reachable (sys : System) (h : Reachable sys) : WaitersSound sys := by
  obtain ⟨theConfig, app, acts, hrun⟩ := h
  refine run_invariant WaitersSound waitersSound_step acts _ _ ?_ hrun
  refine ⟨by simp [boot, ctor, intWrap], ?_⟩
  intro w hm
  simp [boot] at hm

theorem generation_step (s : System) (a : Action) (s' : System) (hst : step s a = some s') :
    s'.self.mWriteGeneration
      = (if isSwap s a then intWrap (s.self.mWriteGeneration + 1)
         else s.self.mWriteGeneration) := by
  cases step_effect s a s' hst with
  | quiet hsame hd ht hw ha =>
    rw [hsame.2.2.1]
    have : isSwap s a = false := by
      cases a <;> simp [isSwap]
      rename_i j
      exact absurd rfl (ha j)
    simp [this]
  | queue i obj ha hs hd ht hw =>
    subst ha
    rw [hs, (enqueue_coordinator s.self obj s.self.ownJob).2.2.1]
    simp [isSwap]
  | start job rest ha hq hs hd ht hw =>
    subst ha
    rw [hs]
    simp [isSwap]
  | exit j t ha hj hset hws hs hd ht hw =>
    subst ha
    rw [hs]
    simp [isSwap, hj, hset]
  | take j t ha hj hset hws hs hd ht hw =>
    subst ha
    rw [hs]
    simp [isSwap, hj, hset]
  | write j t b ha hj hset hsame hd ht hw =>
    subst ha
    rw [hsame.2.2.1]
    simp [isSwap, hj, hset]
  | waitCall ha hs hd ht hw =>
    subst ha
    rw [hs]
    simp [isSwap]
  | waitWoken i w0 w1 ha hs hd ht hi hk hw =>
    subst ha
    rw [hs]
    simp [isSwap]

/-! ## C15: the load gauge -/

theorem single_drain (s : System) (j : Nat) (t : DrainTask) (h : SingleFlight s)
    (hj : s.drains[j]? = some t) : s.drains = [t] ∧ j = 0 := by
  obtain ⟨hcount, _⟩ := h
  have hle : s.drains.length ≤ 1 := by
    cases hp : s.self.mWritePending
    · rw [hp] at hcount
      simp only [Bool.false_eq_true, if_false] at hcount
      omega
    · rw [hp] at hcount
      simp only [if_true] at hcount
      omega
  cases hd : s.drains with
  | nil => simp [hd] at hj
  | cons x xs =>
    cases xs with
    | nil =>
      cases j with
      | zero =>
        simp [hd] at hj
        exact ⟨by rw [hj], rfl⟩
      | succ k => simp [hd] at hj
    | cons y ys => simp [hd] at hle

theorem loadSound_step (s : System) (a : Action) (s' : System) (hf : SingleFlight s)
    (h : LoadSound s) (hst : step s a = some s') : LoadSound s' := by
  obtain ⟨hsize, hnone, hload⟩ := h
  unfold LoadSound
  cases step_effect s a s' hst with
  | quiet hsame hd ht hw ha =>
    rw [hd, ht, hsame.2.2.2.1]
    exact ⟨hsize, hnone, hload⟩
  | queue i obj ha hs hd ht hw =>
    rw [hd, ht, hs, (enqueue_coordinator s.self obj s.self.ownJob).2.2.2.1]
    exact ⟨hsize, hnone, hload⟩
  | start job rest ha hq hs hd ht hw =>
    have hempty : s.drains = [] := by
      obtain ⟨hcount, _⟩ := hf
      rw [hq] at hcount
      have : s.drains.length = 0 := by
        simp only [List.length_cons] at hcount
        cases hp : s.self.mWritePending
        · rw [hp] at hcount
          simp only [Bool.false_eq_true, if_false] at hcount
          omega
        · rw [hp] at hcount
          simp only [if_true] at hcount
          omega
      exact List.length_eq_zero.mp this
    rw [hd, ht, hs, hempty]
    refine ⟨?_, by simp, hload⟩
    intro t ht'
    simp only [List.nil_append, List.mem_singleton] at ht'
    rw [ht', hnone hempty]
  | exit j t ha hj hset hws hs hd ht hw =>
    obtain ⟨hone, hj0⟩ := single_drain s j t hf hj
    rw [hd, ht, hs, hone, hj0, hws]
    simp [loadBasis]
  | take j t ha hj hset hws hs hd ht hw =>
    obtain ⟨hone, hj0⟩ := single_drain s j t hf hj
    have hlen : s.self.mWriteSet.length ≠ 0 := by
      intro hc
      exact hws (List.length_eq_zero.mp hc)
    have hts : t.setSize = s.taken.headD 0 := hsize t (by rw [hone]; simp)
    rw [hd, ht, hs, hone, hj0]
    refine ⟨by simp, by simp, ?_⟩
    simp [loadBasis, hlen, hts]
  | write j t b ha hj hset hsame hd ht hw =>
    obtain ⟨hone, hj0⟩ := single_drain s j t hf hj
    have hts : t.setSize = s.taken.headD 0 := hsize t (by rw [hone]; simp)
    rw [hd, ht, hsame.2.2.2.1, hone, hj0]
    exact ⟨by simpa using hts, by simp, hload⟩
  | waitCall ha hs hd ht hw =>
    rw [hd, ht, hs]
    exact ⟨hsize, hnone, hload⟩
  | waitWoken i w0 w1 ha hs hd ht hi hk hw =>
    rw [hd, ht, hs]
    exact ⟨hsize, hnone, hload⟩

theorem loadSound_reachable (sys : System) (h : Reachable sys) : LoadSound sys := by
  obtain ⟨theConfig, app, acts, hrun⟩ := h
  have hboth := run_invariant (fun s => SingleFlight s ∧ LoadSound s)
    (fun s a s' hs hst =>
      ⟨singleFlight_step s a s' hs.1 hst, loadSound_step s a s' hs.1 hs.2 hst⟩)
    acts _ _ ⟨singleFlight_boot theConfig app, by simp [LoadSound, boot, ctor, loadBasis]⟩ hrun
  exact hboth.2

/-- C15 (as amended): in every reachable state `getWriteLoad` is the larger
of the current size of the write set and `mWriteLoad`, and `mWriteLoad` is
zero when the last batch that a drain pass swapped out was empty (the job
then returned) or when none has been swapped out, and otherwise the size of
the batch swapped out before the last one (zero if there is none): the drain
job records the size of the batch of its previous pass, not of the batch it
has just taken. -/
theorem C15_write_load (sys : System) (h : Reachable sys) :
    sys.self.getWriteLoad = max (loadBasis sys.taken) sys.self.mWriteSet.length
    ∧ sys.self.mWriteLoad = loadBasis sys.taken
    ∧ loadBasis []  = 0
    ∧ (∀ earlier : List Nat, loadBasis (0 :: earlier) = 0)
    ∧ (∀ (n : Nat) (earlier : List Nat), loadBasis ((n + 1) :: earlier) = earlier.headD 0)
    ∧ sys.self.mWriteSet.length ≤ sys.self.getWriteLoad := by
  have hl := (loadSound_reachable sys h).2.2
  refine ⟨by rw [getWriteLoad, hl], hl, rfl, fun _ => rfl, fun n e => by simp [loadBasis], ?_⟩
  unfold getWriteLoad
  exact Nat.le_max_right _ _

/-- Witness for C15: the state in which the drain job holds its first batch. -/
theorem C15_write_load_witness :
    afterFirstTake.self.getWriteLoad
        = max (loadBasis afterFirstTake.taken) afterFirstTake.self.mWriteSet.length
    ∧ afterFirstTake.self.mWriteLoad = loadBasis afterFirstTake.taken :=
  have h := C15_write_load afterFirstTake
    ⟨kvConfig, appEmpty, firstTakeActions, by decide⟩
  ⟨h.1, h.2.1⟩

/-- C15, the claim as stated fails.  After one `store`, the start of the drain
job and its first pass through the locked block, the last batch swapped out
of the write set has one record and the write set is empty, so the claim
gives a load of one; `getWriteLoad` returns zero, because the pass set
`mWriteLoad` from `setSize`, which still held the size of the previous batch
(source lines 180-181). -/
theorem C15_counterexample :
    run (boot kvConfig appEmpty) firstTakeActions = some afterFirstTake
    ∧ afterFirstTake.taken = [1]
    ∧ afterFirstTake.drains
        = [{ job := Job.bulkWriteLevelDB, setSize := 1,
             set := some [NodeObject.make hotLEDGER 42 [170, 187] hashA] }]
    ∧ afterFirstTake.self.mWriteSet = []
    ∧ afterFirstTake.self.getWriteLoad = 0
    ∧ max (afterFirstTake.taken.headD 0) afterFirstTake.self.mWriteSet.length = 1 := by
  decide

theorem effect_drains_length (s : System) (a : Action) (s' : System) (h : Effect s a s') :
    (s'.drains.length = s.drains.length
      ∧ (s'.self.app.jobQueue.length = s.self.app.jobQueue.length
        ∨ (s.self.mWritePending = false ∧ s'.self.mWritePending = true
          ∧ (∃ i, a = Action.stepStore i)
          ∧ s'.self.app.jobQueue.length = s.self.app.jobQueue.length + 1))
      ∧ (s.self.mWritePending = true → s'.self.mWritePending = true))
    ∨ (s'.drains.length = s.drains.length + 1
      ∧ s'.self.app.jobQueue.length + 1 = s.self.app.jobQueue.length
      ∧ s'.self.mWritePending = s.self.mWritePending)
    ∨ (s'.drains.length + 1 = s.drains.length
      ∧ s'.self.app.jobQueue.length = s.self.app.jobQueue.length
      ∧ (∃ j, a = Action.stepDrain j)
      ∧ s.self.mWriteSet = [] ∧ s'.self.mWriteSet = [] ∧ s'.self.mWritePending = false) := by
  cases h with
  | quiet hsame hd ht hw ha =>
    left
    exact ⟨by rw [hd], Or.inl (by rw [hsame.2.2.2.2]), fun hp => by rw [hsame.2.1]; exact hp⟩
  | queue i obj ha hs hd ht hw =>
    left
    obtain ⟨_, hp, _, _, hq⟩ := enqueue_coordinator s.self obj s.self.ownJob
    refine ⟨by rw [hd], ?_, fun _ => by rw [hs, hp]⟩
    cases hpend : s.self.mWritePending
    · right
      refine ⟨rfl, by rw [hs, hp], ⟨i, ha⟩, ?_⟩
      rw [hs, hq, hpend]
      simp
    · left
      rw [hs, hq, hpend]
      simp
  | start job rest ha hq hs hd ht hw =>
    right; left
    refine ⟨by rw [hd]; simp, ?_, by rw [hs]⟩
    rw [hs, hq]
    simp
  | exit j t ha hj hset hws hs hd ht hw =>
    right; right
    have hjlt : j < s.drains.length := by
      rcases Nat.lt_or_ge j s.drains.length with h1 | h1
      · exact h1
      · rw [List.getElem?_eq_none h1] at hj
        cases hj
    refine ⟨?_, by rw [hs], ⟨j, ha⟩, hws, by rw [hs], by rw [hs]⟩
    rw [hd, List.length_eraseIdx]
    simp only [hjlt, if_true]
    omega
  | take j t ha hj hset hws hs hd ht hw =>
    left
    exact ⟨by rw [hd]; simp, Or.inl (by rw [hs]), fun hp => by rw [hs]; exact hp⟩
  | write j t b ha hj hset hsame hd ht hw =>
    left
    exact ⟨by rw [hd]; simp, Or.inl (by rw [hsame.2.2.2.2]),
      fun hp => by rw [hsame.2.1]; exact hp⟩
  | waitCall ha hs hd ht hw =>
    left
    exact ⟨by rw [hd], Or.inl (by rw [hs]), fun hp => by rw [hs]; exact hp⟩
  | waitWoken i w0 w1 ha hs hd ht hi hk hw =>
    left
    exact ⟨by rw [hd], Or.inl (by rw [hs]), fun hp => by rw [hs]; exact hp⟩

/-- C11: in every state that the system of threads reaches from construction,
the drain jobs queued or started number at most one, and the pending flag is
set exactly when there is one.  A step adds a drain job only as the locked
block of `store`, with the flag clear before and set after; a step clears the
flag only as the pass of a drain job that returns. -/
theorem C11_single_flight (sys : System) (h : Reachable sys) :
    sys.self.app.jobQueue.length + sys.drains.length ≤ 1
    ∧ (sys.self.mWritePending = true
        ↔ sys.self.app.jobQueue.length + sys.drains.length = 1)
    ∧ (∀ (a : Action) (s' : System), step sys a = some s' →
        s'.self.app.jobQueue.length + s'.drains.length
          = sys.self.app.jobQueue.length + sys.drains.length + 1 →
        sys.self.mWritePending = false ∧ s'.self.mWritePending = true
        ∧ ∃ i, a = Action.stepStore i)
    ∧ (∀ (a : Action) (s' : System), step sys a = some s' →
        sys.self.mWritePending = true → s'.self.mWritePending = false →
        (∃ j, a = Action.stepDrain j) ∧ s'.drains.length + 1 = sys.drains.length) := by
  obtain ⟨hcount, _⟩ := singleFlight_reachable sys h
  refine ⟨?_, ?_, ?_, ?_⟩
  · cases hp : sys.self.mWritePending
    · rw [hp] at hcount
      simp only [Bool.false_eq_true, if_false] at hcount
      omega
    · rw [hp] at hcount
      simp only [if_true] at hcount
      omega
  · cases hp : sys.self.mWritePending
    · rw [hp] at hcount
      simp only [Bool.false_eq_true, if_false] at hcount
      simp only [Bool.false_eq_true, false_iff]
      omega
    · rw [hp] at hcount
      simp only [if_true] at hcount
      simp only [true_iff]
      exact hcount
  · intro a s' hst hinc
    rcases effect_drains_length sys a s' (step_effect sys a s' hst) with
      ⟨h1, h2 | ⟨h2, h3, h4, _⟩, _⟩ | ⟨h1, h2, _⟩ | ⟨h1, h2, _⟩
    · omega
    · exact ⟨h2, h3, h4⟩
    · omega
    · omega
  · intro a s' hst hp hp'
    rcases effect_drains_length sys a s' (step_effect sys a s' hst) with
      ⟨_, _, h3⟩ | ⟨_, _, h3⟩ | ⟨h1, _, h3, _⟩
    · rw [h3 hp] at hp'
      cases hp'
    · rw [h3, hp] at hp'
      cases hp'
    · exact ⟨h3, h1⟩

/-- Witness for C11: the state in which the drain job is queued and not yet
started. -/
theorem C11_single_flight_witness :
    afterQueue.self.app.jobQueue.length + afterQueue.drains.length ≤ 1
    ∧ (afterQueue.self.mWritePending = true
        ↔ afterQueue.self.app.jobQueue.length + afterQueue.drains.length = 1) :=
  have h := C11_single_flight afterQueue ⟨kvConfig, appEmpty, queueActions, by decide⟩
  ⟨h.1, h.2.1⟩

/-- C20: in every state that the system of threads reaches from construction,
if the pending flag is clear the write set is empty; so a non-empty write set
has the flag set and exactly one drain job queued or started.  A drain job
returns (the number of started jobs goes down) only in a pass whose
swapped-out batch, the whole write set, is empty, and it leaves the flag
clear and the write set empty. -/
theorem C20_pending_has_drain (sys : System) (h : Reachable sys) :
    (sys.self.mWritePending = false → sys.self.mWriteSet = [])
    ∧ (sys.self.mWriteSet ≠ [] →
        sys.self.mWritePending = true
        ∧ sys.self.app.jobQueue.length + sys.drains.length = 1)
    ∧ (∀ (a : Action) (s' : System), step sys a = some s' →
        s'.drains.length < sys.drains.length →
        (∃ j, a = Action.stepDrain j) ∧ sys.self.mWriteSet = [] ∧ s'.self.mWriteSet = []
        ∧ s'.self.mWritePending = false) := by
  obtain ⟨hcount, hempty⟩ := singleFlight_reachable sys h
  refine ⟨hempty, ?_, ?_⟩
  · intro hne
    cases hp : sys.self.mWritePending
    · exact absurd (hempty hp) hne
    · rw [hp] at hcount
      exact ⟨rfl, by simpa using hcount⟩
  · intro a s' hst hlt
    rcases effect_drains_length sys a s' (step_effect sys a s' hst) with
      ⟨h1, _⟩ | ⟨h1, _⟩ | ⟨_, _, h3, h4, h5, h6⟩
    · omega
    · omega
    · exact ⟨h3, h4, h5, h6⟩

/-- Witness for C20: the state in which the drain job holds its first batch. -/
theorem C20_pending_has_drain_witness :
    (afterFirstTake.self.mWritePending = false → afterFirstTake.self.mWriteSet = [])
    ∧ (afterFirstTake.self.mWriteSet ≠ [] →
        afterFirstTake.self.mWritePending = true
        ∧ afterFirstTake.self.app.jobQueue.length + afterFirstTake.drains.length = 1) :=
  have h := C20_pending_has_drain afterFirstTake
    ⟨kvConfig, appEmpty, firstTakeActions, by decide⟩
  ⟨h.1, h.2.1⟩

/-- C12 (as amended): the generation is a 32-bit `int`.  In every state that
the system of threads reaches from construction it is the number of passes of
drain jobs through their locked block so far, wrapped into the range of an
`int`: a step leaves it as it is unless it is such a pass, which adds one and
wraps from 2^31 - 1 to -2^31.  So a step from a generation other than
2^31 - 1 does not decrease it and such a pass adds exactly one.  While no
more than 2^31 - 1 passes have happened, every `waitWrite` call that has
returned either found no write pending when it read the generation at entry,
or returned at a generation strictly greater than the one it read, and every
call that waits found a write pending and read a generation that is not
above the current one. -/
theorem C12_generation (sys : System) (h : Reachable sys) :
    (∀ (a : Action) (s' : System), step sys a = some s' →
      s'.self.mWriteGeneration
        = (if isSwap sys a then intWrap (sys.self.mWriteGeneration + 1)
           else sys.self.mWriteGeneration))
    ∧ sys.self.mWriteGeneration = intWrap sys.taken.length
    ∧ intWrap (2147483647 + 1) = -2147483648
    ∧ (sys.self.mWriteGeneration ≠ 2147483647 →
        ∀ (a : Action) (s' : System), step sys a = some s' →
          sys.self.mWriteGeneration ≤ s'.self.mWriteGeneration
          ∧ s'.self.mWriteGeneration
              = sys.self.mWriteGeneration + (if isSwap sys a then 1 else 0))
    ∧ (sys.taken.length ≤ 2147483647 →
        (∀ w ∈ sys.waiters, ∀ g, w.returnedAt = some g →
          w.pendingAtEntry = false ∨ w.gen < g)
        ∧ (∀ w ∈ sys.waiters, w.returnedAt = none →
          w.pendingAtEntry = true ∧ w.gen ≤ sys.self.mWriteGeneration)) := by
  obtain ⟨hgen, hsound⟩ := waitersSound_reachable sys h
  refine ⟨fun a s' hst => generation_step sys a s' hst, hgen, intWrap_max, ?_, ?_⟩
  · intro hne a s' hst
    have hg := generation_step sys a s' hst
    have hr := intWrap_range sys.taken.length
    rw [← hgen] at hr
    have hw : intWrap (sys.self.mWriteGeneration + 1) = sys.self.mWriteGeneration + 1 :=
      intWrap_of_range _ (by omega) (by omega)
    rw [hw] at hg
    cases hsw : isSwap sys a <;> simp only [hsw, Bool.false_eq_true, if_false, if_true] at hg ⊢
    · rw [hg]; omega
    · rw [hg]; omega
  · intro hbound
    have hcast : ∀ m : Nat, m ≤ sys.taken.length → intWrap m = m := by
      intro m hm
      exact intWrap_of_range _ (by omega) (by omega)
    refine ⟨?_, ?_⟩
    · intro w hw g hr
      have hs := hsound w hw
      unfold Waiter.Sound at hs
      simp only [hr] at hs
      obtain ⟨k, j, h1, h2, h3, h4, h5⟩ := hs
      rcases h5 with h5 | h5
      · exact Or.inl h5
      · right
        rw [h3, h4, hcast k (by omega), hcast j h2]
        exact_mod_cast h5
    · intro w hw hr
      have hs := hsound w hw
      unfold Waiter.Sound at hs
      simp only [hr] at hs
      obtain ⟨h1, k, h2, h3, _⟩ := hs
      refine ⟨h1, ?_⟩
      rw [h3, hgen, hcast k h2, hcast _ (Nat.le_refl _)]
      exact_mod_cast h2

/-- Witness for C12: a `waitWrite` call that found a write pending at
generation 0 and returned at generation 1. -/
theorem C12_generation_witness :
    afterWait.self.mWriteGeneration = intWrap afterWait.taken.length
    ∧ (∀ w ∈ afterWait.waiters, ∀ g, w.returnedAt = some g →
        w.pendingAtEntry = false ∨ w.gen < g)
    ∧ afterWait.waiters = [{ gen := 0, pendingAtEntry := true, returnedAt := some 1 }]
    ∧ afterWait.self.mWriteGeneration = 2 :=
  have h := C12_generation afterWait ⟨kvConfig, appEmpty, waitActions, by decide⟩
  ⟨h.2.1, (h.2.2.2.2 (by decide)).1, by decide, by decide⟩

/-! ## C19: two threads store the same record -/

theorem countP_set_getElem {α : Type} (p : α → Bool) (l : List α) (i : Nat) (c c' : α)
    (h : l[i]? = some c) :
    (l.set i c').countP p + (if p c then 1 else 0)
      = l.countP p + (if p c' then 1 else 0) := by
  induction l generalizing i with
  | nil => simp at h
  | cons x xs ih =>
    cases i with
    | zero =>
      simp only [List.getElem?_cons_zero, Option.some.injEq] at h
      subst h
      simp only [List.set_cons_zero, List.countP_cons]
      omega
    | succ k =>
      simp only [List.getElem?_cons_succ] at h
      have := ih k h
      simp only [List.set_cons_succ, List.countP_cons]
      omega

theorem enqueue_primaryConfigured (self : HashedObjectStore) (object : NodeObject) (job : Job) :
    (self.enqueue object job).primaryConfigured = self.primaryConfigured := by
  cases h : self.mWritePending <;> simp [enqueue, h, primaryConfigured]

/-- What one step of a `store` call does, with the primary configured: the
call keeps its arguments, and the step is one of the six below. -/
theorem storeStep_shape (self st : HashedObjectStore) (c c' : StoreCall)
    (hprim : self.primaryConfigured = true) (hs : storeStep self c = some (st, c')) :
    c'.type = c.type ∧ c'.index = c.index ∧ c'.data = c.data ∧ c'.hash = c.hash
    ∧ st.primaryConfigured = true
    ∧ ((c.pc = StorePc.entry ∧ self.mCache.touch c.hash = true ∧ st.mCache = self.mCache
          ∧ st.mWriteSet = self.mWriteSet ∧ c'.queued = c.queued
          ∧ c'.pc = StorePc.returned false)
      ∨ (c.pc = StorePc.entry ∧ self.mCache.touch c.hash = false ∧ st.mCache = self.mCache
          ∧ st.mWriteSet = self.mWriteSet ∧ c'.queued = c.queued ∧ c'.pc = StorePc.construct)
      ∨ (c.pc = StorePc.construct ∧ self.mCache.touch c.hash = true ∧ st.mCache = self.mCache
          ∧ st.mWriteSet = self.mWriteSet ∧ c'.queued = c.queued ∧ c'.pc = StorePc.del)
      ∨ (c.pc = StorePc.construct ∧ self.mCache.touch c.hash = false
          ∧ st.mCache = { entries := self.mCache.entries
              ++ [(c.hash, NodeObject.make c.type c.index c.data c.hash)] }
          ∧ st.mWriteSet = self.mWriteSet ∧ c'.queued = c.queued ∧ c'.pc = StorePc.locked)
      ∨ (c.pc = StorePc.locked ∧ st.mCache = self.mCache
          ∧ st.mWriteSet = self.mWriteSet ++ [NodeObject.make c.type c.index c.data c.hash]
          ∧ c'.queued = true ∧ c'.pc = StorePc.del)
      ∨ (c.pc = StorePc.del ∧ st.mCache = self.mCache ∧ st.mWriteSet = self.mWriteSet
          ∧ c'.queued = c.queued ∧ c'.pc = StorePc.returned true)) := by
  unfold storeStep at hs
  cases hpc : c.pc with
  | entry =>
    simp only [hpc, hprim, Bool.not_true, Bool.false_eq_true, if_false] at hs
    cases ht : self.mCache.touch c.hash with
    | true =>
      simp only [ht, if_true, Option.some.injEq, Prod.mk.injEq] at hs
      obtain ⟨rfl, rfl⟩ := hs
      exact ⟨rfl, rfl, rfl, rfl, hprim, Or.inl ⟨rfl, rfl, rfl, rfl, rfl, rfl⟩⟩
    | false =>
      simp only [ht, Bool.false_eq_true, if_false, Option.some.injEq, Prod.mk.injEq] at hs
      obtain ⟨rfl, rfl⟩ := hs
      exact ⟨rfl, rfl, rfl, rfl, hprim, Or.inr (Or.inl ⟨rfl, rfl, rfl, rfl, rfl, rfl⟩)⟩
  | construct =>
    simp only [hpc] at hs
    cases ht : self.mCache.touch c.hash with
    | true =>
      have hl : ∃ o, self.mCache.entries.lookup c.hash = some o := by
        unfold TaggedCache.touch at ht
        cases hl : self.mCache.entries.lookup c.hash with
        | none => simp [TaggedCache.fetch, hl] at ht
        | some o => exact ⟨o, rfl⟩
      obtain ⟨o, hl⟩ := hl
      simp only [TaggedCache.canonicalize, hl, Bool.not_true, Bool.false_eq_true, if_false,
        Option.some.injEq, Prod.mk.injEq] at hs
      obtain ⟨rfl, rfl⟩ := hs
      exact ⟨rfl, rfl, rfl, rfl, by simpa [primaryConfigured] using hprim,
        Or.inr (Or.inr (Or.inl ⟨rfl, rfl, rfl, rfl, rfl, rfl⟩))⟩
    | false =>
      have hcan := canonicalize_of_touch_false self.mCache c.hash
        (NodeObject.make c.type c.index c.data c.hash) ht
      simp only [hcan, Bool.not_false, if_true, Option.some.injEq, Prod.mk.injEq] at hs
      obtain ⟨rfl, rfl⟩ := hs
      exact ⟨rfl, rfl, rfl, rfl, by simpa [primaryConfigured] using hprim,
        Or.inr (Or.inr (Or.inr (Or.inl ⟨rfl, rfl, rfl, rfl, rfl, rfl⟩)))⟩
  | locked =>
    simp only [hpc, Option.some.injEq, Prod.mk.injEq] at hs
    obtain ⟨rfl, rfl⟩ := hs
    exact ⟨rfl, rfl, rfl, rfl, by rw [enqueue_primaryConfigured]; exact hprim,
      Or.inr (Or.inr (Or.inr (Or.inr (Or.inl
        ⟨rfl, enqueue_mCache _ _ _, enqueue_mWriteSet _ _ _, rfl, rfl⟩))))⟩
  | del =>
    simp only [hpc, Option.some.injEq, Prod.mk.injEq] at hs
    obtain ⟨rfl, rfl⟩ := hs
    exact ⟨rfl, rfl, rfl, rfl, by simpa [primaryConfigured] using hprim,
      Or.inr (Or.inr (Or.inr (Or.inr (Or.inr ⟨rfl, rfl, rfl, rfl, rfl⟩))))⟩
  | returned r => simp [hpc] at hs

/-- A call that has not gone through the locked block while it stands before
the delete from the negative cache: a call at an earlier point has not. -/
theorem queued_false_of_not_pastCanonicalize (c : StoreCall) (hq : c.queued = true → c.pastCanonicalize = true)
    (hp : c.pastCanonicalize = false) : c.queued = false := by
  cases h : c.queued with
  | false => rfl
  | true => rw [hq h] at hp; cases hp

/-- A step of one of the racing `store` calls keeps the state of the race. -/
theorem storeRace_step (hash : uint256) (obj : NodeObject)
    (s : System) (i : Nat) (s' : System) (h : StoreRace hash obj s)
    (hst : step s (Action.stepStore i) = some s') : StoreRace hash obj s' := by
  obtain ⟨hprim, hargs, hwon, hcache, hq, hpast⟩ := h
  obtain ⟨c, c', st, hi, hs, rfl⟩ := step_stepStore s s' i hst
  have hc : c ∈ s.calls := List.getElem?_mem hi
  obtain ⟨hch, hcobj⟩ := hargs c hc
  have hcw := countP_set_getElem StoreCall.won s.calls i c c' hi
  have hmem : ∀ x ∈ s.calls.set i c', x ∈ s.calls ∨ x = c' :=
    fun x hx => List.mem_or_eq_of_mem_set hx
  obtain ⟨e1, e2, e3, e4, hprim', hcases⟩ := storeStep_shape s.self st c c' hprim hs
  have hargs' : ∀ x ∈ s.calls.set i c',
      x.hash = hash ∧ NodeObject.make x.type x.index x.data x.hash = obj := by
    intro x hx
    rcases hmem x hx with h1 | rfl
    · exact hargs x h1
    · rw [e1, e2, e3, e4]
      exact ⟨hch, hcobj⟩
  rw [hcobj] at hcases
  rw [hch] at hcases
  have hwonc : StoreCall.won c = (decide (c.pc = StorePc.locked) || c.queued) := rfl
  have hwonc' : StoreCall.won c' = (decide (c'.pc = StorePc.locked) || c'.queued) := rfl
  unfold StoreRace
  dsimp only
  refine ⟨hprim', hargs', ?_⟩
  rcases hcases with ⟨hpc, ht, hm, hw, hqq, hpc'⟩ | ⟨hpc, ht, hm, hw, hqq, hpc'⟩
    | ⟨hpc, ht, hm, hw, hqq, hpc'⟩ | ⟨hpc, ht, hm, hw, hqq, hpc'⟩
    | ⟨hpc, hm, hw, hqq, hpc'⟩ | ⟨hpc, hm, hw, hqq, hpc'⟩
  · -- entry, the hash is in the cache
    have hcq0 := queued_false_of_not_pastCanonicalize c (hq c hc) (by simp [StoreCall.pastCanonicalize, hpc])
    rw [hcq0] at hqq
    rw [hwonc, hwonc', hpc, hpc', hqq, hcq0] at hcw
    simp only [reduceCtorEq, decide_False, Bool.or_false, Bool.false_eq_true, if_false,
      Nat.add_zero] at hcw
    rw [hm, hcw]
    refine ⟨hwon, hcache, ?_, fun _ _ _ => ht⟩
    intro x hx hxq
    rcases hmem x hx with h1 | rfl
    · exact hq x h1 hxq
    · rw [hqq] at hxq; cases hxq
  · -- entry, the hash is not in the cache
    have hcq0 := queued_false_of_not_pastCanonicalize c (hq c hc) (by simp [StoreCall.pastCanonicalize, hpc])
    rw [hcq0] at hqq
    rw [hwonc, hwonc', hpc, hpc', hqq, hcq0] at hcw
    simp only [reduceCtorEq, decide_False, Bool.or_false, Bool.false_eq_true, if_false,
      Nat.add_zero] at hcw
    rw [hm, hcw]
    refine ⟨hwon, hcache, ?_, ?_⟩
    · intro x hx hxq
      rcases hmem x hx with h1 | rfl
      · exact hq x h1 hxq
      · rw [hqq] at hxq; cases hxq
    · intro x hx hxp
      rcases hmem x hx with h1 | rfl
      · exact hpast x h1 hxp
      · simp [StoreCall.pastCanonicalize, hpc'] at hxp
  · -- canonicalize, the hash is in the cache
    have hcq0 := queued_false_of_not_pastCanonicalize c (hq c hc) (by simp [StoreCall.pastCanonicalize, hpc])
    rw [hcq0] at hqq
    rw [hwonc, hwonc', hpc, hpc', hqq, hcq0] at hcw
    simp only [reduceCtorEq, decide_False, Bool.or_false, Bool.false_eq_true, if_false,
      Nat.add_zero] at hcw
    rw [hm, hcw]
    refine ⟨hwon, hcache, ?_, fun _ _ _ => ht⟩
    intro x hx hxq
    rcases hmem x hx with h1 | rfl
    · exact hq x h1 hxq
    · rw [hqq] at hxq; cases hxq
  · -- canonicalize, the hash is not in the cache: the call inserts
    have hcq0 := queued_false_of_not_pastCanonicalize c (hq c hc) (by simp [StoreCall.pastCanonicalize, hpc])
    rw [hcq0] at hqq
    rw [hwonc, hwonc', hpc, hpc', hqq, hcq0] at hcw
    simp only [reduceCtorEq, decide_False, decide_True, Bool.or_false, Bool.false_eq_true,
      if_false, if_true, Nat.add_zero] at hcw
    rw [ht] at hwon
    simp only [Bool.false_eq_true, if_false] at hwon
    have hfetch := fetch_after_insert s.self.mCache hash obj ht
    have htouch : TaggedCache.touch
        { entries := s.self.mCache.entries ++ [(hash, obj)] } hash = true := by
      rw [touch_eq_fetch_isSome, hfetch]; rfl
    rw [hm, htouch]
    refine ⟨?_, fun _ => ⟨hfetch, count_after_insert _ _ _ ht⟩, ?_, fun _ _ _ => rfl⟩
    · simp only [if_true]
      omega
    · intro x hx hxq
      rcases hmem x hx with h1 | rfl
      · exact hq x h1 hxq
      · rw [hqq] at hxq; cases hxq
  · -- locked: the call appends its record
    have hcq0 := queued_false_of_not_pastCanonicalize c (hq c hc) (by simp [StoreCall.pastCanonicalize, hpc])
    rw [hwonc, hwonc', hpc, hpc', hqq, hcq0] at hcw
    simp only [reduceCtorEq, decide_False, decide_True, Bool.or_false, Bool.or_true,
      Bool.false_eq_true, if_false, if_true, Nat.add_zero] at hcw
    have hcw' : (s.calls.set i c').countP StoreCall.won = s.calls.countP StoreCall.won := by
      omega
    have ht : s.self.mCache.touch hash = true := by
      cases ht : s.self.mCache.touch hash with
      | true => rfl
      | false =>
        rw [ht] at hwon
        simp only [Bool.false_eq_true, if_false] at hwon
        have hpos : 0 < s.calls.countP StoreCall.won :=
          List.countP_pos_iff.mpr ⟨c, hc, by simp [StoreCall.won, hpc]⟩
        omega
    rw [hm, hcw']
    refine ⟨hwon, hcache, ?_, fun _ _ _ => ht⟩
    intro x hx hxq
    rcases hmem x hx with h1 | rfl
    · exact hq x h1 hxq
    · simp [StoreCall.pastCanonicalize, hpc']
  · -- del: the call returns
    have ht : s.self.mCache.touch hash = true :=
      hpast c hc (by simp [StoreCall.pastCanonicalize, hpc])
    rw [hwonc, hwonc', hpc, hpc', hqq] at hcw
    simp only [reduceCtorEq, decide_False, Bool.false_or] at hcw
    have hcw' : (s.calls.set i c').countP StoreCall.won = s.calls.countP StoreCall.won := by
      omega
    rw [hm, hcw']
    refine ⟨hwon, hcache, ?_, fun _ _ _ => ht⟩
    intro x hx hxq
    rcases hmem x hx with h1 | rfl
    · exact hq x h1 hxq
    · simp [StoreCall.pastCanonicalize, hpc']

/-- While only the racing `store` calls take steps, the write set is what it
was when the race began followed by one record for each call that has gone
through the locked block. -/
theorem storeRace_writeSet_step (before : List NodeObject) (hash : uint256) (obj : NodeObject)
    (s : System) (i : Nat) (s' : System) (h : StoreRace hash obj s)
    (hws : s.self.mWriteSet
      = before ++ List.replicate (s.calls.countP (fun c => c.queued)) obj)
    (hst : step s (Action.stepStore i) = some s') :
    s'.self.mWriteSet
      = before ++ List.replicate (s'.calls.countP (fun c => c.queued)) obj := by
  obtain ⟨hprim, hargs, _, _, hq, _⟩ := h
  obtain ⟨c, c', st, hi, hs, rfl⟩ := step_stepStore s s' i hst
  have hc : c ∈ s.calls := List.getElem?_mem hi
  obtain ⟨hch, hcobj⟩ := hargs c hc
  have hcq := countP_set_getElem (fun c => c.queued) s.calls i c c' hi
  dsimp only at hcq
  obtain ⟨_, _, _, _, _, hcases⟩ := storeStep_shape s.self st c c' hprim hs
  rw [hcobj] at hcases
  show st.mWriteSet
    = before ++ List.replicate ((s.calls.set i c').countP (fun c => c.queued)) obj
  rcases hcases with ⟨hpc, ht, hm, hw, hqq, hpc'⟩ | ⟨hpc, ht, hm, hw, hqq, hpc'⟩
    | ⟨hpc, ht, hm, hw, hqq, hpc'⟩ | ⟨hpc, ht, hm, hw, hqq, hpc'⟩
    | ⟨hpc, hm, hw, hqq, hpc'⟩ | ⟨hpc, hm, hw, hqq, hpc'⟩
  · rw [hqq] at hcq
    have hcq' : (s.calls.set i c').countP (fun c => c.queued)
        = s.calls.countP (fun c => c.queued) := by
      omega
    rw [hw, hcq', hws]
  · rw [hqq] at hcq
    have hcq' : (s.calls.set i c').countP (fun c => c.queued)
        = s.calls.countP (fun c => c.queued) := by
      omega
    rw [hw, hcq', hws]
  · rw [hqq] at hcq
    have hcq' : (s.calls.set i c').countP (fun c => c.queued)
        = s.calls.countP (fun c => c.queued) := by
      omega
    rw [hw, hcq', hws]
  · rw [hqq] at hcq
    have hcq' : (s.calls.set i c').countP (fun c => c.queued)
        = s.calls.countP (fun c => c.queued) := by
      omega
    rw [hw, hcq', hws]
  · have hcq0 := queued_false_of_not_pastCanonicalize c (hq c hc) (by simp [StoreCall.pastCanonicalize, hpc])
    rw [hqq, hcq0] at hcq
    simp only [Bool.false_eq_true, if_false, if_true, Nat.add_zero] at hcq
    rw [hw, hcq, hws, List.replicate_succ', List.append_assoc]
  · rw [hqq] at hcq
    have hcq' : (s.calls.set i c').countP (fun c => c.queued)
        = s.calls.countP (fun c => c.queued) := by
      omega
    rw [hw, hcq', hws]

/-- A step of a drain job leaves the positive cache and the primary pointers
as they are. -/
theorem drainStep_cache (self s : HashedObjectStore) (t : DrainTask) (ot : Option DrainTask)
    (h : drainStep self t = some (s, ot)) :
    s.mCache = self.mCache ∧ s.primaryConfigured = self.primaryConfigured := by
  unfold drainStep at h
  cases hs : t.set with
  | none =>
    simp only [hs, drainSwap] at h
    cases hw : self.mWriteSet with
    | nil =>
      simp only [hw, List.isEmpty_nil, if_true, Option.some.injEq, Prod.mk.injEq] at h
      rw [← h.1]
      exact ⟨rfl, rfl⟩
    | cons o os =>
      simp only [hw, List.isEmpty_cons, Bool.false_eq_true, if_false, Option.some.injEq,
        Prod.mk.injEq] at h
      rw [← h.1]
      exact ⟨rfl, rfl⟩
  | some b =>
    simp only [hs] at h
    cases hj : t.job with
    | bulkWriteLevelDB =>
      simp only [hj] at h
      cases hw : self.writeOutLevelDB b with
      | none => simp [hw] at h
      | some s1 =>
        simp only [hw, Option.map_some', Option.some.injEq, Prod.mk.injEq] at h
        rw [← h.1]
        unfold writeOutLevelDB at hw
        cases hd : self.app.hashNodeLDB with
        | none => simp [hd] at hw
        | some db =>
          simp only [hd] at hw
          cases he : self.mEphemeralDB <;>
            (simp only [he, Bool.false_eq_true, if_false, if_true, Option.some.injEq] at hw
             rw [← hw]
             simp [primaryConfigured, hd])
    | bulkWriteSQLite =>
      simp only [hj] at h
      cases hw : self.writeOutSQLite b with
      | none => simp [hw] at h
      | some s1 =>
        simp only [hw, Option.map_some', Option.some.injEq, Prod.mk.injEq] at h
        rw [← h.1]
        unfold writeOutSQLite at hw
        cases he : self.mEphemeralDB <;>
          simp only [he, Bool.false_eq_true, if_false, if_true] at hw
        · cases hd : self.app.hashNodeDB with
          | none => simp [hd] at hw
          | some db =>
            simp only [hd, Option.some.injEq] at hw
            rw [← hw]
            simp [primaryConfigured, hd]
        · cases hd : self.app.hashNodeDB with
          | none => simp [hd] at hw
          | some db =>
            simp only [hd, Option.some.injEq] at hw
            rw [← hw]
            simp [primaryConfigured, hd]

/-- The start of a drain job and a step of a drain job keep the state of the
race and the `store` calls. -/
theorem storeRace_drain (hash : uint256) (obj : NodeObject) (s : System) (a : Action)
    (s' : System) (h : StoreRace hash obj s) (ha : a.isDrainStep = true)
    (hst : step s a = some s') : StoreRace hash obj s' ∧ s'.calls = s.calls := by
  have hkeep : s'.self.mCache = s.self.mCache
      ∧ s'.self.primaryConfigured = s.self.primaryConfigured ∧ s'.calls = s.calls := by
    cases a with
    | startJob =>
      simp only [step] at hst
      cases hjq : s.self.app.jobQueue with
      | nil => simp [hjq] at hst
      | cons job rest =>
        simp only [hjq, Option.some.injEq] at hst
        rw [← hst]
        exact ⟨rfl, rfl, rfl⟩
    | stepDrain j =>
      obtain ⟨t, st, ot, _, hd, hself, hcalls, _, _, _⟩ := step_stepDrain s s' j hst
      have := drainStep_cache s.self st t ot hd
      rw [hself]
      exact ⟨this.1, this.2, hcalls⟩
    | callStore _ _ _ _ => cases ha
    | stepStore _ => cases ha
    | callRetrieve _ => cases ha
    | callWait => cases ha
    | wakeWait _ => cases ha
  obtain ⟨hm, hp, hc⟩ := hkeep
  refine ⟨?_, hc⟩
  unfold StoreRace at h ⊢
  rw [hm, hp, hc]
  exact h

theorem storeRace_run (hash : uint256) (obj : NodeObject) (acts : List Action) :
    ∀ (s s' : System), StoreRace hash obj s →
      (∀ a ∈ acts, a.isStoreStep = true ∨ a.isDrainStep = true) →
      run s acts = some s' →
      StoreRace hash obj s' ∧ s'.calls.length = s.calls.length := by
  induction acts with
  | nil =>
    intro s s' hs _ h
    simp only [run, Option.some.injEq] at h
    exact h ▸ ⟨hs, rfl⟩
  | cons a rest ih =>
    intro s s' hs hacts h
    simp only [run] at h
    cases hst : step s a with
    | none => simp [hst] at h
    | some next =>
      simp only [hst] at h
      have hrest : ∀ b ∈ rest, b.isStoreStep = true ∨ b.isDrainStep = true :=
        fun b hb => hacts b (List.mem_cons_of_mem _ hb)
      rcases hacts a (List.mem_cons_self _ _) with ha | ha
      · cases a with
        | stepStore i =>
          have hnext := storeRace_step hash obj s i next hs hst
          obtain ⟨c, c', st, _, _, hn⟩ := step_stepStore s next i hst
          have hlen : next.calls.length = s.calls.length := by
            rw [hn]
            simp
          have := ih next s' hnext hrest h
          exact ⟨this.1, this.2.trans hlen⟩
        | callStore _ _ _ _ => cases ha
        | callRetrieve _ => cases ha
        | startJob => cases ha
        | stepDrain _ => cases ha
        | callWait => cases ha
        | wakeWait _ => cases ha
      · have hnext := storeRace_drain hash obj s a next hs ha hst
        have := ih next s' hnext.1 hrest h
        exact ⟨this.1, by rw [this.2, hnext.2]⟩

theorem storeRace_writeSet_run (before : List NodeObject) (hash : uint256) (obj : NodeObject)
    (acts : List Action) :
    ∀ (s s' : System), StoreRace hash obj s →
      s.self.mWriteSet = before ++ List.replicate (s.calls.countP (fun c => c.queued)) obj →
      (∀ a ∈ acts, a.isStoreStep = true) →
      run s acts = some s' →
      s'.self.mWriteSet
        = before ++ List.replicate (s'.calls.countP (fun c => c.queued)) obj := by
  induction acts with
  | nil =>
    intro s s' _ hws _ h
    simp only [run, Option.some.injEq] at h
    exact h ▸ hws
  | cons a rest ih =>
    intro s s' hs hws hacts h
    simp only [run] at h
    cases hst : step s a with
    | none => simp [hst] at h
    | some next =>
      simp only [hst] at h
      have hrest : ∀ b ∈ rest, b.isStoreStep = true :=
        fun b hb => hacts b (List.mem_cons_of_mem _ hb)
      have ha := hacts a (List.mem_cons_self _ _)
      cases a with
      | stepStore i =>
        exact ih next s' (storeRace_step hash obj s i next hs hst)
          (storeRace_writeSet_step before hash obj s i next hs hws hst) hrest h
      | callStore _ _ _ _ => cases ha
      | callRetrieve _ => cases ha
      | startJob => cases ha
      | stepDrain _ => cases ha
      | callWait => cases ha
      | wakeWait _ => cases ha

/-- C19: two threads have entered `store` (either variant) with the same
arguments on a store with the primary configured and the hash absent from
the positive cache.  Under every interleaving of their atomic steps (the test
with `touch`, `canonicalize`, the locked block, the delete from the negative
cache) with each other and with the steps of the drain job, once both calls
have returned the positive cache holds exactly one record for the hash, the
record they built, and exactly one of the two calls has gone through the
locked block, where the record is appended to the write set; when no drain
job has taken a step in between, the write set has grown by exactly that one
record. -/
theorem C19_concurrent_stores (start final : System) (type : NodeObjectType) (index : Nat)
    (data : Blob) (hash : uint256) (acts : List Action)
    (hcalls : start.calls
      = [StoreCall.enter type index data hash, StoreCall.enter type index data hash])
    (hprimary : start.self.primaryConfigured = true)
    (hpos : start.self.mCache.touch hash = false)
    (hacts : ∀ a ∈ acts, a.isStoreStep = true ∨ a.isDrainStep = true)
    (hrun : run start acts = some final)
    (hdone : ∀ c ∈ final.calls, c.isReturned = true) :
    final.self.mCache.count hash = 1
    ∧ final.self.mCache.fetch hash = some (NodeObject.make type index data hash)
    ∧ final.calls.length = 2
    ∧ final.calls.countP (fun c => c.queued) = 1
    ∧ ((∀ a ∈ acts, a.isStoreStep = true) →
        final.self.mWriteSet
          = start.self.mWriteSet ++ [NodeObject.make type index data hash]) := by
  have hinit : StoreRace hash (NodeObject.make type index data hash) start := by
    unfold StoreRace
    rw [hcalls, hpos]
    refine ⟨hprimary, ?_, ?_, ?_, ?_, ?_⟩
    · intro c hc
      simp only [List.mem_cons, List.mem_singleton, List.not_mem_nil, or_false, or_self] at hc
      subst hc
      exact ⟨rfl, rfl⟩
    · simp [StoreCall.won, StoreCall.enter]
    · intro h
      cases h
    · intro c hc hq
      simp only [List.mem_cons, List.mem_singleton, List.not_mem_nil, or_false, or_self] at hc
      subst hc
      simp [StoreCall.enter] at hq
    · intro c hc hp
      simp only [List.mem_cons, List.mem_singleton, List.not_mem_nil, or_false, or_self] at hc
      subst hc
      simp [StoreCall.enter, StoreCall.pastCanonicalize] at hp
  have hinitws : start.self.mWriteSet = start.self.mWriteSet
      ++ List.replicate (start.calls.countP (fun c => c.queued))
          (NodeObject.make type index data hash) := by
    rw [hcalls]
    simp [StoreCall.enter]
  obtain ⟨⟨_, _, hwon, hcache, hq, hpast⟩, hlen⟩ :=
    storeRace_run hash _ acts start final hinit hacts hrun
  rw [hcalls] at hlen
  have hpastAll : ∀ c ∈ final.calls, c.pastCanonicalize = true := by
    intro c hc
    have := hdone c hc
    unfold StoreCall.isReturned at this
    unfold StoreCall.pastCanonicalize
    cases hpc : c.pc <;> simp_all
  have htouch : final.self.mCache.touch hash = true := by
    cases hfc : final.calls with
    | nil => simp [hfc] at hlen
    | cons c cs => exact hpast c (by rw [hfc]; exact List.mem_cons_self _ _) (hpastAll c
        (by rw [hfc]; exact List.mem_cons_self _ _))
  obtain ⟨hfetch, hcount⟩ := hcache htouch
  have hsame : final.calls.countP (fun c => c.queued) = final.calls.countP StoreCall.won := by
    apply List.countP_congr
    intro c hc
    have := hdone c hc
    unfold StoreCall.isReturned at this
    unfold StoreCall.won
    cases hpc : c.pc <;> simp_all
  rw [htouch] at hwon
  simp only [if_true] at hwon
  refine ⟨hcount, hfetch, hlen, by rw [hsame, hwon], ?_⟩
  intro hstore
  rw [storeRace_writeSet_run start.self.mWriteSet hash _ acts start final hinit hinitws
    hstore hrun, hsame, hwon]
  rfl

/-- Witness for C19: an interleaving in which both threads pass `touch`
before either calls `canonicalize`; and the same interleaving with the drain
job at work before the calls return. -/
theorem C19_concurrent_stores_witness :
    (afterRace.self.mCache.count hashA = 1
      ∧ afterRace.self.mCache.fetch hashA
          = some (NodeObject.make hotTRANSACTION 7 [1, 2] hashA)
      ∧ afterRace.calls.length = 2
      ∧ afterRace.calls.countP (fun c => c.queued) = 1
      ∧ afterRace.self.mWriteSet
          = twoCallers.self.mWriteSet ++ [NodeObject.make hotTRANSACTION 7 [1, 2] hashA])
    ∧ (afterRaceDrain.self.mCache.count hashA = 1
      ∧ afterRaceDrain.calls.countP (fun c => c.queued) = 1) :=
  have h := C19_concurrent_stores twoCallers afterRace hotTRANSACTION 7 [1, 2] hashA
    raceSchedule (by decide) (by decide) (by decide) (by decide) (by decide) (by decide)
  have hd := C19_concurrent_stores twoCallers afterRaceDrain hotTRANSACTION 7 [1, 2] hashA
    raceDrainSchedule (by decide) (by decide) (by decide) (by decide) (by decide) (by decide)
  ⟨⟨h.1, h.2.1, h.2.2.1, h.2.2.2.1, h.2.2.2.2 (by decide)⟩, hd.1, hd.2.2.2.1⟩

/-! ## C21: the three encoders of the key-value layout -/

theorem be32_mod (x : Nat) : be32 (x % 4294967296) = be32 x := by
  unfold be32
  have h1 : x % 4294967296 / 16777216 % 256 = x / 16777216 % 256 := by omega
  have h2 : x % 4294967296 / 65536 % 256 = x / 65536 % 256 := by omega
  have h3 : x % 4294967296 / 256 % 256 = x / 256 % 256 := by omega
  have h4 : x % 4294967296 % 256 = x % 256 := by omega
  rw [h1, h2, h3, h4]

/-- The loop body of the migration in terms of the value layout: a row with a
zero hash is skipped; any other row is put under its raw hash with the index
twice in network order, the type byte and the payload. -/
theorem importRow_layout (st : LevelDB × Nat) (row : SqlRow) :
    importRow st row
      = (if row.Hash.isZero then st
         else (st.1.Put row.Hash.slice
                (be32 row.LedgerIndex ++ be32 row.LedgerIndex
                  ++ [importType (firstChar row.ObjType) % 256] ++ row.Object),
               st.2 + 1)) := by
  unfold importRow
  simp only [importRow_rawData, be32_mod]

/-- C21: the three encoders of the key-value layout agree.  For every record
and every legacy row with the record's hash, ledger index and payload whose
type character the migration maps to the record's type (as `L`, `T`, `A`, `N`
are mapped to Ledger, Transaction, AccountNode, TransactionNode), there is one
key-value pair, the raw hash with the value of §4.4, such that the single
`LLWrite` puts exactly this pair; the batch `LLWrite` records exactly this
pair for the record, wherever the record stands in the set; and the migration
puts exactly this pair for the row, whatever rows came before it, unless the
hash is zero, in which case the migration skips the row.  So the databases
after the single write, after the batch write of the record alone and after
the migration of the row are the same. -/
theorem C21_encoders_agree (obj : NodeObject) (row : SqlRow) (db : LevelDB)
    (before after : List NodeObject)
    (hhash : row.Hash = obj.mHash) (hindex : row.LedgerIndex = obj.mLedgerIndex)
    (hdata : row.Object = obj.mData)
    (htype : importType (firstChar row.ObjType) = obj.mType) :
    ∃ kv : Slice × Slice,
      kv = (obj.mHash.pn, specValue obj)
      ∧ LLWrite obj db = db.Put kv.1 kv.2
      ∧ (LLWrite obj db).entries = kv :: db.entries
      ∧ (LLWriteBatch (before ++ obj :: after)).puts.get? before.length = some kv
      ∧ (LLWriteBatch [obj]).puts = [kv]
      ∧ LLWriteSet [obj] db = LLWrite obj db
      ∧ (∀ st : LevelDB × Nat,
          importRow st row
            = (if obj.mHash.isZero then st else (st.1.Put kv.1 kv.2, st.2 + 1)))
      ∧ (obj.mHash.isZero = false →
          (∀ count : Nat, importRow (db, count) row = (LLWrite obj db, count + 1))
          ∧ ∀ self : HashedObjectStore, self.app.hashNodeLDB = some db →
              self.importFile { CommittedObjects := [row] }
                = some (1, { self with
                    app := { self.app with hashNodeLDB := some (LLWrite obj db) } }))
      ∧ (importType 'L' = hotLEDGER ∧ importType 'T' = hotTRANSACTION
          ∧ importType 'A' = hotACCOUNT_NODE ∧ importType 'N' = hotTRANSACTION_NODE) := by
  have himp : ∀ st : LevelDB × Nat,
      importRow st row
        = (if obj.mHash.isZero then st
           else (st.1.Put obj.mHash.pn (specValue obj), st.2 + 1)) := by
    intro st
    rw [importRow_layout, hhash, hindex, hdata, htype]
    rfl
  refine ⟨(obj.mHash.pn, specValue obj), rfl, LLWrite_eq obj db, ?_, ?_, ?_, ?_, himp, ?_,
    rfl, rfl, rfl, rfl⟩
  · rw [LLWrite_eq]; rfl
  · rw [LLWriteBatch_puts, List.get?_eq_getElem?, List.map_append, List.map_cons]
    rw [List.getElem?_eq_some]
    exact ⟨by simp, List.getElem_of_append rfl (by simp)⟩
  · rw [LLWriteBatch_puts]; rfl
  · rw [LLWriteSet, LevelDB.Write, LLWriteBatch_puts, LLWrite_eq]; rfl
  · intro hz
    have hrow : ∀ count : Nat, importRow (db, count) row = (LLWrite obj db, count + 1) := by
      intro count
      rw [himp, hz, LLWrite_eq]
      rfl
    refine ⟨hrow, ?_⟩
    intro self hdb
    unfold importFile
    rw [hdb]
    simp only [List.foldl_cons, List.foldl_nil, hrow]

/-- Witness for C21: an AccountNode record and its legacy row. -/
theorem C21_encoders_agree_witness :
    ∃ kv : Slice × Slice,
      kv = (accountRecord.mHash.pn, specValue accountRecord)
      ∧ LLWrite accountRecord { entries := [] } = LevelDB.Put { entries := [] } kv.1 kv.2
      ∧ (LLWriteBatch ([] ++ accountRecord :: [])).puts.get? 0 = some kv
      ∧ (∀ st : LevelDB × Nat,
          importRow st accountRow
            = (if accountRecord.mHash.isZero then st else (st.1.Put kv.1 kv.2, st.2 + 1)))
      ∧ kv.2 = [1, 2, 3, 4, 1, 2, 3, 4, 3, 222, 173, 190] :=
  have h := C21_encoders_agree accountRecord accountRow { entries := [] } [] []
    (by decide) (by decide) (by decide) (by decide)
  h.elim fun kv hkv =>
    ⟨kv, hkv.1, hkv.2.1, hkv.2.2.2.1, hkv.2.2.2.2.2.2.1, by rw [hkv.1]; decide⟩

/-! ## C12: the generation wraps -/

theorem getElem?_append_self {α : Type} (l : List α) (a : α) :
    (l ++ [a])[l.length]? = some a := by
  induction l with
  | nil => rfl
  | cons x xs ih => simp

theorem set_append_self {α : Type} (l : List α) (a b : α) :
    (l ++ [a]).set l.length b = l ++ [b] := by
  induction l with
  | nil => rfl
  | cons x xs ih => simp

theorem hashOf_ne (m n : Nat) (hm : m < 4294967296) (hn : n < 4294967296) (hne : m ≠ n) :
    hashOf m ≠ hashOf n := by
  intro h
  unfold hashOf at h
  simp only [uint256.mk.injEq, List.append_cancel_left_eq, be32, List.cons.injEq,
    and_true] at h
  omega

/-- The pass of the only drain job through its locked block when the write
set is empty: the job returns. -/
theorem last_pass (s : System) (t : DrainTask) (hd : s.drains = [t]) (hset : t.set = none)
    (hws : s.self.mWriteSet = []) :
    step s (Action.stepDrain 0)
      = some
          { s with
            self :=
              { s.self with
                mWriteSet := []
                mWriteGeneration := intWrap (s.self.mWriteGeneration + 1)
                mWritePending := false
                mWriteLoad := 0 }
            drains := []
            taken := 0 :: s.taken } := by
  simp [step, hd, drainStep, hset, drainSwap, hws]

/-- From a store at rest after `n` records, the write activity for record
number `n` runs: after its head the drain job has written its batch and
stands before its last pass, with a write pending; the last pass is possible
and leaves the store at rest after `n + 1` records. -/
theorem cycle_runs (n : Nat) (sys : System) (hn : n < 4294967296) (h : AtRest n sys) :
    ∃ s8 s9 : System,
      run sys (cycleHead n n) = some s8
      ∧ s8.taken.length = 2 * n + 1 ∧ s8.waiters = [] ∧ s8.self.mWritePending = true
      ∧ s8.self.mWriteSet = []
      ∧ s8.drains = [{ job := Job.bulkWriteLevelDB, setSize := 1, set := none }]
      ∧ step s8 (Action.stepDrain 0) = some s9
      ∧ isSwap s8 (Action.stepDrain 0) = true
      ∧ AtRest (n + 1) s9 := by
  rcases sys with ⟨⟨cache, neg, ws, g, l, p, lv, e, ⟨ldb, eph, sdb, q, r⟩⟩, calls, drains,
    waiters, taken⟩
  obtain ⟨h1, h2, h3, h4, h5, h6, h7, h8, hc, h9⟩ := h
  simp only at h1 h2 h3 h4 h5 h6 h7 h8 hc h9
  subst h1 h3 h4 h5 h6 h7 hc
  have ht : cache.touch (hashOf calls.length) = false := h9 calls.length (Nat.le_refl _) hn
  have hcan := canonicalize_of_touch_false cache (hashOf calls.length)
    (NodeObject.make hotLEDGER 0 [] (hashOf calls.length)) ht
  have hlater : ∀ m, calls.length + 1 ≤ m → m < 4294967296 →
      TaggedCache.touch
        { entries := cache.entries
            ++ [(hashOf calls.length, NodeObject.make hotLEDGER 0 [] (hashOf calls.length))] }
        (hashOf m) = false := by
    intro m hm hm'
    rw [touch_after_insert_other cache (hashOf calls.length) (hashOf m) _
      (hashOf_ne m calls.length hm' hn (by omega))]
    exact h9 m (by omega) hm'
  cases ldb with
  | none => simp at h2
  | some db =>
    cases e with
    | false =>
      cases hr : run
          { self :=
              { mCache := cache, mNegativeCache := neg, mWriteSet := [], mWriteGeneration := g,
                mWriteLoad := l, mWritePending := false, mLevelDB := true,
                mEphemeralDB := false,
                app :=
                  { hashNodeLDB := some db, ephemeralLDB := eph, hashNodeDB := sdb,
                    jobQueue := [], dbReads := r } },
            calls := calls, drains := [], waiters := [], taken := taken }
          (cycleHead calls.length calls.length) with
      | none =>
        simp [cycleHead, run, step, getElem?_append_self, set_append_self, storeStep,
          StoreCall.enter, primaryConfigured, ht, hcan, enqueue, ownJob, drainStep, drainSwap,
          writeOutLevelDB] at hr
      | some s8 =>
        simp [cycleHead, run, step, getElem?_append_self, set_append_self, storeStep,
          StoreCall.enter, primaryConfigured, ht, hcan, enqueue, ownJob, drainStep, drainSwap,
          writeOutLevelDB] at hr
        subst hr
        refine ⟨_, _, rfl, by simp [h8], rfl, rfl, rfl, rfl, last_pass _ _ rfl rfl rfl,
          by simp [isSwap], ?_⟩
        exact ⟨rfl, rfl, rfl, rfl, rfl, rfl, rfl, by simp [h8]; omega, by simp, hlater⟩
    | true =>
      cases hr : run
          { self :=
              { mCache := cache, mNegativeCache := neg, mWriteSet := [], mWriteGeneration := g,
                mWriteLoad := l, mWritePending := false, mLevelDB := true,
                mEphemeralDB := true,
                app :=
                  { hashNodeLDB := some db, ephemeralLDB := eph, hashNodeDB := sdb,
                    jobQueue := [], dbReads := r } },
            calls := calls, drains := [], waiters := [], taken := taken }
          (cycleHead calls.length calls.length) with
      | none =>
        simp [cycleHead, run, step, getElem?_append_self, set_append_self, storeStep,
          StoreCall.enter, primaryConfigured, ht, hcan, enqueue, ownJob, drainStep, drainSwap,
          writeOutLevelDB] at hr
      | some s8 =>
        simp [cycleHead, run, step, getElem?_append_self, set_append_self, storeStep,
          StoreCall.enter, primaryConfigured, ht, hcan, enqueue, ownJob, drainStep, drainSwap,
          writeOutLevelDB] at hr
        subst hr
        refine ⟨_, _, rfl, by simp [h8], rfl, rfl, rfl, rfl, last_pass _ _ rfl rfl rfl,
          by simp [isSwap], ?_⟩
        exact ⟨rfl, rfl, rfl, rfl, rfl, rfl, rfl, by simp [h8]; omega, by simp, hlater⟩

theorem run_append (s : System) (a b : List Action) :
    run s (a ++ b) = (run s a).bind (fun mid => run mid b) := by
  induction a generalizing s with
  | nil => rfl
  | cons x xs ih =>
    simp only [List.cons_append, run]
    cases step s x with
    | none => rfl
    | some next => exact ih next

/-- The write activity for `n` records runs from a fresh key-value store and
leaves it at rest after `n` records. -/
theorem spin_runs (n : Nat) (hn : n ≤ 4294967296) :
    ∃ sys : System, run (boot kvConfig appEmpty) (spinActions n) = some sys ∧ AtRest n sys := by
  induction n with
  | zero =>
    refine ⟨boot kvConfig appEmpty, rfl, by decide, by decide, by decide, by decide,
      by decide, by decide, by decide, by decide, by decide, ?_⟩
    intro m _ _
    rfl
  | succ n ih =>
    obtain ⟨sys, hrun, hrest⟩ := ih (by omega)
    obtain ⟨s8, s9, h8, _, _, _, _, _, hstep, _, h9⟩ := cycle_runs n sys (by omega) hrest
    refine ⟨s9, ?_, h9⟩
    rw [spinActions, run_append, hrun]
    show run sys (cycleHead n n ++ [Action.stepDrain 0]) = some s9
    rw [run_append, h8]
    show run s8 [Action.stepDrain 0] = some s9
    simp only [run, hstep]

/-- With a write pending, the only drain job before its locked block and the
write set empty, a `waitWrite` call that enters now waits, and after the pass
of the job its wake-up returns at the generation after the pass. -/
theorem late_wait_runs (s : System) (t : DrainTask) (hw : s.waiters = [])
    (hp : s.self.mWritePending = true) (hd : s.drains = [t]) (hset : t.set = none)
    (hws : s.self.mWriteSet = []) :
    ∃ late : System,
      run s lateWaitActions = some late
      ∧ late.waiters
          = [{ gen := s.self.mWriteGeneration, pendingAtEntry := true,
               returnedAt := some (intWrap (s.self.mWriteGeneration + 1)) }] := by
  cases hr : run s lateWaitActions with
  | none =>
    simp [lateWaitActions, run, step, hw, hp, hd, hset, hws, waitEnter, waitCondition,
      drainStep, drainSwap, waitWake] at hr
  | some late =>
    simp [lateWaitActions, run, step, hw, hp, hd, hset, hws, waitEnter, waitCondition,
      drainStep, drainSwap, waitWake] at hr
    refine ⟨late, rfl, ?_⟩
    rw [← hr]

/-- C12, the claim as stated fails.  On a fresh key-value store the write
activity for 2^30 - 1 records, followed by the store of one more record and
the first pass and the writes of its drain job, reaches a state whose
generation is 2^31 - 1.  The next pass of the drain job through its locked
block takes the generation to -2^31, which is less.  A `waitWrite` call that
enters in that state finds the write pending, reads 2^31 - 1 and, woken after
the pass, returns at the generation -2^31, which is not greater than the one
it read. -/
theorem C12_counterexample :
    ∃ (sys next late : System),
      run (boot kvConfig appEmpty) (spinActions 1073741823 ++ cycleHead 1073741823 1073741823)
        = some sys
      ∧ sys.self.mWriteGeneration = 2147483647
      ∧ step sys (Action.stepDrain 0) = some next
      ∧ isSwap sys (Action.stepDrain 0) = true
      ∧ next.self.mWriteGeneration = -2147483648
      ∧ next.self.mWriteGeneration < sys.self.mWriteGeneration
      ∧ run sys lateWaitActions = some late
      ∧ late.waiters
          = [{ gen := 2147483647, pendingAtEntry := true, returnedAt := some (-2147483648) }] := by
  obtain ⟨rest, hrun, hrest⟩ := spin_runs 1073741823 (by decide)
  obtain ⟨sys, next, h8, htaken, hwait, hpend, hws, hdr, hstep, hswap, _⟩ :=
    cycle_runs 1073741823 rest (by decide) hrest
  have hreach : Reachable sys :=
    ⟨kvConfig, appEmpty, spinActions 1073741823 ++ cycleHead 1073741823 1073741823, by
      rw [run_append, hrun]
      exact h8⟩
  have hgen : sys.self.mWriteGeneration = 2147483647 := by
    rw [(waitersSound_reachable sys hreach).1, htaken]
    decide
  have hnext : next.self.mWriteGeneration = -2147483648 := by
    rw [generation_step sys (Action.stepDrain 0) next hstep, hswap, hgen]
    decide
  obtain ⟨late, hlate, hlw⟩ := late_wait_runs sys _ hwait hpend hdr rfl hws
  refine ⟨sys, next, late, ?_, hgen, hstep, hswap, hnext, ?_, hlate, ?_⟩
  · rw [run_append, hrun]
    exact h8
  · rw [hnext, hgen]
    decide
  · rw [hlw, hgen]
    rfl

/-! ## C10: a retrieval with a `store` in between -/

/-- C10, the claim as stated fails when calls overlap.  On a fresh key-value
store, where no hash is in a cache, a retrieval of `hashA` reads the primary
and finds nothing; before it goes on, another thread stores a record under
`hashA`, completely: the record is in the positive cache and the hash is not
in the negative cache; then the retrieval adds the hash to the negative
cache and returns nothing.  Both calls have returned and the hash is in both
caches.  The same happens in the SQL variant.  Within a single `store` call
that follows a miss, the hash is in both caches between `canonicalize` and
`mNegativeCache.del`. -/
theorem C10_counterexample :
    CachesDisjoint kvStore
    ∧ (kvStore.retrieveLevelDBRead hashA).1 = ReadOutcome.read none
    ∧ CachesDisjoint ((kvStore.retrieveLevelDBRead hashA).2.store hotLEDGER 42 [170, 187] hashA).2
    ∧ (kvStore.retrieveAroundStore hotLEDGER 42 [170, 187] hashA).1 = none
    ∧ (kvStore.retrieveAroundStore hotLEDGER 42 [170, 187] hashA).2.mCache.touch hashA = true
    ∧ (kvStore.retrieveAroundStore hotLEDGER 42 [170, 187] hashA).2.mNegativeCache.isPresent
        hashA = true
    ∧ ¬ CachesDisjoint (kvStore.retrieveAroundStore hotLEDGER 42 [170, 187] hashA).2
    ∧ CachesDisjoint sqlStore
    ∧ ¬ CachesDisjoint (sqlStore.retrieveAroundStore hotLEDGER 42 [170, 187] hashA).2
    ∧ run (boot kvConfig appEmpty) missThenStoreActions = some afterMissThenStore
    ∧ afterMissThenStore.self.mCache.touch hashA = true
    ∧ afterMissThenStore.self.mNegativeCache.isPresent hashA = true := by
  decide

end HashedObjectStore

end Ripple
